import Mathlib

/-!
# minidocker: resource limits, security profiles and the container lifecycle

A shallow embedding of the Go sources of the `container`, `cmd` and `pkg/utils` packages.

Conventions of the embedding

* A Go `string` is a Lean `String`, read as its sequence of runes (byte sequences that are
  not valid UTF-8 are outside the embedding).
* `uint64` values are natural numbers; every arithmetic step that Go performs in
  `uint64` is reduced modulo `2 ^ 64`.
* A Go `(T, error)` result is an `Except`.
* `strings.ToLower` maps every rune with `unicode.ToLower`.  On ASCII this is the
  map `A..Z ↦ a..z`; the Unicode case table for the runes from `0x80` upwards is a
  parameter `tbl` of every function that lowercases, so each theorem holds for
  whatever that table contains.
-/

namespace Minidocker

deriving instance DecidableEq for Except

/-! ## Strings -/

/-- The ASCII branch of `unicode.ToLower` and the case table `tbl` for the other runes. -/
def toLowerRune (tbl : Char → Char) (c : Char) : Char :=
  if c.toNat < 128 then
    (if 'A'.toNat ≤ c.toNat ∧ c.toNat ≤ 'Z'.toNat then Char.ofNat (c.toNat + 32) else c)
  else tbl c

/-- Go `strings.ToLower`: the string with every rune lowercased. -/
def ToLower (tbl : Char → Char) (s : String) : String :=
  String.mk (s.data.map (toLowerRune tbl))

/-- Go `strings.HasSuffix(s, string(c))` for a one-rune suffix, on the rune sequence. -/
def hasSuffixChar (s : List Char) (c : Char) : Bool :=
  s.getLast? == some c

/-- Go `strings.TrimSuffix(s, string(c))` for a one-rune suffix, on the rune sequence. -/
def trimSuffixChar (s : List Char) (c : Char) : List Char :=
  if hasSuffixChar s c then s.dropLast else s

/-! ## `strconv.ParseUint(s, 10, 64)` -/

/-- The two failures of `strconv.ParseUint`: `ErrSyntax` and `ErrRange`. -/
inductive NumError where
  | errSyntax
  | errRange
deriving DecidableEq, Repr

/-- The largest `uint64`. -/
def maxUint64 : Nat := 2 ^ 64 - 1

/-- The `cutoff` of `ParseUint` for base 10: the smallest `n` with `n * 10 > maxUint64`. -/
def cutoff10 : Nat := maxUint64 / 10 + 1

/-- The digit loop of `ParseUint` for base 10 and bit size 64, with the accumulator `n`.
A rune that is not `0..9` is a syntax failure (a letter has a digit value of at least
the base, any other byte has none); the two overflow tests are those of the library. -/
def parseUintLoop : Nat → List Char → Except NumError Nat
  | n, [] => .ok n
  | n, c :: cs =>
    if '0'.toNat ≤ c.toNat ∧ c.toNat ≤ '9'.toNat then
      let d := c.toNat - '0'.toNat
      if n ≥ cutoff10 then .error .errRange
      else
        let n0 := (n * 10) % 2 ^ 64
        let n1 := (n0 + d) % 2 ^ 64
        if n1 < n0 ∨ n1 > maxUint64 then .error .errRange
        else parseUintLoop n1 cs
    else .error .errSyntax

/-- Go `strconv.ParseUint(s, 10, 64)` on the rune sequence of `s`. -/
def ParseUint (s : List Char) : Except NumError Nat :=
  if s = [] then .error .errSyntax else parseUintLoop 0 s

/-! ## Resource limits (`internal.go`) -/

/-- Go `parseMemoryLimit`: a memory string such as `64m` to bytes. -/
def parseMemoryLimit (tbl : Char → Char) (limit : String) : Except NumError Nat :=
  if limit = "" then .ok 67108864
  else
    let lim := (ToLower tbl limit).data
    let ms : Nat × List Char :=
      if hasSuffixChar lim 'k' then (1024, lim.dropLast)
      else if hasSuffixChar lim 'm' then (1024 * 1024, lim.dropLast)
      else if hasSuffixChar lim 'g' then (1024 * 1024 * 1024, lim.dropLast)
      else (1, lim)
    match ParseUint ms.2 with
    | .error e => .error e
    | .ok value => .ok ((value * ms.1) % 2 ^ 64)

/-- Go `parseCPULimit`: a CPU percentage to a quota out of 100000. -/
def parseCPULimit (limit : String) : Except NumError Nat :=
  if limit = "" then .ok 10000
  else
    match ParseUint (trimSuffixChar limit.data '%') with
    | .error e => .error e
    | .ok value =>
      let value := if value > 100 then 100 else value
      .ok (((value * 100000) % 2 ^ 64) / 100)

/-! ## Decimal numerals, as the specification speaks of them -/

/-- An ASCII decimal digit. -/
def isDecDigit (c : Char) : Prop := '0'.toNat ≤ c.toNat ∧ c.toNat ≤ '9'.toNat

instance (c : Char) : Decidable (isDecDigit c) := by
  unfold isDecDigit; infer_instance

/-- The number that a sequence of decimal digits denotes. -/
def decVal (ds : List Char) : Nat :=
  ds.foldl (fun a c => 10 * a + (c.toNat - '0'.toNat)) 0

/-- A non-empty sequence of ASCII decimal digits denoting a value below `2 ^ 64`. -/
def isUint64Numeral (ds : List Char) : Prop :=
  ds ≠ [] ∧ (∀ c ∈ ds, isDecDigit c) ∧ decVal ds < 2 ^ 64

instance (ds : List Char) : Decidable (isUint64Numeral ds) := by
  unfold isUint64Numeral; infer_instance

/-- The multiplier that the specification gives to a suffix: 1024 for `k`, 1024² for `m`,
1024³ for `g`, in either case, and 1 when there is no suffix. -/
def suffixMultiplier (sfx : List Char) : Nat :=
  if sfx = ['k'] ∨ sfx = ['K'] then 1024
  else if sfx = ['m'] ∨ sfx = ['M'] then 1024 ^ 2
  else if sfx = ['g'] ∨ sfx = ['G'] then 1024 ^ 3
  else 1

/-- The suffixes of a memory string: none, or one letter `k`, `m`, `g` in either case. -/
def memorySuffixes : List (List Char) :=
  [[], ['k'], ['m'], ['g'], ['K'], ['M'], ['G']]

/-- What remains of a memory string after lowercasing and removing at most one trailing
`k`, `m` or `g`. -/
def memoryRemainder (tbl : Char → Char) (s : String) : List Char :=
  let l := (ToLower tbl s).data
  match l.getLast? with
  | some c => if c = 'k' ∨ c = 'm' ∨ c = 'g' then l.dropLast else l
  | none => l

/-- One step of the positional value of a digit sequence. -/
def decStep (a : Nat) (c : Char) : Nat := 10 * a + (c.toNat - '0'.toNat)

/-- The remainder that `parseMemoryLimit` hands to `ParseUint` and its multiplier. -/
def memorySplit (lim : List Char) : Nat × List Char :=
  if hasSuffixChar lim 'k' then (1024, lim.dropLast)
  else if hasSuffixChar lim 'm' then (1024 * 1024, lim.dropLast)
  else if hasSuffixChar lim 'g' then (1024 * 1024 * 1024, lim.dropLast)
  else (1, lim)

/-! ## Security profiles (`security.go`) -/

/-- Go `SecurityProfile`. -/
structure SecurityProfile where
  Name : String
  SeccompProfile : String
  Capabilities : List String
  NoNewPrivs : Bool
  ReadOnlyRootfs : Bool
  AppArmorProfile : String
deriving DecidableEq, Repr

/-- Go `DefaultSecurityProfile`. -/
def DefaultSecurityProfile : SecurityProfile :=
  { Name := "default"
    SeccompProfile := "default"
    Capabilities := ["CHOWN", "DAC_OVERRIDE", "FSETID", "FOWNER", "MKNOD", "NET_RAW", "SETGID",
      "SETUID", "SETFCAP", "SETPCAP", "NET_BIND_SERVICE", "SYS_CHROOT", "KILL", "AUDIT_WRITE"]
    NoNewPrivs := true
    ReadOnlyRootfs := false
    AppArmorProfile := "minidocker-default" }

/-- Go `RestrictedSecurityProfile`. -/
def RestrictedSecurityProfile : SecurityProfile :=
  { Name := "restricted"
    SeccompProfile := "restricted"
    Capabilities := ["CHOWN", "DAC_OVERRIDE", "FSETID", "FOWNER", "NET_BIND_SERVICE", "SETGID",
      "SETUID"]
    NoNewPrivs := true
    ReadOnlyRootfs := true
    AppArmorProfile := "minidocker-restricted" }

/-- Go `PrivilegedSecurityProfile`. -/
def PrivilegedSecurityProfile : SecurityProfile :=
  { Name := "privileged"
    SeccompProfile := "unconfined"
    Capabilities := ["ALL"]
    NoNewPrivs := false
    ReadOnlyRootfs := false
    AppArmorProfile := "unconfined" }

/-- The message of the error that `GetSecurityProfile` returns for an unknown name:
`fmt.Errorf("profil keamanan '%s' tidak dikenal", name)`. -/
def unknownProfileMessage (name : String) : String :=
  "profil keamanan '" ++ name ++ "' tidak dikenal"

/-- Go `GetSecurityProfile`: the `switch` on `strings.ToLower(name)`. -/
def GetSecurityProfile (tbl : Char → Char) (name : String) : Except String SecurityProfile :=
  let l := ToLower tbl name
  if l = "default" then .ok DefaultSecurityProfile
  else if l = "restricted" then .ok RestrictedSecurityProfile
  else if l = "privileged" then .ok PrivilegedSecurityProfile
  else .error (unknownProfileMessage name)

/-- The profile resolution of the `run` command (`commands.go`, the `Action` of `RunCommand`,
from reading the flags `security-profile`, `read-only` and `privileged` to the profile handed
to `RunContainerWithSecurity`). -/
def runActionProfile (tbl : Char → Char) (securityProfile : String) (readOnly privileged : Bool) :
    Except String SecurityProfile :=
  let securityProfile := if privileged then "privileged" else securityProfile
  match GetSecurityProfile tbl securityProfile with
  | .error err => .error err
  | .ok secProfile =>
    .ok (if readOnly then { secProfile with ReadOnlyRootfs := true } else secProfile)

/-! ## The container store (`container.go`)

The metadata store and the OS process table are explicit state.

* A path is the list of components of a cleaned absolute path, as `filepath.Join` and
  `filepath.Clean` produce it.
* The store maps a directory to the two files the runtime keeps in it: `config.json` and
  `container.log`.  A `config.json` that decodes is held as the record it decodes to.
  Directories are tracked only as far as they hold (or were created to hold) these files.
* File operations on the store are reliable: a file that is present can be read and
  rewritten.  The failure points of a launch are explicit in `RunEnv`.
* The rootfs of a container lies in the tree of `ContainerDir`: `containers/<id>/rootfs` is
  the container directory of the ID `<id>/rootfs`.  Of `image.ExtractImage` the store sees
  the files `config.json` and `container.log` that the entries of the archive create
  (`RunEnv.archive`) and the file it writes next to the rootfs: `extractImageConfig` copies
  the image configuration to the `config.json` of the container directory.
* The directories of the store are distinct directories: a symbolic link that makes one
  directory another name of a second one is outside the embedding.
-/

/-- Go `Container`; `CreatedAt` is a time stamp. -/
structure Container where
  ID : String
  Name : String
  Image : String
  Status : String
  Pid : Int
  CreatedAt : Nat
  Volumes : List String
  Ports : List String
  Memory : String
  CPU : String
  LogFile : String
deriving DecidableEq, Repr

/-- Go constant `ContainerDir`. -/
def ContainerDir : String := "/var/run/minidocker/containers"

/-- Go constant `StateStopped`. -/
def StateStopped : String := "stopped"

/-- Go constant `StateRunning`. -/
def StateRunning : String := "running"

/-- A cleaned absolute path, as its components. -/
abbrev Path := List String

/-- The pieces of a rune sequence between slashes; `cur` is the piece being read, reversed. -/
def splitSlash : List Char → List Char → List (List Char)
  | cur, [] => [cur.reverse]
  | cur, c :: cs => if c = '/' then cur.reverse :: splitSlash [] cs else splitSlash (c :: cur) cs

/-- The slash-separated components of a path string (empty ones included). -/
def components (s : String) : List String :=
  (splitSlash [] s.data).map String.mk

/-- One step of `filepath.Clean` on a rooted path; `acc` is the stack of kept components,
innermost first: empty components and `.` are dropped, `..` removes the component before
it and disappears at the root. -/
def cleanStep (acc : List String) (c : String) : List String :=
  if c = "" ∨ c = "." then acc
  else if c = ".." then acc.tail
  else c :: acc

/-- Go `filepath.Join` of elements of which the first is absolute: the components of the
cleaned result. -/
def joinPath (elems : List String) : Path :=
  ((elems.map components).flatten.foldl cleanStep []).reverse

/-- The string of a cleaned absolute path. -/
def pathString (p : Path) : String := "/" ++ "/".intercalate p

/-- Go `filepath.Join(ContainerDir, containerID)`: the directory of a container. -/
def containerPath (containerID : String) : Path :=
  joinPath [ContainerDir, containerID]

/-- The content of a `config.json`: no such file, a file that `json.Unmarshal` rejects, or
a file that decodes to a record. -/
inductive ConfigFile where
  | missing
  | corrupt
  | record (c : Container)
deriving DecidableEq, Repr

/-- The runtime's files in one directory: `config.json` and `container.log` (`none`: no such
file). -/
structure Slot where
  config : ConfigFile
  log : Option String
deriving DecidableEq, Repr

/-- The store: directories with their files, in the order in which `ReadDir` enumerates them. -/
abbrev Store := List (Path × Slot)

/-- The files of directory `p`, if the store has the directory. -/
def Store.read : Store → Path → Option Slot
  | [], _ => none
  | e :: rest, p => if e.1 = p then some e.2 else Store.read rest p

/-- The store with the files of directory `p` changed by `f`. -/
def Store.change : Store → Path → (Slot → Slot) → Store
  | [], _, _ => []
  | e :: rest, p, f => if e.1 = p then (e.1, f e.2) :: rest else e :: Store.change rest p f

/-- Go `os.MkdirAll(p)` when it succeeds: the directory exists afterwards. -/
def Store.mkdir (st : Store) (p : Path) : Store :=
  match st.read p with
  | some _ => st
  | none => st ++ [(p, { config := .missing, log := none })]

/-- The record held by the `config.json` of a directory, when it is there and decodes. -/
def Store.record? (st : Store) (p : Path) : Option Container :=
  match st.read p with
  | some { config := .record c, .. } => some c
  | _ => none

/-- The file of the store that a path string names. -/
inductive FileRef where
  | config (dir : Path)
  | log (dir : Path)
  | other
deriving DecidableEq, Repr

/-- The file of the store named by a path string: an absolute path whose last component is
`config.json` or `container.log`.  Any other file, and a relative path (resolved against the
working directory of the command), is outside the store. -/
def fileRef (path : String) : FileRef :=
  if path.data.head? = some '/' then
    match (joinPath [path]).reverse with
    | f :: d =>
      if f = "config.json" then .config d.reverse
      else if f = "container.log" then .log d.reverse
      else .other
    | [] => .other
  else .other

/-- Go `os.OpenFile(path, O_APPEND|O_WRONLY)` followed by a write of `text`: nothing happens
when the file does not exist; text appended to a `config.json` leaves a file that no longer
decodes (the text written here starts with a line break and an opening bracket). -/
def appendFile (st : Store) (path : String) (text : String) : Store :=
  match fileRef path with
  | .config d =>
    st.change d (fun s =>
      { s with config := match s.config with
                         | .missing => .missing
                         | _ => .corrupt })
  | .log d => st.change d (fun s => { s with log := s.log.map (fun l => l ++ text) })
  | .other => st

/-- The state: the store, the ids that the kernel resolves (a positive entry is a live
process, which has a directory `/proc/<pid>`; an entry below `-1` is a live process group as
`kill(2)` addresses it) and the ids that the caller may not signal. -/
structure World where
  store : Store
  procs : List Int
  guarded : List Int
deriving DecidableEq, Repr

/-- The failures of the lifecycle operations, one for each error that the code returns. -/
inductive Failure where
  | initDir            -- "gagal membuat direktori container" (initContainerDir)
  | mkdir              -- "gagal membuat direktori container" (container root)
  | createLog          -- "gagal membuat file log"
  | mkRootfs           -- "gagal membuat rootfs"
  | extractImage       -- "gagal ekstrak image"
  | openLog            -- "gagal membuka file log"
  | start              -- "gagal menjalankan container"
  | writeConfig        -- "gagal menulis config.json"
  | notFound (id : String)        -- "container dengan ID %s tidak ditemukan"
  | badConfig          -- "gagal membaca konfigurasi container"
  | alreadyStopped (id : String)  -- "container %s sudah berhenti"
  | killFailed         -- "gagal menghentikan proses"
  | notRunning (id : String)      -- "container %s tidak berjalan"
  | commandFailed      -- the error of the command that was run
  | configUnreadable   -- "gagal membaca config container" (logs)
  | logMissing (id : String)      -- "file log untuk container '%s' tidak ditemukan"
  | notLinux           -- "kontainer hanya bisa berjalan di Linux"
  | setupMounts        -- "gagal setup mounts"
  | chroot             -- "gagal chroot"
  | chdir              -- "gagal chdir ke /"
  | readDir            -- "gagal membaca direktori container"
  | cgroupMkdir        -- "gagal membuat cgroup"
  | setMemory          -- "gagal set memory limit"
  | setCpu             -- "gagal set cpu limit"
  | addPid             -- "gagal tambahkan pid ke cgroup"
  | pathTraversal (name : String)  -- "path traversal terdeteksi: %s"
  | signal             -- the error of `process.Signal` or `process.Kill`
  | portFormat (port : String)     -- "format port tidak valid: %s"
  | seekFailed         -- "error saat membaca posisi file", "error saat menyetel posisi file"
  | statFailed         -- "error saat membaca info file"
  | containerGone (id : String)    -- "container '%s' dihentikan"
deriving DecidableEq, Repr

/-- Go `getContainers`: the records of the subdirectories of `ContainerDir` whose
`config.json` is readable and decodes, in enumeration order. -/
def getContainers (st : Store) : List Container :=
  st.filterMap (fun e =>
    if e.1.dropLast = joinPath [ContainerDir] ∧ e.1 ≠ [] then
      match e.2.config with
      | .record c => some c
      | _ => none
    else none)

/-- Go `getContainer`. -/
def getContainer (st : Store) (containerID : String) : Except Failure Container :=
  match (st.read (containerPath containerID)).map (fun s => s.config) with
  | some (ConfigFile.record c) => .ok c
  | some ConfigFile.corrupt => .error .badConfig
  | _ => .error (.notFound containerID)

/-- Go `updateContainerStatus`: read the record, set its status, write it back. -/
def updateContainerStatus (st : Store) (containerID status : String) : Except Failure Store :=
  match (st.read (containerPath containerID)).map (fun s => s.config) with
  | some (ConfigFile.record c) =>
    .ok (st.change (containerPath containerID)
      (fun s => { s with config := .record { c with Status := status } }))
  | some ConfigFile.corrupt => .error .badConfig
  | _ => .error (.notFound containerID)

/-- The probe of `ListContainers` for a live process: `c.Pid > 0` and `/proc/<pid>` exists. -/
def pidRunning (w : World) (pid : Int) : Bool :=
  decide (pid > 0) && w.procs.contains pid

/-- A line of the table that `ListContainers` prints: the record and the status shown. -/
structure ListRow where
  container : Container
  status : String
deriving DecidableEq, Repr

/-- The body of the loop of `ListContainers` for one record of the snapshot. -/
def listStep (w : World) (acc : List ListRow × Store) (c : Container) : List ListRow × Store :=
  if !pidRunning w c.Pid && c.Status == StateRunning then
    (acc.1 ++ [{ container := c, status := StateStopped }],
      match updateContainerStatus acc.2 c.ID StateStopped with
      | .ok st => st
      | .error _ => acc.2)
  else (acc.1 ++ [{ container := c, status := c.Status }], acc.2)

/-- Go `ListContainers`: the printed rows and the state afterwards. -/
def ListContainers (w : World) : List ListRow × World :=
  let r := (getContainers w.store).foldl (listStep w) ([], w.store)
  (r.1, { w with store := r.2 })

/-! ## Stopping, launching, exec and logs -/

/-- Go `process.Signal` on a Unix host: the pids `-1` and `0` are refused by the library;
otherwise `kill(2)` succeeds when the id resolves and the caller may signal it. -/
def signalOk (w : World) (pid : Int) : Bool :=
  pid != -1 && pid != 0 && w.procs.contains pid && !w.guarded.contains pid

/-- Go `killProcess` on a Unix host: `SIGTERM`, whose failure is returned; then, after the
grace period, `SIGKILL`, whose failure is ignored.  After a delivered `SIGTERM` and the
`SIGKILL` that follows, the process is gone. -/
def killProcess (w : World) (pid : Int) : Bool × World :=
  if signalOk w pid then (true, { w with procs := w.procs.filter (fun q => q != pid) })
  else (false, w)

/-- The line that `StopContainer` appends to the log; `now` is the formatted time. -/
def stopMarker (now : String) : String :=
  "\n[" ++ now ++ "] Container stopped\n"

/-- Go `StopContainer`; `now` is `time.Now().Format(time.RFC3339)`. -/
def StopContainer (w : World) (now : String) (containerID : String) :
    Except Failure Unit × World :=
  match (w.store.read (containerPath containerID)).map (fun s => s.config) with
  | some (ConfigFile.record container) =>
    if container.Status = StateStopped then (.error (.alreadyStopped containerID), w)
    else
      match killProcess w container.Pid with
      | (false, w1) => (.error .killFailed, w1)
      | (true, w1) =>
        match updateContainerStatus w1.store containerID StateStopped with
        | .error err => (.error err, w1)
        | .ok st =>
          (.ok (),
            { w1 with store :=
                if container.LogFile ≠ "" then appendFile st container.LogFile (stopMarker now)
                else st })
  | some ConfigFile.corrupt => (.error .badConfig, w)
  | _ => (.error (.notFound containerID), w)

/-- The arguments of `RunContainerWithSecurity`. -/
structure RunArgs where
  imageName : String
  containerName : String
  volumes : List String
  ports : List String
  memory : String
  cpu : String
  secProfile : SecurityProfile
deriving DecidableEq, Repr

/-- What `extractImageConfig` (`image.go`) left in the `config.json` of the container
directory: it copies `rootfs/image-config.json`, or a default image configuration, to
`rootfs/../config.json`, and a failure to write is only a warning.  The bytes written come
from the image; `decoded` is what they decode to when read as a `Container`. -/
inductive ImageConfigWrite where
  | notWritten
  | written (decoded : Option Container)
deriving DecidableEq, Repr

/-- The `config.json` of the container directory after `extractImageConfig`. -/
def ImageConfigWrite.apply (wr : ImageConfigWrite) (s : Slot) : Slot :=
  match wr with
  | .notWritten => s
  | .written none => { s with config := .corrupt }
  | .written (some c) => { s with config := .record c }

/-- A file or directory of the tree of `ContainerDir` that `image.ExtractImage` creates for
an entry of the archive.  The entries are written at `filepath.Join(rootfs, header.Name)`,
and the rootfs `containers/<id>/rootfs` lies in that tree: it is the container directory of
the ID `<id>/rootfs`, and a direct subdirectory of `ContainerDir` for the name `.`; a
symbolic-link entry lets later entries land in any directory.  An entry `config.json` or
`container.log` therefore is a file of the store; `content` is what the bytes of a
`config.json` decode to when read as a `Container`. -/
inductive ArchiveWrite where
  | dir (d : Path)
  | config (d : Path) (content : Option Container)
  | log (d : Path) (content : String)
deriving DecidableEq, Repr

/-- The store after an entry is written: `os.MkdirAll` of the directory, then `os.Create`
and `io.Copy` of the file. -/
def ArchiveWrite.apply (st : Store) : ArchiveWrite → Store
  | .dir d => st.mkdir d
  | .config d content =>
    (st.mkdir d).change d (fun s =>
      { s with config := match content with
                         | some c => .record c
                         | none => .corrupt })
  | .log d content => (st.mkdir d).change d (fun s => { s with log := some content })

/-- The directory in which an entry writes a `config.json`. -/
def ArchiveWrite.configDir : ArchiveWrite → Option Path
  | .config d _ => some d
  | _ => none

/-- The store after the entry loop of `image.ExtractImage` has written `archive`. -/
def extractArchive (st : Store) (archive : List ArchiveWrite) : Store :=
  archive.foldl ArchiveWrite.apply st

/-- What the environment answers to a launch: the outcome of each step of
`RunContainerWithSecurity` that can fail, the token of `utils.GenerateID(8)`, the files of
the store that the entry loop of `image.ExtractImage` wrote before it returned (with success
or with an error), what a successful `image.ExtractImage` left in `config.json`, the pid of
the child when `cmd.Start` succeeds, and the time. -/
structure RunEnv where
  initDirOk : Bool
  genID : String
  mkdirOk : Bool
  createLogOk : Bool
  mkRootfsOk : Bool
  archive : List ArchiveWrite
  extractOk : Bool
  imageConfig : ImageConfigWrite
  openLogOk : Bool
  startPid : Option Int
  writeOk : Bool
  now : Nat
deriving DecidableEq, Repr

/-- The container ID of a launch: the name, or the generated token when the name is empty. -/
def runContainerID (env : RunEnv) (a : RunArgs) : String :=
  if a.containerName = "" then env.genID else a.containerName

/-- Go `RunContainerWithSecurity`.  Port mapping and `ApplySecurityProfile` only print (their
errors are warnings, see `RunContainerWithSecurityPorts`); `image.ExtractImage` writes the entries of the
archive, which stay when it fails, and ends with `extractImageConfig`, which writes the
image configuration to the `config.json` of the container directory; the child is started by
`cmd.Start`, which does not wait for it. -/
def RunContainerWithSecurity (w : World) (env : RunEnv) (a : RunArgs) :
    Except Failure Unit × World :=
  if !env.initDirOk then (.error .initDir, w)
  else
    let containerID := runContainerID env a
    let containerRootDir := containerPath containerID
    if !env.mkdirOk then (.error .mkdir, w)
    else
      let w1 : World := { w with store := w.store.mkdir containerRootDir }
      let logFile := pathString (containerRootDir ++ ["container.log"])
      if !env.createLogOk then (.error .createLog, w1)
      else
        let w2 : World :=
          { w1 with store := w1.store.change containerRootDir (fun s => { s with log := some "" }) }
        if !env.mkRootfsOk then (.error .mkRootfs, w2)
        else
          let w2x : World := { w2 with store := extractArchive w2.store env.archive }
          if !env.extractOk then (.error .extractImage, w2x)
          else
          let w3 : World :=
            { w2x with store := w2x.store.change containerRootDir env.imageConfig.apply }
          if !env.openLogOk then (.error .openLog, w3)
          else
            match env.startPid with
            | none => (.error .start, w3)
            | some pid =>
              let w4 : World := { w3 with procs := pid :: w3.procs }
              let container : Container :=
                { ID := containerID
                  Name := a.containerName
                  Image := a.imageName
                  Status := StateRunning
                  Pid := pid
                  CreatedAt := env.now
                  Volumes := a.volumes
                  Ports := a.ports
                  Memory := a.memory
                  CPU := a.cpu
                  LogFile := logFile }
              if !env.writeOk then (.error .writeConfig, w4)
              else
                let written : Store :=
                  w4.store.change containerRootDir (fun s => { s with config := .record container })
                (.ok (), { w4 with store := written })

/-- What the environment answers to the child of a launch: the host OS and the outcome of
each step of `InternalStartContainer`. -/
structure ChildEnv where
  goos : String
  mountOk : Bool
  pivotRootOk : Bool
  cgroupsOk : Bool
  chrootOk : Bool
  chdirOk : Bool
  commandOk : Bool
deriving DecidableEq, Repr

/-- The steps of `InternalStartContainer`. -/
inductive ChildStep where
  | mounts
  | cgroups
  | chroot
  | chdir
  | command
deriving DecidableEq, Repr

/-- Go `setupMountsLinux`: the mounts of `proc`, `sysfs` and `tmpfs`, then `pivotRoot`. -/
def setupMountsLinux (env : ChildEnv) : Bool :=
  env.mountOk && env.pivotRootOk

/-- Go `InternalStartContainer`, run by the child: the steps attempted and the result. -/
def InternalStartContainer (env : ChildEnv) : List ChildStep × Except Failure Unit :=
  if env.goos ≠ "linux" then ([], .error .notLinux)
  else if !setupMountsLinux env then ([.mounts], .error .setupMounts)
  else if !env.chrootOk then ([.mounts, .cgroups, .chroot], .error .chroot)
  else if !env.chdirOk then ([.mounts, .cgroups, .chroot, .chdir], .error .chdir)
  else if !env.commandOk then
    ([.mounts, .cgroups, .chroot, .chdir, .command], .error .commandFailed)
  else ([.mounts, .cgroups, .chroot, .chdir, .command], .ok ())

/-- A launch seen from both processes: the result and state of `RunContainerWithSecurity` in
the parent and, when `cmd.Start` was reached and succeeded, the result of
`InternalStartContainer` in the child. -/
def launch (w : World) (env : RunEnv) (cenv : ChildEnv) (a : RunArgs) :
    (Except Failure Unit × World) × Option (Except Failure Unit) :=
  (RunContainerWithSecurity w env a,
    if env.initDirOk && env.mkdirOk && env.createLogOk && env.mkRootfsOk && env.extractOk
        && env.openLogOk && env.startPid.isSome then
      some (InternalStartContainer cenv).2
    else none)

/-- Go `ExecInContainer`; `linux` is `utils.IsLinux()` and `commandOk` the outcome of the
`nsenter` command.  The store is only read. -/
def ExecInContainer (w : World) (linux commandOk : Bool) (containerID : String) :
    Except Failure Unit × World :=
  match getContainer w.store containerID with
  | .error err => (.error err, w)
  | .ok container =>
    if container.Status ≠ StateRunning then (.error (.notRunning containerID), w)
    else if linux then ((if commandOk then .ok () else .error .commandFailed), w)
    else (.ok (), w)

/-- Go `LogsFromContainer` with `follow = false`: the bytes copied to the output. -/
def LogsFromContainer (w : World) (id : String) : Except Failure String :=
  match w.store.read (containerPath id) with
  | none => .error (.notFound id)
  | some s =>
    match s.config with
    | .missing => .error .configUnreadable
    | _ =>
      match s.log with
      | none => .error (.logMissing id)
      | some l => .ok l

/-- The commands of the lifecycle, each with what the environment answers to it. -/
inductive Op where
  | run (env : RunEnv) (a : RunArgs)
  | list
  | stop (now : String) (containerID : String)
  | exec (linux commandOk : Bool) (containerID : String)
  | logs (containerID : String) (follow : Bool)
deriving DecidableEq, Repr

/-- The state after a command.  `logs` reads the store in both modes. -/
def step (w : World) : Op → World
  | .run env a => (RunContainerWithSecurity w env a).2
  | .list => (ListContainers w).2
  | .stop now containerID => (StopContainer w now containerID).2
  | .exec linux commandOk containerID => (ExecInContainer w linux commandOk containerID).2
  | .logs _ _ => w

/-- A run of commands; before each command the environment may have replaced the process
table (processes start and exit on their own). -/
def runTrace (w : World) : List ((List Int × List Int) × Op) → World
  | [] => w
  | (os, op) :: rest =>
    runTrace (step { w with procs := os.1, guarded := os.2 } op) rest

/-- A command that is a launch whose image archive has an entry written as the
`config.json` of the directory `p`. -/
def Op.archiveWrites : Op → Path → Bool
  | .run env _, p => env.archive.any (fun x => x.configDir == some p)
  | _, _ => false

/-- An entry that is not a `config.json`, or one that does not decode, or one whose record
has an ID that `filepath.Join(ContainerDir, id)` resolves to the directory of the file. -/
def ArchiveWrite.keyed : ArchiveWrite → Bool
  | .config d (some c) => decide (containerPath c.ID = d)
  | _ => true

/-- A command that is not a launch, or a launch whose image archive has only entries that
are `keyed`. -/
def Op.archiveKeyed : Op → Bool
  | .run env _ => env.archive.all ArchiveWrite.keyed
  | _ => true

/-- The directory that a command writes a record into, when it is a launch. -/
def launchTarget : Op → Option Path
  | .run env a => some (containerPath (runContainerID env a))
  | _ => none

/-- What `updateContainerStatus(id, StateStopped)` does to the files of the directory of `id`:
a record gets the status `stopped`; a `config.json` that is missing or does not decode is
left as it is (the call fails). -/
def stopSlot (s : Slot) : Slot :=
  match s.config with
  | .record c => { s with config := .record { c with Status := StateStopped } }
  | _ => s

/-- The test of `ListContainers` for a stale record: no live process and status `running`. -/
def stale (w : World) (c : Container) : Bool :=
  !pidRunning w c.Pid && c.Status == StateRunning

/-- The row that `ListContainers` prints for a record of its snapshot. -/
def listRow (w : World) (c : Container) : ListRow :=
  { container := c, status := if stale w c then StateStopped else c.Status }

/-- The store after `ListContainers` has reconciled the records `cs` of its snapshot. -/
def reconcileAll (w : World) (cs : List Container) (st : Store) : Store :=
  cs.foldl (fun st c => if stale w c then st.change (containerPath c.ID) stopSlot else st) st

/-- A directory is a subdirectory of `ContainerDir`. -/
def isListed (p : Path) : Prop :=
  p.dropLast = joinPath [ContainerDir] ∧ p ≠ []

instance (p : Path) : Decidable (isListed p) := by
  unfold isListed; infer_instance

/-! ## Example states -/

/-- A record as `run --image alpine --name web` writes it, with the pid 4242. -/
def webRecord : Container :=
  { ID := "web"
    Name := "web"
    Image := "alpine"
    Status := StateRunning
    Pid := 4242
    CreatedAt := 0
    Volumes := []
    Ports := []
    Memory := "64m"
    CPU := "10"
    LogFile := "/var/run/minidocker/containers/web/container.log" }

/-- A state whose store holds `webRecord` while no process 4242 exists. -/
def staleWorld : World :=
  { store := [(containerPath "web", { config := .record webRecord, log := some "" })]
    procs := []
    guarded := [] }

/-- A state whose store holds `webRecord` and where process 4242 is alive. -/
def liveWorld : World :=
  { staleWorld with procs := [4242] }

/-- A state whose store holds the record of `web` with status `stopped`. -/
def stoppedWorld : World :=
  { store := [(containerPath "web",
      { config := .record { webRecord with Status := StateStopped }, log := some "" })]
    procs := []
    guarded := [] }

/-- The record that the configuration of the demo image `alpine` decodes to when it is read
as a `Container`: only the key `name` matches a field. -/
def alpineConfigRecord : Container :=
  { ID := ""
    Name := "alpine"
    Image := ""
    Status := ""
    Pid := 0
    CreatedAt := 0
    Volumes := []
    Ports := []
    Memory := ""
    CPU := ""
    LogFile := "" }

/-- An environment in which every step of a launch succeeds and the child gets the pid 77. -/
def goodRunEnv : RunEnv :=
  { initDirOk := true
    genID := "0a1b2c3d"
    mkdirOk := true
    createLogOk := true
    mkRootfsOk := true
    archive := []
    extractOk := true
    imageConfig := ImageConfigWrite.written (some alpineConfigRecord)
    openLogOk := true
    startPid := some 77
    writeOk := true
    now := 1 }

/-- The arguments of `run --image alpine --name web`. -/
def webArgs : RunArgs :=
  { imageName := "alpine"
    containerName := "web"
    volumes := []
    ports := []
    memory := "64m"
    cpu := "10"
    secProfile := DefaultSecurityProfile }

/-- A Linux child in which the mount step fails. -/
def mountFailChild : ChildEnv :=
  { goos := "linux"
    mountOk := false
    pivotRootOk := true
    cgroupsOk := true
    chrootOk := true
    chdirOk := true
    commandOk := true }

/-- The state with an empty store and no processes. -/
def emptyWorld : World :=
  { store := [], procs := [], guarded := [] }

/-- Every step of the parent of a launch succeeds, and the child gets the pid `pid`. -/
def RunEnv.succeeds (env : RunEnv) (pid : Int) : Prop :=
  env.initDirOk = true ∧ env.mkdirOk = true ∧ env.createLogOk = true ∧ env.mkRootfsOk = true ∧
    env.extractOk = true ∧ env.openLogOk = true ∧ env.startPid = some pid ∧ env.writeOk = true

instance (env : RunEnv) (pid : Int) : Decidable (env.succeeds pid) := by
  unfold RunEnv.succeeds; infer_instance

/-- Every record that the store holds in directory `p` has the status `stopped`. -/
def settled (st : Store) (p : Path) : Prop :=
  ∀ c, st.record? p = some c → c.Status = StateStopped

/-! ## Cgroups and the child of a launch, in detail (`internal.go`) -/

/-- What the environment answers to `setupCgroupsWithLimits`: the pid of the calling process
and the outcome of `os.Mkdir` and of the three `os.WriteFile` calls. -/
structure CgroupEnv where
  pid : Nat
  mkdirOk : Bool
  writeMemOk : Bool
  writeCpuOk : Bool
  writeProcsOk : Bool
deriving DecidableEq, Repr

/-- A write of `setupCgroupsWithLimits` into the cgroup directory `minidocker_<pid>`:
`memory.max` gets the decimal number of bytes, `cpu.max` gets the quota followed by the
period, `cgroup.procs` gets the pid. -/
inductive CgroupWrite where
  | memoryMax (bytes : Nat)
  | cpuMax (quota period : Nat)
  | cgroupProcs (pid : Nat)
deriving DecidableEq, Repr

/-- Go `setupCgroupsWithLimits`: the writes it attempts, in order, and its result.  A write
that fails is the last one attempted. -/
def setupCgroupsWithLimits (tbl : Char → Char) (goos : String) (env : CgroupEnv)
    (memLimit cpuLimit : String) : List CgroupWrite × Except Failure Unit :=
  if goos ≠ "linux" then ([], .ok ())
  else if !env.mkdirOk then ([], .error .cgroupMkdir)
  else
    let memBytes : Nat :=
      match parseMemoryLimit tbl memLimit with
      | .ok v => v
      | .error _ => 67108864
    if !env.writeMemOk then ([.memoryMax memBytes], .error .setMemory)
    else
      let cpuValue : Nat :=
        match parseCPULimit cpuLimit with
        | .ok v => v
        | .error _ => 10000
      if !env.writeCpuOk then ([.memoryMax memBytes, .cpuMax cpuValue 100000], .error .setCpu)
      else if !env.writeProcsOk then
        ([.memoryMax memBytes, .cpuMax cpuValue 100000, .cgroupProcs env.pid], .error .addPid)
      else
        ([.memoryMax memBytes, .cpuMax cpuValue 100000, .cgroupProcs env.pid], .ok ())

/-- Go `InternalStartContainer` with the cgroup step spelled out: `memLimit` and `cpuLimit`
are the environment variables `MINIDOCKER_MEMORY` and `MINIDOCKER_CPU`.  It returns the steps
attempted, the cgroup writes attempted and the result; the error of
`setupCgroupsWithLimits` is printed as a warning. -/
def InternalStartContainerWith (tbl : Char → Char) (env : ChildEnv) (genv : CgroupEnv)
    (memLimit cpuLimit : String) : List ChildStep × List CgroupWrite × Except Failure Unit :=
  if env.goos ≠ "linux" then ([], [], .error .notLinux)
  else if !setupMountsLinux env then ([.mounts], [], .error .setupMounts)
  else
    let cg := setupCgroupsWithLimits tbl env.goos genv memLimit cpuLimit
    if !env.chrootOk then ([.mounts, .cgroups, .chroot], cg.1, .error .chroot)
    else if !env.chdirOk then ([.mounts, .cgroups, .chroot, .chdir], cg.1, .error .chdir)
    else if !env.commandOk then
      ([.mounts, .cgroups, .chroot, .chdir, .command], cg.1, .error .commandFailed)
    else ([.mounts, .cgroups, .chroot, .chdir, .command], cg.1, .ok ())

/-- A child on the host OS `darwin` in which every step would succeed. -/
def darwinChild : ChildEnv :=
  { goos := "darwin"
    mountOk := true
    pivotRootOk := true
    cgroupsOk := true
    chrootOk := true
    chdirOk := true
    commandOk := true }

/-- A Linux child in which every step succeeds. -/
def linuxChild : ChildEnv :=
  { darwinChild with goos := "linux" }

/-- A cgroup environment in which the cgroup directory cannot be created. -/
def noCgroupEnv : CgroupEnv :=
  { pid := 1, mkdirOk := false, writeMemOk := true, writeCpuOk := true, writeProcsOk := true }

/-- A cgroup environment in which every step succeeds. -/
def goodCgroupEnv : CgroupEnv :=
  { pid := 1, mkdirOk := true, writeMemOk := true, writeCpuOk := true, writeProcsOk := true }

/-! ## Directory listing, exec and archive entries -/

/-- An entry of `ContainerDir` as `ioutil.ReadDir` returns it, with what reading
`<name>/config.json` gives (`missing` also when the file cannot be read). -/
structure DirEntry where
  name : String
  isDir : Bool
  config : ConfigFile
deriving DecidableEq, Repr

/-- The outcome of `ioutil.ReadDir(ContainerDir)`. -/
inductive ReadDirResult where
  | notExist
  | failed
  | entries (files : List DirEntry)
deriving DecidableEq, Repr

/-- The loop of `getContainers`; `containers` is the slice built so far. -/
def getContainersLoop : List DirEntry → List Container → List Container
  | [], containers => containers
  | file :: files, containers =>
    if !file.isDir then getContainersLoop files containers
    else
      match file.config with
      | .missing => getContainersLoop files containers
      | .corrupt => getContainersLoop files containers
      | .record container => getContainersLoop files (containers ++ [container])

/-- Go `getContainers` on the outcome of `ReadDir`. -/
def getContainersDir : ReadDirResult → Except Failure (List Container)
  | .notExist => .ok []
  | .failed => .error .readDir
  | .entries files => .ok (getContainersLoop files [])

/-- The record that a directory entry contributes, as the specification has it: the entry is
a subdirectory and its `config.json` is readable and decodes. -/
def DirEntry.record? (e : DirEntry) : Option Container :=
  match e.config with
  | .record c => if e.isDir then some c else none
  | _ => none

/-- The entries that `ReadDir(ContainerDir)` returns for a store: its subdirectories of
`ContainerDir`. -/
def storeEntries (st : Store) : List DirEntry :=
  st.filterMap (fun e =>
    if isListed e.1 then some { name := e.1.getLast?.getD "", isDir := true, config := e.2.config }
    else none)

/-- Whether `ExecInContainer` reaches `cmd.Run()` of the `nsenter` command. -/
def execRunsCommand (w : World) (linux : Bool) (containerID : String) : Bool :=
  match getContainer w.store containerID with
  | .error _ => false
  | .ok container => if container.Status ≠ StateRunning then false else linux

/-- The path check of `ExtractImage` for one archive entry: `filepath.Join(targetDir,
header.Name)` for an absolute `targetDir`, accepted when `strings.HasPrefix(path, targetDir)`
holds and rejected as path traversal otherwise. -/
def extractEntryPath (targetDir name : String) : Except Failure String :=
  let path := pathString (joinPath [targetDir, name])
  if targetDir.data.isPrefixOf path.data then .ok path else .error (.pathTraversal name)

/-- A path string lies inside a directory: the cleaned components of the directory begin
those of the path (the directory itself or a descendant). -/
def insideDir (targetDir path : String) : Prop :=
  (joinPath [targetDir]).isPrefixOf (joinPath [path]) = true

instance (targetDir path : String) : Decidable (insideDir targetDir path) := by
  unfold insideDir; infer_instance

/-! ## Following a log (`logs.go`)

The bytes of a log are held as the runes of its text; a line break and a carriage return
are one byte each, and the size of a line is the size of its UTF-8 encoding. -/

/-- Go `bufio.MaxScanTokenSize`, the size at which the buffer of a `bufio.Scanner` stops
growing. -/
def maxScanTokenSize : Nat := 64 * 1024

/-- The size in bytes of a text. -/
def byteLen (data : List Char) : Nat := (data.map Char.utf8Size).sum

/-- Go `dropCR` of `bufio`: a carriage return at the end of a line is dropped. -/
def dropCR (data : List Char) : List Char :=
  if data.getLast? = some '\r' then data.dropLast else data

/-- The tokens that `scanner.Scan()` yields with the split function `bufio.ScanLines` when
the reader is read to its end; `cur` is the line being read, reversed.  A line that fills
the buffer before its line break (or before the end of the input) is seen ends the scan with
`ErrTooLong`. -/
def scanLines : List Char → List Char → List (List Char)
  | cur, [] =>
    if cur = [] then []
    else if byteLen cur < maxScanTokenSize then [dropCR cur.reverse]
    else []
  | cur, c :: cs =>
    if c = '\n' then
      (if byteLen cur < maxScanTokenSize then dropCR cur.reverse :: scanLines [] cs else [])
    else scanLines (c :: cur) cs

/-- The output of `for scanner.Scan() { fmt.Println(scanner.Text()) }` on the bytes read. -/
def printLines (data : List Char) : List Char :=
  ((scanLines [] data).map (fun line => line ++ ['\n'])).flatten

/-- One pass of the follow loop of `LogsFromContainer`: `currentPos` is the offset reached
by the reads before it, `log` the content of the file when its size is taken; when the file
has grown the part from `currentPos` on is scanned and printed. -/
def followPass (currentPos : Nat) (log : List Char) : List Char :=
  if log.length > currentPos then printLines (log.drop currentPos) else []

/-- A text of complete lines: each line followed by a line break. -/
def joinLines (lines : List (List Char)) : List Char :=
  (lines.map (fun line => line ++ ['\n'])).flatten

/-! ## The invariant of the store -/

/-- Go `RunContainer`: the launch without a security profile; its steps on the store are
those of `RunContainerWithSecurity`. -/
def RunContainer (w : World) (env : RunEnv) (imageName containerName : String)
    (volumes ports : List String) (memory cpu : String) : Except Failure Unit × World :=
  if !env.initDirOk then (.error .initDir, w)
  else
    let containerID := if containerName = "" then env.genID else containerName
    let containerRootDir := containerPath containerID
    if !env.mkdirOk then (.error .mkdir, w)
    else
      let w1 : World := { w with store := w.store.mkdir containerRootDir }
      let logFile := pathString (containerRootDir ++ ["container.log"])
      if !env.createLogOk then (.error .createLog, w1)
      else
        let w2 : World :=
          { w1 with store := w1.store.change containerRootDir (fun s => { s with log := some "" }) }
        if !env.mkRootfsOk then (.error .mkRootfs, w2)
        else
          let w2x : World := { w2 with store := extractArchive w2.store env.archive }
          if !env.extractOk then (.error .extractImage, w2x)
          else
          let w3 : World :=
            { w2x with store := w2x.store.change containerRootDir env.imageConfig.apply }
          if !env.openLogOk then (.error .openLog, w3)
          else
            match env.startPid with
            | none => (.error .start, w3)
            | some pid =>
              let w4 : World := { w3 with procs := pid :: w3.procs }
              let container : Container :=
                { ID := containerID
                  Name := containerName
                  Image := imageName
                  Status := StateRunning
                  Pid := pid
                  CreatedAt := env.now
                  Volumes := volumes
                  Ports := ports
                  Memory := memory
                  CPU := cpu
                  LogFile := logFile }
              if !env.writeOk then (.error .writeConfig, w4)
              else
                let written : Store :=
                  w4.store.change containerRootDir (fun s => { s with config := .record container })
                (.ok (), { w4 with store := written })

/-- A launch that fails after `ExtractImage` has copied an image configuration that decodes
as a record to the `config.json` of the container directory: that file is left behind. -/
def RunEnv.leavesImageConfig (env : RunEnv) : Bool :=
  env.initDirOk && env.mkdirOk && env.createLogOk && env.mkRootfsOk && env.extractOk &&
    (match env.imageConfig with
     | .written (some _) => true
     | _ => false) &&
    !(env.openLogOk && env.startPid.isSome && env.writeOk)

/-- A command that is a launch leaving an image configuration behind. -/
def Op.leavesImageConfig : Op → Bool
  | .run env _ => env.leavesImageConfig
  | _ => false

/-- Every record of the store lies in the directory that `filepath.Join(ContainerDir, id)`
gives for its ID. -/
def wellKeyed (st : Store) : Prop :=
  ∀ e ∈ st, ∀ c, e.2.config = .record c → containerPath c.ID = e.1

/-- The directories of the store. -/
def Store.keys (st : Store) : List Path := st.map (fun e => e.1)

/-- An environment in which the child of a launch cannot be started. -/
def startFailEnv : RunEnv :=
  { goodRunEnv with startPid := none }

/-! ## Signals and port mapping -/

/-- A signal that `killProcess` sends; `kill` is `process.Kill()`. -/
inductive SignalSent where
  | sigterm
  | sigkill
  | kill
deriving DecidableEq, Repr

/-- Go `killProcess` (`platform.go`) on the host OS `goos`: the signals sent, in order, and
the result; `sigtermOk`, `sigkillOk` and `killOk` are the outcomes of `process.Signal(SIGTERM)`,
`process.Signal(SIGKILL)` and `process.Kill()`. -/
def killProcessOn (goos : String) (sigtermOk sigkillOk killOk : Bool) :
    List SignalSent × Except Failure Unit :=
  if goos = "linux" ∨ goos = "darwin" then
    if !sigtermOk then ([.sigterm], .error .signal)
    else if !sigkillOk then ([.sigterm, .sigkill], .ok ())
    else ([.sigterm, .sigkill], .ok ())
  else ([.kill], if killOk then .ok () else .error .signal)

/-- The pieces of a rune sequence between occurrences of `sep`, as `strings.Split` gives
them for a separator of one rune; `cur` is the piece being read, reversed. -/
def splitRune (sep : Char) : List Char → List Char → List (List Char)
  | cur, [] => [cur.reverse]
  | cur, c :: cs =>
    if c = sep then cur.reverse :: splitRune sep [] cs else splitRune sep (c :: cur) cs

/-- Go `setupPortMapping`; `linux` is `utils.IsLinux()`.  Elsewhere it only prints; on Linux
the first spec that `strings.Split(port, ":")` does not cut in two parts ends it with an
error. -/
def setupPortMapping (linux : Bool) : List String → Except Failure Unit
  | [] => .ok ()
  | port :: ports =>
    if !linux then .ok ()
    else if (splitRune ':' [] port.data).length ≠ 2 then .error (.portFormat port)
    else setupPortMapping linux ports

/-- Go `RunContainerWithSecurity` with its port step written out: after `image.ExtractImage`
has succeeded, `setupPortMapping(ports)` is called when the list is not empty, and its error
is printed as a warning.  The third component is that warning; the result and the state are
those of `RunContainerWithSecurity`. -/
def RunContainerWithSecurityPorts (w : World) (env : RunEnv) (linux : Bool) (a : RunArgs) :
    Except Failure Unit × World × Option Failure :=
  if !env.initDirOk then (.error .initDir, w, none)
  else
    let containerID := runContainerID env a
    let containerRootDir := containerPath containerID
    if !env.mkdirOk then (.error .mkdir, w, none)
    else
      let w1 : World := { w with store := w.store.mkdir containerRootDir }
      let logFile := pathString (containerRootDir ++ ["container.log"])
      if !env.createLogOk then (.error .createLog, w1, none)
      else
        let w2 : World :=
          { w1 with store := w1.store.change containerRootDir (fun s => { s with log := some "" }) }
        if !env.mkRootfsOk then (.error .mkRootfs, w2, none)
        else
          let w2x : World := { w2 with store := extractArchive w2.store env.archive }
          if !env.extractOk then (.error .extractImage, w2x, none)
          else
          let w3 : World :=
            { w2x with store := w2x.store.change containerRootDir env.imageConfig.apply }
          let warning : Option Failure :=
            if a.ports.length > 0 then
              match setupPortMapping linux a.ports with
              | .error err => some err
              | .ok _ => none
            else none
          if !env.openLogOk then (.error .openLog, w3, warning)
          else
            match env.startPid with
            | none => (.error .start, w3, warning)
            | some pid =>
              let w4 : World := { w3 with procs := pid :: w3.procs }
              let container : Container :=
                { ID := containerID
                  Name := a.containerName
                  Image := a.imageName
                  Status := StateRunning
                  Pid := pid
                  CreatedAt := env.now
                  Volumes := a.volumes
                  Ports := a.ports
                  Memory := a.memory
                  CPU := a.cpu
                  LogFile := logFile }
              if !env.writeOk then (.error .writeConfig, w4, warning)
              else
                let written : Store :=
                  w4.store.change containerRootDir (fun s => { s with config := .record container })
                (.ok (), { w4 with store := written }, warning)

/-- A port spec that `strings.Split(port, ":")` does not cut in two parts. -/
def malformedPort (port : String) : Bool :=
  decide ((splitRune ':' [] port.data).length ≠ 2)

/-- A record without its ports. -/
def Container.withoutPorts (c : Container) : Container := { c with Ports := [] }

/-- The files of a directory with the ports of its record left out. -/
def Slot.withoutPorts (s : Slot) : Slot :=
  match s.config with
  | .record c => { s with config := .record c.withoutPorts }
  | _ => s

/-! ## The follow loop of the logs -/

/-- What the environment answers to one iteration of the follow loop of `LogsFromContainer`.
A file of a directory that is not there cannot be examined, so `os.Stat(logPath)` sees the
log only when the container directory exists at that moment. -/
structure PollObs where
  /-- Result of `file.Seek(0, io.SeekCurrent)`: the offset, if the call succeeds. -/
  seek : Option Nat
  /-- Whether the container directory exists when `os.Stat(logPath)` runs. -/
  dirAtStat : Bool
  /-- Content of `container.log` at that moment, if the file is in the directory. -/
  log : Option (List Char)
  /-- Outcome of `file.Seek(currentPos, io.SeekStart)`. -/
  seekStartOk : Bool
  /-- Whether `os.Stat(containerPath)` at the end of the iteration answers that the path does
  not exist. -/
  goneAtEnd : Bool
deriving DecidableEq, Repr

/-- One iteration of the follow loop of `LogsFromContainer` for the container `id`: the text
printed and the error that ends the loop, if the iteration returns. -/
def followIteration (id : String) (o : PollObs) : List Char × Option Failure :=
  match o.seek with
  | none => ([], some .seekFailed)
  | some currentPos =>
    match (if o.dirAtStat then o.log else none) with
    | none => ([], some .statFailed)
    | some log =>
      if log.length > currentPos ∧ o.seekStartOk = false then ([], some .seekFailed)
      else
        (followPass currentPos log, if o.goneAtEnd then some (.containerGone id) else none)

/-- The follow loop of `LogsFromContainer` over the iterations that the observations
describe: the text printed, and the error returned if one of them ends the loop (`none`: the
loop is still running after them). -/
def followLoop (id : String) : List PollObs → List Char × Option Failure
  | [] => ([], none)
  | o :: rest =>
    match followIteration id o with
    | (out, some err) => (out, some err)
    | (out, none) => (out ++ (followLoop id rest).1, (followLoop id rest).2)

/-- The observation of an iteration that runs in the state `w` from the offset `pos`. -/
def pollObs (w : World) (id : String) (pos : Nat) : PollObs :=
  { seek := some pos
    dirAtStat := (w.store.read (containerPath id)).isSome
    log := ((w.store.read (containerPath id)).bind (fun s => s.log)).map (fun l => l.data)
    seekStartOk := true
    goneAtEnd := (w.store.read (containerPath id)).isNone }

/-! ## Identifiers -/

/-- Go `hextable` of `encoding/hex`. -/
def hextable : List Char := "0123456789abcdef".data

/-- Go `hex.EncodeToString`: two digits for each byte, `hextable[v>>4]` and
`hextable[v&0x0f]`. -/
def EncodeToString (bytes : List Nat) : String :=
  String.mk ((bytes.map (fun v => [hextable.getD (v % 256 / 16) '0',
    hextable.getD (v % 16) '0'])).flatten)

/-- Go `GenerateID` (`utils.go`) for a length that is not negative: `random` is the stream
that `rand.Read` delivers (`none` when it fails), `pid` is `os.Getpid()`.  The byte slice
has `length/2` elements. -/
def GenerateID (length : Nat) (random : Option (Nat → Nat)) (pid : Nat) : String :=
  match random with
  | none => toString pid
  | some src => EncodeToString ((List.range (length / 2)).map (fun i => src i % 256))

/-- A lower-case hexadecimal digit. -/
def isLowerHex (c : Char) : Bool :=
  ('0' ≤ c && c ≤ '9') || ('a' ≤ c && c ≤ 'f')

/-! ## Capabilities -/

/-- The table `capMap` of `GetCapabilities`. -/
def capMap : List (String × Nat) :=
  [("CHOWN", 0x1), ("DAC_OVERRIDE", 0x2), ("DAC_READ_SEARCH", 0x4), ("FOWNER", 0x8),
   ("FSETID", 0x10), ("KILL", 0x20), ("SETGID", 0x40), ("SETUID", 0x80), ("SETPCAP", 0x100),
   ("NET_BIND_SERVICE", 0x200), ("NET_RAW", 0x400), ("SYS_CHROOT", 0x800),
   ("AUDIT_WRITE", 0x1000), ("SETFCAP", 0x2000), ("MAC_OVERRIDE", 0x4000),
   ("MAC_ADMIN", 0x8000), ("ALL", 0xFFFFFFFFFFFFFFFF)]

/-- The loop of `GetCapabilities` with `result` accumulated so far.  The values are below
`2^64` and so are their bitwise disjunctions: no `uint64` operation wraps. -/
def getCapabilitiesLoop : List String → Nat → Nat
  | [], result => result
  | cap :: caps, result =>
    if cap = "ALL" then 0xFFFFFFFFFFFFFFFF
    else
      match capMap.lookup cap with
      | some val => getCapabilitiesLoop caps (result ||| val)
      | none => getCapabilitiesLoop caps result

/-- Go `GetCapabilities` (`security.go`). -/
def GetCapabilities (caps : List String) : Nat :=
  getCapabilitiesLoop caps 0

/-! ## The local registry -/

/-- Go `ImageInfo` (`registry.go`); the time is in seconds. -/
structure ImageInfo where
  Name : String
  Tag : String
  Size : Int
  Digest : String
  CreatedAt : Nat
  Labels : List (String × String)
deriving DecidableEq, Repr

/-- The answers of the handler of the local registry. -/
inductive Response where
  | apiVersion           -- 200 with the header `Docker-Distribution-API-Version`
  | badRequest           -- 400 "Invalid repository name"
  | internalError        -- 500 with the error of `ListImages`
  | catalog (repositories : List String)
  | tagsList (name : String) (tags : List String)
  | notFound             -- 404
deriving DecidableEq, Repr

/-- The loop of the catalog branch: the names of the images, each appended to `repos` unless
it is found there. -/
def catalogLoop : List ImageInfo → List String → List String
  | [], repos => repos
  | img :: images, repos =>
    if repos.any (fun r => r == img.Name) then catalogLoop images repos
    else catalogLoop images (repos ++ [img.Name])

/-- Go `strings.TrimPrefix(path, "/v2/")` followed by `strings.Split(_, "/")`. -/
def registryParts (path : String) : List String :=
  let rest := if "/v2/".data.isPrefixOf path.data then path.data.drop 4 else path.data
  (splitRune '/' [] rest).map String.mk

/-- The handler that `StartLocalRegistry` registers for `/v2/`, on the path of the request
and the result of `ListImages`. -/
def registryHandler (path : String) (images : Except Failure (List ImageInfo)) : Response :=
  if path = "/v2/" then .apiVersion
  else
    let parts := registryParts path
    if parts.length < 2 then .badRequest
    else if parts.head? = some "_catalog" then
      match images with
      | .error _ => .internalError
      | .ok images => .catalog (catalogLoop images [])
    else if parts.length ≥ 3 ∧ parts.reverse.tail.head? = some "tags"
        ∧ parts.reverse.head? = some "list" then
      let repoName := "/".intercalate parts.reverse.tail.tail.reverse
      match images with
      | .error _ => .internalError
      | .ok images =>
        .tagsList repoName ((images.filter (fun img => img.Name == repoName)).map (fun img => img.Tag))
    else .notFound

/-! ## A record stored under another name -/

/-- A state in which the directory `a` holds a record whose ID is `b`, with status `running`
and the process 999 that does not exist, while the directory `b` holds the record of `b`,
whose process 4242 is alive. -/
def crossWorld : World :=
  { store :=
      [(containerPath "a",
          { config := .record { webRecord with ID := "b", Name := "b", Pid := 999 },
            log := some "" }),
       (containerPath "b",
          { config := .record { webRecord with ID := "b", Name := "b" }, log := some "" })]
    procs := [4242]
    guarded := [] }

/-- A state in which the directory `web/rootfs` holds a record with status `stopped`. -/
def rootfsWorld : World :=
  { store :=
      [(containerPath "web/rootfs",
          { config := .record { webRecord with ID := "web/rootfs", Name := "web/rootfs",
                                               Status := StateStopped },
            log := some "" })]
    procs := []
    guarded := [] }

/-- A launch from an image whose archive has the entry `config.json`, a record with status
`running`, which is written to the rootfs of the container `web`. -/
def rootfsRunEnv : RunEnv :=
  { goodRunEnv with
    archive := [.config (containerPath "web" ++ ["rootfs"])
      (some { webRecord with ID := "web/rootfs", Name := "web/rootfs" })] }

/-- A state whose store holds a record of `web` with status `running`, the live process
4242, and a `log_file` that is the path of the `config.json` of the record itself. -/
def selfLogWorld : World :=
  { store :=
      [(containerPath "web",
          { config := .record
              { webRecord with LogFile := "/var/run/minidocker/containers/web/config.json" },
            log := some "" })]
    procs := [4242]
    guarded := [] }

/-! # Theorems -/

/-! ## Lemmas on `ParseUint` -/

theorem decVal_eq_foldl (ds : List Char) : decVal ds = ds.foldl decStep 0 := rfl

theorem le_foldl_decStep (cs : List Char) (n : Nat) : n ≤ cs.foldl decStep n := by
  induction cs generalizing n with
  | nil => simp
  | cons c cs ih =>
    simp only [List.foldl_cons]
    have h1 : n ≤ decStep n c := by unfold decStep; omega
    exact Nat.le_trans h1 (ih _)

theorem parseUintLoop_ok_iff (cs : List Char) (n v : Nat) (hn : n < 2 ^ 64) :
    parseUintLoop n cs = .ok v ↔
      (∀ c ∈ cs, isDecDigit c) ∧ cs.foldl decStep n < 2 ^ 64 ∧ v = cs.foldl decStep n := by
  induction cs generalizing n with
  | nil =>
    simp only [parseUintLoop, List.foldl_nil, List.not_mem_nil, false_implies, implies_true,
      true_and, Except.ok.injEq]
    constructor
    · intro h; exact ⟨h ▸ hn, h.symm⟩
    · intro h; exact h.2.symm
  | cons c cs ih =>
    have hcs := le_foldl_decStep cs (decStep n c)
    simp only [List.foldl_cons, List.mem_cons, forall_eq_or_imp]
    unfold parseUintLoop
    by_cases hd : '0'.toNat ≤ c.toNat ∧ c.toNat ≤ '9'.toNat
    · have hd9 : c.toNat - '0'.toNat ≤ 9 := by
        have h0 : '0'.toNat = 48 := by decide
        have h9 : '9'.toNat = 57 := by decide
        omega
      rw [if_pos hd]
      by_cases hc : n ≥ cutoff10
      · simp only [hc, if_true]
        constructor
        · intro h; cases h
        · rintro ⟨-, hlt, -⟩
          exfalso
          have : decStep n c ≥ 2 ^ 64 := by
            unfold decStep
            unfold cutoff10 maxUint64 at hc
            norm_num at hc ⊢
            omega
          omega
      · simp only [hc, if_false]
        have hn10 : n * 10 < 2 ^ 64 := by
          unfold cutoff10 maxUint64 at hc
          norm_num at hc ⊢
          omega
        have e0 : n * 10 % 2 ^ 64 = n * 10 := Nat.mod_eq_of_lt hn10
        rw [e0]
        by_cases hov : n * 10 + (c.toNat - '0'.toNat) < 2 ^ 64
        · have e1 : (n * 10 + (c.toNat - '0'.toNat)) % 2 ^ 64 = n * 10 + (c.toNat - '0'.toNat) :=
            Nat.mod_eq_of_lt hov
          rw [e1]
          have hno : ¬ (n * 10 + (c.toNat - '0'.toNat) < n * 10 ∨
              n * 10 + (c.toNat - '0'.toNat) > maxUint64) := by
            unfold maxUint64
            norm_num at hov ⊢
            omega
          rw [if_neg hno]
          have hstep : decStep n c = n * 10 + (c.toNat - '0'.toNat) := by
            unfold decStep; omega
          rw [ih _ hov, hstep]
          constructor
          · rintro ⟨h1, h2, h3⟩; exact ⟨⟨hd, h1⟩, h2, h3⟩
          · rintro ⟨⟨-, h1⟩, h2, h3⟩; exact ⟨h1, h2, h3⟩
        · have hyes : (n * 10 + (c.toNat - '0'.toNat)) % 2 ^ 64 < n * 10 ∨
              (n * 10 + (c.toNat - '0'.toNat)) % 2 ^ 64 > maxUint64 := by
            left
            have : (n * 10 + (c.toNat - '0'.toNat)) % 2 ^ 64
                = n * 10 + (c.toNat - '0'.toNat) - 2 ^ 64 := by
              rw [Nat.mod_eq_sub_mod (by omega)]
              apply Nat.mod_eq_of_lt
              norm_num at hn10 hov ⊢
              omega
            rw [this]
            norm_num at hn10 hov ⊢
            omega
          rw [if_pos hyes]
          constructor
          · intro h; cases h
          · rintro ⟨-, hlt, -⟩
            exfalso
            have : decStep n c ≥ 2 ^ 64 := by
              unfold decStep; omega
            omega
    · rw [if_neg hd]
      constructor
      · intro h; cases h
      · rintro ⟨⟨h, -⟩, -⟩; exact absurd h hd

/-- The parser `ParseUint` succeeds exactly on the numerals below `2 ^ 64`, with their value. -/
theorem ParseUint_ok_iff (s : List Char) (v : Nat) :
    ParseUint s = .ok v ↔ isUint64Numeral s ∧ v = decVal s := by
  unfold ParseUint isUint64Numeral
  by_cases hs : s = []
  · simp [hs]
  · rw [if_neg hs, parseUintLoop_ok_iff s 0 v (by norm_num), decVal_eq_foldl]
    constructor
    · rintro ⟨h1, h2, h3⟩; exact ⟨⟨hs, h1, h2⟩, h3⟩
    · rintro ⟨⟨-, h1, h2⟩, h3⟩; exact ⟨h1, h2, h3⟩

theorem ParseUint_of_numeral (s : List Char) (h : isUint64Numeral s) :
    ParseUint s = .ok (decVal s) :=
  (ParseUint_ok_iff s (decVal s)).2 ⟨h, rfl⟩

theorem ParseUint_error_iff (s : List Char) :
    (∃ e, ParseUint s = .error e) ↔ ¬ isUint64Numeral s := by
  constructor
  · rintro ⟨e, he⟩ h
    rw [ParseUint_of_numeral s h] at he
    cases he
  · intro h
    cases hp : ParseUint s with
    | error e => exact ⟨e, rfl⟩
    | ok v => exact absurd ((ParseUint_ok_iff s v).1 hp).1 h

/-! ## Lemmas on lowercasing and suffixes -/

theorem isDecDigit_bounds {c : Char} (h : isDecDigit c) : 48 ≤ c.toNat ∧ c.toNat ≤ 57 := h

theorem toLowerRune_digit (tbl : Char → Char) {c : Char} (h : isDecDigit c) :
    toLowerRune tbl c = c := by
  have hb := isDecDigit_bounds h
  unfold toLowerRune
  have hA : 'A'.toNat = 65 := rfl
  rw [if_pos (by omega), if_neg (by omega)]

theorem map_toLowerRune_digits (tbl : Char → Char) (ds : List Char)
    (h : ∀ c ∈ ds, isDecDigit c) : ds.map (toLowerRune tbl) = ds := by
  induction ds with
  | nil => rfl
  | cons c cs ih =>
    simp only [List.map_cons]
    rw [toLowerRune_digit tbl (h c (List.mem_cons_self _ _)),
      ih (fun x hx => h x (List.mem_cons_of_mem _ hx))]

theorem digit_ne_of_toNat {c d : Char} (h : isDecDigit c) (hd : 57 < d.toNat) : c ≠ d := by
  intro e
  have hb := isDecDigit_bounds h
  rw [e] at hb
  omega

theorem getLast_of_digits {ds : List Char} (hne : ds ≠ []) (h : ∀ c ∈ ds, isDecDigit c) :
    ∃ c, ds.getLast? = some c ∧ isDecDigit c := by
  refine ⟨ds.getLast hne, List.getLast?_eq_getLast _ hne, h _ (List.getLast_mem hne)⟩

theorem hasSuffixChar_digits {ds : List Char} (h : ∀ c ∈ ds, isDecDigit c) (d : Char)
    (hd : 57 < d.toNat) : hasSuffixChar ds d = false := by
  unfold hasSuffixChar
  by_cases hne : ds = []
  · subst hne; rfl
  · obtain ⟨c, hc, hdig⟩ := getLast_of_digits hne h
    rw [hc]
    simp only [beq_eq_false_iff_ne, ne_eq, Option.some.injEq]
    exact digit_ne_of_toNat hdig hd

theorem hasSuffixChar_append_singleton (ds : List Char) (c d : Char) :
    hasSuffixChar (ds ++ [c]) d = (c == d) := by
  unfold hasSuffixChar
  rw [List.getLast?_append_of_ne_nil _ (by simp)]
  simp

theorem parseMemoryLimit_eq (tbl : Char → Char) (limit : String) (h : limit ≠ "") :
    parseMemoryLimit tbl limit =
      match ParseUint (memorySplit (ToLower tbl limit).data).2 with
      | .error e => .error e
      | .ok value => .ok ((value * (memorySplit (ToLower tbl limit).data).1) % 2 ^ 64) := by
  unfold parseMemoryLimit memorySplit
  rw [if_neg h]

theorem memorySplit_snd (tbl : Char → Char) (s : String) :
    (memorySplit (ToLower tbl s).data).2 = memoryRemainder tbl s := by
  unfold memorySplit memoryRemainder hasSuffixChar
  generalize (ToLower tbl s).data = l
  cases hl : l.getLast? with
  | none => simp [hl]
  | some c =>
    simp only [beq_iff_eq, Option.some.injEq, hl]
    by_cases hk : c = 'k'
    · simp [hk]
    · by_cases hm : c = 'm'
      · simp [hm]
      · by_cases hg : c = 'g'
        · simp [hg]
        · simp [hk, hm, hg]

theorem memorySplit_digits {ds : List Char} (h : ∀ c ∈ ds, isDecDigit c) :
    memorySplit ds = (1, ds) := by
  unfold memorySplit
  rw [hasSuffixChar_digits h 'k' (by decide), hasSuffixChar_digits h 'm' (by decide),
    hasSuffixChar_digits h 'g' (by decide)]
  simp

theorem string_mk_ne_empty {l : List Char} (h : l ≠ []) : String.mk l ≠ "" := by
  intro e
  apply h
  have := congrArg String.data e
  simpa using this

/-! ## Claims on the resource limit translator -/

theorem memorySplit_append_suffix {ds : List Char} (tbl : Char → Char)
    (hd : ∀ c ∈ ds, isDecDigit c) {sfx : List Char} (hs : sfx ∈ memorySuffixes) :
    memorySplit ((ds ++ sfx).map (toLowerRune tbl)) = (suffixMultiplier sfx, ds) := by
  rw [List.map_append, map_toLowerRune_digits tbl ds hd]
  simp only [memorySuffixes, List.mem_cons, List.mem_singleton, List.not_mem_nil, or_false] at hs
  rcases hs with h | h | h | h | h | h | h <;> subst h
  · rw [List.map_nil, List.append_nil, memorySplit_digits hd]; rfl
  all_goals
    unfold memorySplit
    simp only [List.map_cons, List.map_nil, hasSuffixChar_append_singleton,
      List.dropLast_concat]
    rfl

theorem toLowerRune_ascii (tbl : Char → Char) {c : Char} (h : c.toNat < 128) :
    toLowerRune tbl c = toLowerRune id c := by
  unfold toLowerRune
  rw [if_pos h, if_pos h]

theorem memoryRemainder_ascii (tbl : Char → Char) (s : String)
    (h : ∀ c ∈ s.data, c.toNat < 128) : memoryRemainder tbl s = memoryRemainder id s := by
  have hmap : s.data.map (toLowerRune tbl) = s.data.map (toLowerRune id) :=
    List.map_congr_left (fun c hc => toLowerRune_ascii tbl (h c hc))
  unfold memoryRemainder ToLower
  rw [hmap]

/-- C1 (as amended): for a decimal numeral `n < 2 ^ 64` followed by no suffix or by one
letter `k`, `m`, `g` in either case, `parseMemoryLimit` succeeds, and whenever the product
of `n` and the suffix multiplier is below `2 ^ 64` it returns exactly that product. -/
theorem parseMemoryLimit_product (tbl : Char → Char) (ds sfx : List Char)
    (hnum : isUint64Numeral ds) (hs : sfx ∈ memorySuffixes)
    (hfit : decVal ds * suffixMultiplier sfx < 2 ^ 64) :
    parseMemoryLimit tbl (String.mk (ds ++ sfx)) = .ok (decVal ds * suffixMultiplier sfx) := by
  have hne : String.mk (ds ++ sfx) ≠ "" :=
    string_mk_ne_empty (by intro e; exact hnum.1 (List.append_eq_nil.1 e).1)
  rw [parseMemoryLimit_eq tbl _ hne]
  have hsplit : memorySplit (ToLower tbl (String.mk (ds ++ sfx))).data
      = (suffixMultiplier sfx, ds) := memorySplit_append_suffix tbl hnum.2.1 hs
  rw [hsplit]
  simp only [ParseUint_of_numeral ds hnum, Nat.mod_eq_of_lt hfit]

/-- The amended C1 at the inputs `64m` and `1g` of the specification. -/
theorem parseMemoryLimit_product_witness :
    parseMemoryLimit id "64m" = .ok 67108864 ∧ parseMemoryLimit id "1g" = .ok 1073741824 :=
  ⟨parseMemoryLimit_product id ['6', '4'] ['m'] (by decide) (by decide) (by decide),
   parseMemoryLimit_product id ['1'] ['g'] (by decide) (by decide) (by decide)⟩

/-- C1 as stated fails: `9223372036854775808` is a numeral below `2 ^ 64`, and with the
suffix `k` the code returns `0`, the product reduced modulo `2 ^ 64`, not the product. -/
theorem parseMemoryLimit_product_overflow :
    isUint64Numeral "9223372036854775808".data ∧
    ['k'] ∈ memorySuffixes ∧
    parseMemoryLimit id (String.mk ("9223372036854775808".data ++ ['k'])) = .ok 0 ∧
    decVal "9223372036854775808".data * suffixMultiplier ['k'] = 9444732965739290427392 := by
  decide

/-- C2: the empty string gives 67108864; a non-empty string fails exactly when what remains
after lowercasing and removing at most one trailing `k`, `m` or `g` is not a non-empty
sequence of decimal digits denoting a value below `2 ^ 64`; `bad`, `m`, `64mb`, `-1` and
`1.5g` fail. -/
theorem parseMemoryLimit_fails_iff (tbl : Char → Char) (s : String) :
    parseMemoryLimit tbl "" = .ok 67108864 ∧
    (s ≠ "" →
      ((∃ e, parseMemoryLimit tbl s = .error e) ↔ ¬ isUint64Numeral (memoryRemainder tbl s))) ∧
    (s ∈ ["bad", "m", "64mb", "-1", "1.5g"] → ∃ e, parseMemoryLimit tbl s = .error e) := by
  have key : s ≠ "" →
      ((∃ e, parseMemoryLimit tbl s = .error e) ↔ ¬ isUint64Numeral (memoryRemainder tbl s)) := by
    intro hs
    rw [parseMemoryLimit_eq tbl s hs, memorySplit_snd, ← ParseUint_error_iff]
    cases hp : ParseUint (memoryRemainder tbl s) with
    | error e => simp
    | ok v => simp
  refine ⟨rfl, key, ?_⟩
  intro hmem
  simp only [List.mem_cons, List.mem_singleton, List.not_mem_nil, or_false] at hmem
  rcases hmem with h | h | h | h | h <;> subst h
  all_goals
    refine (key (by decide)).2 ?_
    rw [memoryRemainder_ascii tbl _ (by decide)]
    decide

/-- C2 at the input `64mb`. -/
theorem parseMemoryLimit_fails_iff_witness :
    "64mb" ≠ "" ∧ ((∃ e, parseMemoryLimit id "64mb" = .error e) ↔
      ¬ isUint64Numeral (memoryRemainder id "64mb")) ∧
    ∃ e, parseMemoryLimit id "64mb" = .error e :=
  ⟨by decide, (parseMemoryLimit_fails_iff id "64mb").2.1 (by decide),
   (parseMemoryLimit_fails_iff id "64mb").2.2 (by decide)⟩

theorem trimSuffixChar_digits_append {ds sfx : List Char} (hd : ∀ c ∈ ds, isDecDigit c)
    (hs : sfx = [] ∨ sfx = ['%']) : trimSuffixChar (ds ++ sfx) '%' = ds := by
  unfold trimSuffixChar
  rcases hs with h | h <;> subst h
  · simp only [List.append_nil]
    have : hasSuffixChar ds '%' = false := by
      unfold hasSuffixChar
      by_cases hne : ds = []
      · subst hne; rfl
      · obtain ⟨c, hc, hdig⟩ := getLast_of_digits hne hd
        rw [hc]
        simp only [beq_eq_false_iff_ne, ne_eq, Option.some.injEq]
        intro e
        have hb := isDecDigit_bounds hdig
        rw [e] at hb
        have : '%'.toNat = 37 := rfl
        omega
    simp [this]
  · rw [hasSuffixChar_append_singleton]
    simp

/-- C3: for a decimal numeral `p < 2 ^ 64` followed by no or one `%`, `parseCPULimit`
succeeds with `(min p 100 * 100000) / 100 = min p 100 * 1000`; every successful result
is at most 100000; the empty input gives 10000, `50` gives 50000 and `150` gives 100000. -/
theorem parseCPULimit_quota (ds sfx : List Char) (s : String) (v : Nat) :
    (isUint64Numeral ds → (sfx = [] ∨ sfx = ['%']) →
      parseCPULimit (String.mk (ds ++ sfx)) = .ok ((min (decVal ds) 100 * 100000) / 100) ∧
      (min (decVal ds) 100 * 100000) / 100 = min (decVal ds) 100 * 1000) ∧
    (parseCPULimit s = .ok v → v ≤ 100000) ∧
    parseCPULimit "" = .ok 10000 ∧
    parseCPULimit "50" = .ok 50000 ∧
    parseCPULimit "150" = .ok 100000 := by
  refine ⟨?_, ?_, rfl, by decide, by decide⟩
  · intro hnum hs
    have hne : String.mk (ds ++ sfx) ≠ "" :=
      string_mk_ne_empty (by intro e; exact hnum.1 (List.append_eq_nil.1 e).1)
    have hmin : min (decVal ds) 100 ≤ 100 := Nat.min_le_right _ _
    refine ⟨?_, by omega⟩
    unfold parseCPULimit
    rw [if_neg hne]
    simp only [trimSuffixChar_digits_append hnum.2.1 hs, ParseUint_of_numeral ds hnum]
    have hclamp : (if decVal ds > 100 then 100 else decVal ds) = min (decVal ds) 100 := by
      by_cases h : decVal ds > 100
      · rw [if_pos h, Nat.min_eq_right (by omega)]
      · rw [if_neg h, Nat.min_eq_left (by omega)]
    have hlt : min (decVal ds) 100 * 100000 < 2 ^ 64 := by
      have : min (decVal ds) 100 * 100000 ≤ 100 * 100000 := Nat.mul_le_mul_right _ hmin
      exact Nat.lt_of_le_of_lt this (by norm_num)
    rw [hclamp, Nat.mod_eq_of_lt hlt]
  · intro h
    unfold parseCPULimit at h
    by_cases hs : s = ""
    · rw [if_pos hs] at h
      cases h
      decide
    · rw [if_neg hs] at h
      cases hp : ParseUint (trimSuffixChar s.data '%') with
      | error e => rw [hp] at h; cases h
      | ok w =>
        rw [hp] at h
        simp only [Except.ok.injEq] at h
        have hw : (if w > 100 then 100 else w) ≤ 100 := by
          by_cases hw : w > 100
          · rw [if_pos hw]
          · rw [if_neg hw]; omega
        generalize (if w > 100 then 100 else w) = x at h hw
        have hlt : x * 100000 < 2 ^ 64 := by
          have : x * 100000 ≤ 100 * 100000 := Nat.mul_le_mul_right _ hw
          exact Nat.lt_of_le_of_lt this (by norm_num)
        rw [Nat.mod_eq_of_lt hlt] at h
        omega

/-- C3 at the inputs `75%` and `150`. -/
theorem parseCPULimit_quota_witness :
    parseCPULimit "75%" = .ok 75000 ∧ (parseCPULimit "150" = .ok 100000 → 100000 ≤ 100000) :=
  ⟨((parseCPULimit_quota ['7', '5'] ['%'] "150" 100000).1 (by decide) (by decide)).1,
   (parseCPULimit_quota ['7', '5'] ['%'] "150" 100000).2.1⟩

/-! ## Claims on the security profile registry -/

theorem ToLower_ascii (tbl : Char → Char) (s : String) (h : ∀ c ∈ s.data, c.toNat < 128) :
    ToLower tbl s = ToLower id s := by
  unfold ToLower
  rw [List.map_congr_left (fun c hc => toLowerRune_ascii tbl (h c hc))]

theorem GetSecurityProfile_privileged (tbl : Char → Char) :
    GetSecurityProfile tbl "privileged" = .ok PrivilegedSecurityProfile := by
  unfold GetSecurityProfile
  rw [ToLower_ascii tbl "privileged" (by decide)]
  decide

/-- C4: with `privileged = true` the profile resolved by the `run` command is the privileged
profile (name `privileged`, capabilities `ALL`, `no_new_privs = false`, seccomp and AppArmor
`unconfined`) for every value of the security-profile flag and of the read-only flag; only
the read-only field follows the read-only flag. -/
theorem runActionProfile_privileged (tbl : Char → Char) (securityProfile : String)
    (readOnly : Bool) :
    ∃ p, runActionProfile tbl securityProfile readOnly true = .ok p ∧
      p = { PrivilegedSecurityProfile with ReadOnlyRootfs := readOnly } ∧
      p.Name = "privileged" ∧ p.Capabilities = ["ALL"] ∧ p.NoNewPrivs = false ∧
      p.SeccompProfile = "unconfined" ∧ p.AppArmorProfile = "unconfined" ∧
      runActionProfile tbl "restricted" false true = .ok PrivilegedSecurityProfile := by
  have h : ∀ (sp : String) (ro : Bool), runActionProfile tbl sp ro true
      = .ok { PrivilegedSecurityProfile with ReadOnlyRootfs := ro } := by
    intro sp ro
    unfold runActionProfile
    simp only [if_true, GetSecurityProfile_privileged]
    cases ro <;> rfl
  exact ⟨_, h securityProfile readOnly, rfl, rfl, rfl, rfl, rfl, rfl, h "restricted" false⟩

/-- C5: `GetSecurityProfile` succeeds exactly when the lowercased name is `default`,
`restricted` or `privileged`; the profile it returns is named by the lowercased input;
for every other name it fails with a message that contains the name as it was given. -/
theorem GetSecurityProfile_iff (tbl : Char → Char) (name : String) :
    ((∃ p, GetSecurityProfile tbl name = .ok p) ↔
      ToLower tbl name ∈ ["default", "restricted", "privileged"]) ∧
    (∀ p, GetSecurityProfile tbl name = .ok p → p.Name = ToLower tbl name) ∧
    (ToLower tbl name ∉ ["default", "restricted", "privileged"] →
      GetSecurityProfile tbl name = .error (unknownProfileMessage name) ∧
      ∃ before after, unknownProfileMessage name = before ++ name ++ after) := by
  unfold GetSecurityProfile
  simp only [List.mem_cons, List.mem_singleton, List.not_mem_nil, or_false]
  by_cases h1 : ToLower tbl name = "default"
  · simp [h1, DefaultSecurityProfile]
  · by_cases h2 : ToLower tbl name = "restricted"
    · simp [h2, RestrictedSecurityProfile]
    · by_cases h3 : ToLower tbl name = "privileged"
      · simp [h3, PrivilegedSecurityProfile]
      · simp only [h1, h2, h3, if_false, or_self, iff_false, not_exists, not_false_eq_true,
          true_implies, true_and]
        refine ⟨?_, ?_, ?_⟩
        · intro p hp; cases hp
        · intro p hp; cases hp
        · exact ⟨"profil keamanan '", "' tidak dikenal", rfl⟩

/-- C5 at the names `Restricted` (known, mixed case) and `bogus` (unknown). -/
theorem GetSecurityProfile_iff_witness :
    (∃ p, GetSecurityProfile id "Restricted" = .ok p ∧ p.Name = "restricted") ∧
    GetSecurityProfile id "bogus" = .error "profil keamanan 'bogus' tidak dikenal" :=
  ⟨⟨RestrictedSecurityProfile, by decide,
      (GetSecurityProfile_iff id "Restricted").2.1 RestrictedSecurityProfile (by decide)⟩,
   ((GetSecurityProfile_iff id "bogus").2.2 (by decide)).1⟩

/-! ## Lemmas on the store -/

theorem Store.read_cons (e : Path × Slot) (rest : Store) (p : Path) :
    Store.read (e :: rest) p = if e.1 = p then some e.2 else Store.read rest p := rfl

theorem Store.read_change (st : Store) (p q : Path) (f : Slot → Slot) :
    (st.change p f).read q = if q = p then (st.read q).map f else st.read q := by
  induction st with
  | nil => simp [Store.change, Store.read]
  | cons e rest ih =>
    unfold Store.change
    by_cases h : e.1 = p
    · rw [if_pos h]
      unfold Store.read
      by_cases hq : q = p
      · simp [h, hq]
      · have : ¬ e.1 = q := fun e' => hq (e'.symm.trans h)
        simp [hq, this]
    · rw [if_neg h]
      unfold Store.read
      by_cases heq : e.1 = q
      · have : ¬ q = p := fun e' => h (heq.trans e')
        simp [heq, this]
      · simp only [heq, if_false]
        exact ih

theorem Store.change_congr (st : Store) (p : Path) (f g : Slot → Slot)
    (h : ∀ s, st.read p = some s → f s = g s) : st.change p f = st.change p g := by
  induction st with
  | nil => rfl
  | cons e rest ih =>
    unfold Store.change
    by_cases he : e.1 = p
    · rw [if_pos he, if_pos he, h e.2 (by unfold Store.read; rw [if_pos he])]
    · rw [if_neg he, if_neg he, ih (fun s hs => h s (by unfold Store.read; rw [if_neg he]; exact hs))]

theorem Store.change_id (st : Store) (p : Path) : st.change p (fun s => s) = st := by
  induction st with
  | nil => rfl
  | cons e rest ih =>
    unfold Store.change
    by_cases he : e.1 = p
    · rw [if_pos he]
    · rw [if_neg he, ih]

theorem Store.change_fixed (st : Store) (p : Path) (f : Slot → Slot)
    (h : ∀ s, st.read p = some s → f s = s) : st.change p f = st := by
  rw [Store.change_congr st p f (fun s => s) h, Store.change_id]

theorem Store.read_mem {st : Store} {p : Path} {s : Slot} (h : st.read p = some s) :
    (p, s) ∈ st := by
  induction st with
  | nil => cases h
  | cons e rest ih =>
    unfold Store.read at h
    by_cases he : e.1 = p
    · rw [if_pos he] at h
      cases h
      rw [← he]
      exact List.mem_cons_self _ _
    · rw [if_neg he] at h
      exact List.mem_cons_of_mem _ (ih h)

theorem Store.read_append_of_some {st : Store} {p : Path} {s : Slot} (ext : Store)
    (h : st.read p = some s) : (st ++ ext).read p = some s := by
  induction st with
  | nil => cases h
  | cons e rest ih =>
    simp only [List.cons_append]
    unfold Store.read at h ⊢
    by_cases he : e.1 = p
    · rw [if_pos he] at h ⊢; exact h
    · rw [if_neg he] at h ⊢; exact ih h

theorem Store.read_append_of_none {st : Store} {p : Path} (ext : Store)
    (h : st.read p = none) : (st ++ ext).read p = ext.read p := by
  induction st with
  | nil => rfl
  | cons e rest ih =>
    simp only [List.cons_append]
    rw [Store.read_cons] at h ⊢
    by_cases he : e.1 = p
    · rw [if_pos he] at h; cases h
    · rw [if_neg he] at h ⊢; exact ih h

theorem Store.read_mkdir (st : Store) (p q : Path) :
    (st.mkdir p).read q =
      match st.read q with
      | some s => some s
      | none => if p = q then some { config := .missing, log := none } else none := by
  unfold Store.mkdir
  cases hp : st.read p with
  | some s0 =>
    simp only
    cases hq : st.read q with
    | some s => rfl
    | none =>
      simp only
      by_cases hpq : p = q
      · rw [hpq] at hp; rw [hp] at hq; cases hq
      · rw [if_neg hpq]
  | none =>
    simp only
    cases hq : st.read q with
    | some s => exact Store.read_append_of_some _ hq
    | none =>
      rw [Store.read_append_of_none _ hq]
      simp only [Store.read]

theorem stopSlot_idem (s : Slot) : stopSlot (stopSlot s) = stopSlot s := by
  unfold stopSlot
  cases hs : s.config <;> simp [hs]

/-- The outcome of `updateContainerStatus(id, StateStopped)` on the store, its failure
leaving the store as it is. -/
theorem updateContainerStatus_stopped (st : Store) (containerID : String) :
    (match updateContainerStatus st containerID StateStopped with
      | .ok st1 => st1
      | .error _ => st) = st.change (containerPath containerID) stopSlot := by
  unfold updateContainerStatus
  cases hr : st.read (containerPath containerID) with
  | none =>
    simp only [Option.map_none']
    exact (Store.change_fixed st _ _ (fun s hs => by rw [hr] at hs; cases hs)).symm
  | some s =>
    simp only [Option.map_some']
    cases hc : s.config with
    | missing =>
      simp only
      refine (Store.change_fixed st _ _ (fun s1 hs => ?_)).symm
      rw [hr] at hs; cases hs
      unfold stopSlot; rw [hc]
    | corrupt =>
      simp only
      refine (Store.change_fixed st _ _ (fun s1 hs => ?_)).symm
      rw [hr] at hs; cases hs
      unfold stopSlot; rw [hc]
    | record c =>
      simp only
      refine Store.change_congr st _ _ _ (fun s1 hs => ?_)
      rw [hr] at hs; cases hs
      unfold stopSlot; rw [hc]

/-! ## Lemmas on `ListContainers` -/

theorem listStep_eq (w : World) (acc : List ListRow × Store) (c : Container) :
    listStep w acc c =
      (acc.1 ++ [listRow w c],
        if stale w c then acc.2.change (containerPath c.ID) stopSlot else acc.2) := by
  unfold listStep listRow
  by_cases h : stale w c = true
  · have h1 : (!pidRunning w c.Pid && c.Status == StateRunning) = true := h
    rw [if_pos h1, if_pos h, if_pos h, updateContainerStatus_stopped]
  · have h1 : ¬ (!pidRunning w c.Pid && c.Status == StateRunning) = true := h
    rw [if_neg h1, if_neg h, if_neg h]

theorem foldl_listStep (w : World) (cs : List Container) (acc : List ListRow × Store) :
    cs.foldl (listStep w) acc = (acc.1 ++ cs.map (listRow w), reconcileAll w cs acc.2) := by
  induction cs generalizing acc with
  | nil => simp [reconcileAll]
  | cons c cs ih =>
    rw [List.foldl_cons, ih, listStep_eq]
    simp [reconcileAll]

theorem ListContainers_eq (w : World) :
    ListContainers w =
      ((getContainers w.store).map (listRow w),
        { w with store := reconcileAll w (getContainers w.store) w.store }) := by
  unfold ListContainers
  rw [foldl_listStep]
  simp

theorem reconcileAll_cons (w : World) (c : Container) (cs : List Container) (st : Store) :
    reconcileAll w (c :: cs) st =
      reconcileAll w cs (if stale w c then st.change (containerPath c.ID) stopSlot else st) := rfl

/-- The files of a directory after reconciliation: those of a directory named by a stale
record of the snapshot are settled by `stopSlot`, the others are untouched. -/
theorem read_reconcileAll (w : World) (cs : List Container) (st : Store) (q : Path) :
    (reconcileAll w cs st).read q =
      if cs.any (fun c => stale w c && decide (containerPath c.ID = q)) then
        (st.read q).map stopSlot
      else st.read q := by
  induction cs generalizing st with
  | nil => simp [reconcileAll]
  | cons c cs ih =>
    rw [reconcileAll_cons, ih, List.any_cons]
    by_cases hs : stale w c = true
    · rw [if_pos hs, Store.read_change]
      by_cases hq : containerPath c.ID = q
      · have hq' : q = containerPath c.ID := hq.symm
        rw [if_pos hq']
        simp only [hs, hq, decide_True, Bool.and_self, Bool.true_or, if_true]
        by_cases ha : (cs.any fun c => stale w c && decide (containerPath c.ID = q)) = true
        · rw [if_pos ha]
          cases st.read q with
          | none => rfl
          | some s => simp [stopSlot_idem]
        · rw [if_neg ha]
      · have hq' : ¬ q = containerPath c.ID := fun e => hq e.symm
        rw [if_neg hq']
        simp [hs, hq]
    · rw [if_neg hs]
      simp [hs]

theorem reconcileAll_fixed (w : World) (cs : List Container) (st : Store)
    (h : ∀ c ∈ cs, stale w c = true →
      ∀ s, st.read (containerPath c.ID) = some s → stopSlot s = s) :
    reconcileAll w cs st = st := by
  induction cs with
  | nil => rfl
  | cons c cs ih =>
    rw [reconcileAll_cons]
    have hst : (if stale w c then st.change (containerPath c.ID) stopSlot else st) = st := by
      by_cases hs : stale w c = true
      · rw [if_pos hs]
        exact Store.change_fixed st _ _ (h c (List.mem_cons_self _ _) hs)
      · rw [if_neg hs]
    rw [hst]
    exact ih (fun c' hc' => h c' (List.mem_cons_of_mem _ hc'))

theorem getContainers_cons (e : Path × Slot) (rest : Store) (c : Container) :
    c ∈ getContainers (e :: rest) ↔
      (isListed e.1 ∧ e.2.config = .record c) ∨ c ∈ getContainers rest := by
  unfold getContainers
  rw [List.filterMap_cons]
  by_cases hl : e.1.dropLast = joinPath [ContainerDir] ∧ e.1 ≠ []
  · rw [if_pos hl]
    cases hc : e.2.config with
    | missing =>
      constructor
      · intro h; exact Or.inr h
      · rintro (h | h)
        · cases h.2
        · exact h
    | corrupt =>
      constructor
      · intro h; exact Or.inr h
      · rintro (h | h)
        · cases h.2
        · exact h
    | record c0 =>
      simp only [List.mem_cons, ConfigFile.record.injEq]
      constructor
      · rintro (h | h)
        · exact Or.inl ⟨hl, h.symm⟩
        · exact Or.inr h
      · rintro (h | h)
        · exact Or.inl h.2.symm
        · exact Or.inr h
  · rw [if_neg hl]
    constructor
    · intro h; exact Or.inr h
    · rintro (h | h)
      · exact absurd h.1 hl
      · exact h

theorem stopSlot_config_record {s : Slot} {c : Container}
    (h : (stopSlot s).config = .record c) :
    ∃ c0, s.config = .record c0 ∧ c = { c0 with Status := StateStopped } := by
  unfold stopSlot at h
  cases hcfg : s.config with
  | missing => rw [hcfg] at h; simp only at h; rw [hcfg] at h; cases h
  | corrupt => rw [hcfg] at h; simp only at h; rw [hcfg] at h; cases h
  | record c0 =>
    rw [hcfg] at h
    simp only [ConfigFile.record.injEq] at h
    exact ⟨c0, rfl, h.symm⟩

theorem mem_getContainers_of_read {st : Store} {p : Path} {s : Slot} {c : Container}
    (hr : st.read p = some s) (hl : isListed p) (hc : s.config = .record c) :
    c ∈ getContainers st := by
  induction st with
  | nil => cases hr
  | cons e rest ih =>
    rw [getContainers_cons]
    rw [Store.read_cons] at hr
    by_cases he : e.1 = p
    · rw [if_pos he] at hr
      cases hr
      exact Or.inl ⟨he ▸ hl, hc⟩
    · rw [if_neg he] at hr
      exact Or.inr (ih hr)

theorem getContainers_change_stopSlot (st : Store) (p : Path) (c : Container)
    (h : c ∈ getContainers (st.change p stopSlot)) :
    c ∈ getContainers st ∨ c.Status = StateStopped := by
  induction st with
  | nil => exact Or.inl h
  | cons e rest ih =>
    unfold Store.change at h
    by_cases he : e.1 = p
    · rw [if_pos he, getContainers_cons] at h
      rcases h with ⟨hl, hc⟩ | h
      · obtain ⟨c0, -, hc0⟩ := stopSlot_config_record hc
        right
        rw [hc0]
      · exact Or.inl ((getContainers_cons _ _ _).2 (Or.inr h))
    · rw [if_neg he, getContainers_cons] at h
      rcases h with h | h
      · exact Or.inl ((getContainers_cons _ _ _).2 (Or.inl h))
      · rcases ih h with h1 | h1
        · exact Or.inl ((getContainers_cons _ _ _).2 (Or.inr h1))
        · exact Or.inr h1

theorem getContainers_reconcileAll (w : World) (cs : List Container) (st : Store)
    (c : Container) (h : c ∈ getContainers (reconcileAll w cs st)) :
    c ∈ getContainers st ∨ c.Status = StateStopped := by
  induction cs generalizing st with
  | nil => exact Or.inl h
  | cons c0 cs ih =>
    rw [reconcileAll_cons] at h
    rcases ih _ h with h1 | h1
    · by_cases hs : stale w c0 = true
      · rw [if_pos hs] at h1
        exact getContainers_change_stopSlot st _ c h1
      · rw [if_neg hs] at h1
        exact Or.inl h1
    · exact Or.inr h1

theorem stale_status {w : World} {c : Container} (h : stale w c = true) :
    c.Status = StateRunning := by
  unfold stale at h
  simp only [Bool.and_eq_true, beq_iff_eq] at h
  exact h.2

/-- Reconciliation leaves nothing for a second reconciliation against the same process
table to change. -/
theorem ListContainers_idem (w : World) :
    (ListContainers (ListContainers w).2).2 = (ListContainers w).2 := by
  rw [ListContainers_eq w]
  rw [ListContainers_eq]
  simp only
  congr 1
  apply reconcileAll_fixed
  intro c hc hs s hr
  have hs0 : stale w c = true := hs
  have hmem : c ∈ getContainers w.store := by
    rcases getContainers_reconcileAll w _ _ c hc with h | h
    · exact h
    · rw [stale_status hs0] at h
      exact absurd h (by decide)
  have hrr := read_reconcileAll w (getContainers w.store) w.store (containerPath c.ID)
  have hany : ((getContainers w.store).any
      fun c0 => stale w c0 && decide (containerPath c0.ID = containerPath c.ID)) = true := by
    rw [List.any_eq_true]
    exact ⟨c, hmem, by simp [hs0]⟩
  rw [if_pos hany] at hrr
  rw [hrr] at hr
  cases hq : w.store.read (containerPath c.ID) with
  | none => rw [hq] at hr; cases hr
  | some s0 =>
    rw [hq] at hr
    simp only [Option.map_some', Option.some.injEq] at hr
    rw [← hr, stopSlot_idem]

/-! ## Claims on listing and stopping -/

theorem pidRunning_of_dead {w : World} {pid : Int} (hdead : pid ≤ 0 ∨ pid ∉ w.procs) :
    pidRunning w pid = false := by
  unfold pidRunning
  rcases hdead with h | h
  · have : decide (pid > 0) = false := by
      rw [decide_eq_false_iff_not]; omega
    rw [this]; rfl
  · have : w.procs.contains pid = false := by
      simp [h]
    rw [this, Bool.and_false]

theorem stale_of_dead {w : World} {c : Container} (hrun : c.Status = StateRunning)
    (hdead : c.Pid ≤ 0 ∨ c.Pid ∉ w.procs) : stale w c = true := by
  unfold stale
  rw [pidRunning_of_dead hdead, hrun]
  decide

theorem stale_stopped (w : World) (c : Container) :
    stale w { c with Status := StateStopped } = false := by
  unfold stale
  have : ((StateStopped : String) == StateRunning) = false := by decide
  simp [this]

/-- C6 as stated fails.  The successful launch with the name `a/b` stores its record in
`containers/a/b`, which is not a direct subdirectory of `ContainerDir`: once the process 77
is gone, `ListContainers` neither reports the record nor corrects it.  And at `crossWorld`
the directory `a` holds a record with the ID `b`, status `running` and the dead pid 999:
`ListContainers` reports it as stopped and rewrites the `config.json` of `b`, so the record
stored in `a` keeps the status `running`. -/
theorem ListContainers_leaves_stale_running :
    ((runTrace emptyWorld
        [(([77], []), Op.run goodRunEnv { webArgs with containerName := "a/b" })]).store.record?
      (containerPath "a/b")).map (fun c => (c.Status, c.Pid)) = some (StateRunning, 77) ∧
    (ListContainers
      { runTrace emptyWorld
          [(([77], []), Op.run goodRunEnv { webArgs with containerName := "a/b" })]
        with procs := [] }).1 = [] ∧
    ((ListContainers
      { runTrace emptyWorld
          [(([77], []), Op.run goodRunEnv { webArgs with containerName := "a/b" })]
        with procs := [] }).2.store.record? (containerPath "a/b")).map (fun c => c.Status)
      = some StateRunning ∧
    (crossWorld.store.record? (containerPath "a")).map (fun c => (c.ID, c.Status, c.Pid))
      = some ("b", StateRunning, 999) ∧
    pidRunning crossWorld 999 = false ∧
    ((ListContainers crossWorld).1.map (fun row => (row.container.Pid, row.status)))
      = [(999, StateStopped), (4242, StateRunning)] ∧
    ((ListContainers crossWorld).2.store.record? (containerPath "a")).map (fun c => c.Status)
      = some StateRunning := by
  decide

/-- C6 (as amended): a record with status `running` whose pid is `<= 0` or absent from the
process table, stored in a direct subdirectory of `ContainerDir` that is the directory named
by its ID, is reported as `stopped` by `ListContainers`, and the stored status is `stopped`
afterwards; a second `ListContainers` on the resulting state reports `stopped` again and
leaves the state as it is. -/
theorem ListContainers_reconciles (w : World) (p : Path) (c : Container) (log : Option String)
    (hstored : w.store.read p = some { config := .record c, log := log })
    (hlisted : isListed p)
    (hid : containerPath c.ID = p)
    (hrun : c.Status = StateRunning)
    (hdead : c.Pid ≤ 0 ∨ c.Pid ∉ w.procs) :
    ({ container := c, status := StateStopped } ∈ (ListContainers w).1 ∧
      ∀ row ∈ (ListContainers w).1, row.container = c → row.status = StateStopped) ∧
    (ListContainers w).2.store.read p =
      some { config := .record { c with Status := StateStopped }, log := log } ∧
    ({ container := { c with Status := StateStopped }, status := StateStopped }
        ∈ (ListContainers (ListContainers w).2).1 ∧
      ∀ row ∈ (ListContainers (ListContainers w).2).1,
        row.container = { c with Status := StateStopped } → row.status = StateStopped) ∧
    (ListContainers (ListContainers w).2).2 = (ListContainers w).2 := by
  have hst : stale w c = true := stale_of_dead hrun hdead
  have hmem : c ∈ getContainers w.store := mem_getContainers_of_read hstored hlisted rfl
  have hread : (ListContainers w).2.store.read p =
      some { config := .record { c with Status := StateStopped }, log := log } := by
    rw [ListContainers_eq]
    simp only
    rw [read_reconcileAll]
    have hany : ((getContainers w.store).any
        fun c0 => stale w c0 && decide (containerPath c0.ID = p)) = true := by
      rw [List.any_eq_true]
      exact ⟨c, hmem, by simp [hst, hid]⟩
    rw [if_pos hany, hstored]
    rfl
  refine ⟨⟨?_, ?_⟩, hread, ⟨?_, ?_⟩, ListContainers_idem w⟩
  · rw [ListContainers_eq]
    simp only [List.mem_map]
    exact ⟨c, hmem, by unfold listRow; rw [if_pos hst]⟩
  · intro row hrow hc
    rw [ListContainers_eq] at hrow
    simp only [List.mem_map] at hrow
    obtain ⟨c0, -, h0⟩ := hrow
    rw [← h0] at hc ⊢
    unfold listRow at hc ⊢
    simp only at hc ⊢
    rw [hc, if_pos hst]
  · have hmem2 : { c with Status := StateStopped } ∈ getContainers (ListContainers w).2.store :=
      mem_getContainers_of_read hread hlisted rfl
    rw [ListContainers_eq (ListContainers w).2]
    simp only [List.mem_map]
    refine ⟨_, hmem2, ?_⟩
    unfold listRow
    rw [stale_stopped]
    simp
  · intro row hrow hc
    rw [ListContainers_eq (ListContainers w).2] at hrow
    simp only [List.mem_map] at hrow
    obtain ⟨c0, -, h0⟩ := hrow
    rw [← h0] at hc ⊢
    unfold listRow at hc ⊢
    simp only at hc ⊢
    rw [hc, stale_stopped]
    simp

/-- The amended C6 at the state `staleWorld`: the record of `web` with the dead pid 4242, in
the directory `web`. -/
theorem ListContainers_reconciles_witness :
    { container := webRecord, status := StateStopped } ∈ (ListContainers staleWorld).1 ∧
    (ListContainers staleWorld).2.store.read (containerPath "web") =
      some { config := .record { webRecord with Status := StateStopped }, log := some "" } ∧
    (ListContainers (ListContainers staleWorld).2).2 = (ListContainers staleWorld).2 :=
  have h := ListContainers_reconciles staleWorld (containerPath "web") webRecord (some "")
    (by decide) (by decide) (by decide) (by decide) (by decide)
  ⟨h.1.1, h.2.1, h.2.2.2⟩

theorem appendFile_read_config (st : Store) (path text : String) (p : Path)
    (h : fileRef path ≠ .config p) :
    ((appendFile st path text).read p).map (fun s => s.config)
      = (st.read p).map (fun s => s.config) := by
  unfold appendFile
  cases hf : fileRef path with
  | config d =>
    simp only
    have hpd : ¬ p = d := by
      intro e
      apply h
      rw [hf, e]
    rw [Store.read_change, if_neg hpd]
  | log d =>
    simp only
    rw [Store.read_change]
    by_cases hpd : p = d
    · rw [if_pos hpd]
      cases st.read p with
      | none => rfl
      | some s => rfl
    · rw [if_neg hpd]
  | other => rfl

theorem signalOk_of_absent {w : World} {pid : Int} (h : pid ∉ w.procs) :
    signalOk w pid = false := by
  unfold signalOk
  have : w.procs.contains pid = false := by simp [h]
  rw [this]
  simp

/-- The result of `StopContainer` on a record that is not yet stopped and whose process takes the
signal. -/
theorem StopContainer_ok (w : World) (now id : String) (c : Container) (log : Option String)
    (hstored : w.store.read (containerPath id) = some { config := .record c, log := log })
    (hns : c.Status ≠ StateStopped) (hsig : signalOk w c.Pid = true) :
    StopContainer w now id =
      (.ok (),
        { w with
          procs := w.procs.filter (fun q => q != c.Pid)
          store :=
            if c.LogFile ≠ "" then
              appendFile (w.store.change (containerPath id) stopSlot) c.LogFile (stopMarker now)
            else w.store.change (containerPath id) stopSlot }) := by
  have hupd := updateContainerStatus_stopped w.store id
  unfold StopContainer
  unfold updateContainerStatus at hupd ⊢
  simp only [hstored, Option.map_some', killProcess, hsig, if_true] at hupd ⊢
  rw [if_neg hns]
  simp only [hupd]

/-- The result of `StopContainer` on a record that is not yet stopped and whose process does not take the
signal. -/
theorem StopContainer_killFailed (w : World) (now id : String) (c : Container)
    (log : Option String)
    (hstored : w.store.read (containerPath id) = some { config := .record c, log := log })
    (hns : c.Status ≠ StateStopped) (hsig : signalOk w c.Pid = false) :
    StopContainer w now id = (.error .killFailed, w) := by
  unfold StopContainer
  simp only [hstored, Option.map_some', killProcess, hsig]
  rw [if_neg hns]
  simp

/-- The result of `StopContainer` on a record that is stopped. -/
theorem StopContainer_alreadyStopped (w : World) (now id : String) (c : Container)
    (hstored : (w.store.read (containerPath id)).map (fun s => s.config) = some (.record c))
    (hs : c.Status = StateStopped) :
    StopContainer w now id = (.error (.alreadyStopped id), w) := by
  unfold StopContainer
  simp only [hstored]
  rw [if_pos hs]

/-- C7 as stated fails: at `selfLogWorld` the record of `web` is `running`, its process
accepts the signal and its `log_file` is its own `config.json`.  The first `StopContainer`
succeeds and appends the stop marker to that file, which no longer decodes; the second
`StopContainer` fails with the decode error, not with the already-stopped error. -/
theorem StopContainer_twice_self_log :
    (selfLogWorld.store.record? (containerPath "web")).map (fun c => (c.Status, c.LogFile))
      = some (StateRunning, "/var/run/minidocker/containers/web/config.json") ∧
    signalOk selfLogWorld 4242 = true ∧
    (StopContainer selfLogWorld "t1" "web").1 = .ok () ∧
    ((StopContainer selfLogWorld "t1" "web").2.store.read (containerPath "web")).map
      (fun s => s.config) = some .corrupt ∧
    (StopContainer (StopContainer selfLogWorld "t1" "web").2 "t2" "web").1
      = .error .badConfig := by
  decide

/-- C7 (as amended): for a record with status `running` whose process accepts the
termination signal and whose `log_file` is not the path of the record's own `config.json`,
`StopContainer` succeeds and stores the status `stopped`; a second `StopContainer` on the
resulting state fails with the already-stopped error and changes nothing. -/
theorem StopContainer_twice (w : World) (now now2 id : String) (c : Container)
    (log : Option String)
    (hstored : w.store.read (containerPath id) = some { config := .record c, log := log })
    (hrun : c.Status = StateRunning)
    (hsig : signalOk w c.Pid = true)
    (hlog : fileRef c.LogFile ≠ .config (containerPath id)) :
    (StopContainer w now id).1 = .ok () ∧
    (StopContainer w now id).2.store.record? (containerPath id)
      = some { c with Status := StateStopped } ∧
    StopContainer (StopContainer w now id).2 now2 id
      = (.error (.alreadyStopped id), (StopContainer w now id).2) := by
  have hns : c.Status ≠ StateStopped := by rw [hrun]; decide
  have hcfg : ((StopContainer w now id).2.store.read (containerPath id)).map (fun s => s.config)
      = some (.record { c with Status := StateStopped }) := by
    rw [StopContainer_ok w now id c log hstored hns hsig]
    simp only
    have hbase : ((w.store.change (containerPath id) stopSlot).read (containerPath id)).map
        (fun s => s.config) = some (.record { c with Status := StateStopped }) := by
      rw [Store.read_change, if_pos rfl, hstored]
      rfl
    by_cases hl : c.LogFile ≠ ""
    · rw [if_pos hl, appendFile_read_config _ _ _ _ hlog, hbase]
    · rw [if_neg hl, hbase]
  refine ⟨?_, ?_, ?_⟩
  · rw [StopContainer_ok w now id c log hstored hns hsig]
  · unfold Store.record?
    cases hr : (StopContainer w now id).2.store.read (containerPath id) with
    | none => rw [hr] at hcfg; cases hcfg
    | some s =>
      rw [hr] at hcfg
      simp only [Option.map_some', Option.some.injEq] at hcfg
      obtain ⟨cfg, lg⟩ := s
      simp only at hcfg
      subst hcfg
      rfl
  · exact StopContainer_alreadyStopped _ now2 id _ hcfg rfl

/-- The amended C7 at the state `liveWorld`: `web` is running with the live pid 4242 and its
log is the `container.log` of its directory. -/
theorem StopContainer_twice_witness :
    (StopContainer liveWorld "t1" "web").1 = .ok () ∧
    (StopContainer liveWorld "t1" "web").2.store.record? (containerPath "web")
      = some { webRecord with Status := StateStopped } ∧
    StopContainer (StopContainer liveWorld "t1" "web").2 "t2" "web"
      = (.error (.alreadyStopped "web"), (StopContainer liveWorld "t1" "web").2) :=
  StopContainer_twice liveWorld "t1" "t2" "web" webRecord (some "")
    (by decide) (by decide) (by decide) (by decide)

/-- C8 as stated fails: at `staleWorld` the record of `web` is `running` and its pid 4242 is
absent from the process table, yet `StopContainer` fails with the signalling error, not the
already-stopped one, and the stored status is still `running`. -/
theorem StopContainer_no_reconcile :
    staleWorld.store.record? (containerPath "web") = some webRecord ∧
    webRecord.Status = StateRunning ∧
    webRecord.Pid ∉ staleWorld.procs ∧
    (StopContainer staleWorld "t1" "web").1 = .error .killFailed ∧
    (StopContainer staleWorld "t1" "web").1 ≠ .error (.alreadyStopped "web") ∧
    (StopContainer staleWorld "t1" "web").2.store.record? (containerPath "web")
      = some webRecord := by
  decide

/-- C8 (as amended): `StopContainer` judges the stored status as it is.  For a stored record
with status `running` whose pid is absent from the process table it fails with the
signalling error and leaves the state, and so the stored status `running`, unchanged; it
fails with the already-stopped condition exactly when the stored status is `stopped`. -/
theorem StopContainer_stale (w : World) (now id : String) :
    (∀ c log, w.store.read (containerPath id) = some { config := .record c, log := log } →
      c.Status = StateRunning → c.Pid ∉ w.procs →
      StopContainer w now id = (.error .killFailed, w)) ∧
    ((∃ id1, (StopContainer w now id).1 = .error (.alreadyStopped id1)) ↔
      ∃ c, w.store.record? (containerPath id) = some c ∧ c.Status = StateStopped) := by
  constructor
  · intro c log hstored hrun hdead
    exact StopContainer_killFailed w now id c log hstored (by rw [hrun]; decide)
      (signalOk_of_absent hdead)
  · unfold Store.record?
    cases hr : w.store.read (containerPath id) with
    | none =>
      unfold StopContainer
      simp [hr]
    | some s =>
      obtain ⟨cfg, lg⟩ := s
      cases cfg with
      | missing => unfold StopContainer; simp [hr]
      | corrupt => unfold StopContainer; simp [hr]
      | record c =>
        simp only [Option.some.injEq, exists_eq_left']
        by_cases hs : c.Status = StateStopped
        · rw [StopContainer_alreadyStopped w now id c (by rw [hr]; rfl) hs]
          simp [hs]
        · by_cases hsig : signalOk w c.Pid = true
          · rw [StopContainer_ok w now id c lg hr hs hsig]
            simp [hs]
          · rw [StopContainer_killFailed w now id c lg hr hs (by simpa using hsig)]
            simp [hs]

/-- The amended C8 at `staleWorld`. -/
theorem StopContainer_stale_witness :
    StopContainer staleWorld "t1" "web" = (.error .killFailed, staleWorld) :=
  (StopContainer_stale staleWorld "t1" "web").1 webRecord (some "")
    (by decide) (by decide) (by decide)

/-! ## Claims on launching -/

theorem Store.record?_of_read_eq {st1 st2 : Store} {p q : Path}
    (h : st1.read p = st2.read q) : st1.record? p = st2.record? q := by
  unfold Store.record?
  rw [h]

theorem Store.record?_of_config_eq {st1 st2 : Store} {p q : Path}
    (h : (st1.read p).map (fun s => s.config) = (st2.read q).map (fun s => s.config)) :
    st1.record? p = st2.record? q := by
  unfold Store.record?
  cases h1 : st1.read p with
  | none =>
    cases h2 : st2.read q with
    | none => rfl
    | some s2 => rw [h1, h2] at h; cases h
  | some s1 =>
    cases h2 : st2.read q with
    | none => rw [h1, h2] at h; cases h
    | some s2 =>
      rw [h1, h2] at h
      simp only [Option.map_some', Option.some.injEq] at h
      obtain ⟨c1, l1⟩ := s1
      obtain ⟨c2, l2⟩ := s2
      simp only at h
      subst h
      cases c1 <;> rfl

theorem Store.record?_mkdir (st : Store) (t q : Path) :
    (st.mkdir t).record? q = st.record? q := by
  unfold Store.record?
  rw [Store.read_mkdir]
  cases h : st.read q with
  | some s => rfl
  | none =>
    simp only
    by_cases htq : t = q
    · rw [if_pos htq]
    · rw [if_neg htq]

theorem Store.record?_change_keep (st : Store) (t q : Path) (f : Slot → Slot)
    (hf : ∀ s, (f s).config = s.config) : (st.change t f).record? q = st.record? q := by
  apply Store.record?_of_config_eq
  rw [Store.read_change]
  by_cases hq : q = t
  · rw [if_pos hq]
    cases st.read q with
    | none => rfl
    | some s => simp only [Option.map_some', hf]
  · rw [if_neg hq]

theorem Store.read_change_same (st : Store) (t : Path) (f : Slot → Slot) (s : Slot)
    (h : st.read t = some s) : (st.change t f).read t = some (f s) := by
  rw [Store.read_change, if_pos rfl, h]
  rfl

theorem Store.read_mkdir_isSome (st : Store) (t : Path) :
    ∃ s, (st.mkdir t).read t = some s := by
  rw [Store.read_mkdir]
  cases st.read t with
  | some s => exact ⟨s, rfl⟩
  | none => exact ⟨{ config := .missing, log := none }, by simp⟩

theorem record?_change_imageConfig (st : Store) (t q : Path) (wr : ImageConfigWrite)
    (c : Container) (h : (st.change t wr.apply).record? q = some c) :
    st.record? q = some c ∨ (q = t ∧ wr = .written (some c)) := by
  by_cases hq : q = t
  · cases wr with
    | notWritten =>
      left
      rw [← h]
      exact (Store.record?_change_keep st t q _ (fun _ => rfl)).symm
    | written d =>
      unfold Store.record? at h
      rw [Store.read_change, if_pos hq] at h
      cases hr : st.read q with
      | none => rw [hr] at h; cases h
      | some s =>
        rw [hr] at h
        cases d with
        | none => cases h
        | some c1 =>
          right
          simp only [Option.map_some', ImageConfigWrite.apply, Option.some.injEq] at h
          exact ⟨hq, by rw [h]⟩
  · left
    rw [← h]
    apply Store.record?_of_read_eq
    rw [Store.read_change, if_neg hq]

/-! ### The entries of the archive -/

theorem extractArchive_cons (st : Store) (x : ArchiveWrite) (ar : List ArchiveWrite) :
    extractArchive st (x :: ar) = extractArchive (ArchiveWrite.apply st x) ar := rfl

theorem Store.record?_change_other (st : Store) {t q : Path} (f : Slot → Slot) (h : t ≠ q) :
    (st.change t f).record? q = st.record? q := by
  apply Store.record?_of_read_eq
  rw [Store.read_change, if_neg (fun e => h e.symm)]

/-- An entry that is not the `config.json` of a directory leaves the record of that
directory as it is. -/
theorem record?_apply_ne (st : Store) (x : ArchiveWrite) (q : Path)
    (h : x.configDir ≠ some q) : (ArchiveWrite.apply st x).record? q = st.record? q := by
  cases x with
  | dir d => exact Store.record?_mkdir st d q
  | config d content =>
    have hd : d ≠ q := fun e => h (by rw [← e]; rfl)
    show ((st.mkdir d).change d _).record? q = _
    rw [Store.record?_change_other _ _ hd, Store.record?_mkdir]
  | log d content =>
    exact Eq.trans (Store.record?_change_keep _ d q _ (fun s => rfl))
      (Store.record?_mkdir st d q)

theorem record?_extractArchive_ne (ar : List ArchiveWrite) (st : Store) (q : Path)
    (h : ∀ x ∈ ar, x.configDir ≠ some q) : (extractArchive st ar).record? q = st.record? q := by
  induction ar generalizing st with
  | nil => rfl
  | cons x ar ih =>
    rw [extractArchive_cons, ih _ (fun y hy => h y (List.mem_cons_of_mem _ hy)),
      record?_apply_ne _ _ _ (h x (List.mem_cons_self _ _))]

/-- A record found after an entry is written was there before, or is the content of that
entry. -/
theorem record?_apply (st : Store) (x : ArchiveWrite) (q : Path) (c : Container)
    (h : (ArchiveWrite.apply st x).record? q = some c) :
    st.record? q = some c ∨ x = .config q (some c) := by
  by_cases hx : x.configDir = some q
  · cases x with
    | dir d => cases hx
    | log d content => cases hx
    | config d content =>
      have hd : d = q := Option.some.inj hx
      subst hd
      obtain ⟨s, hs⟩ := Store.read_mkdir_isSome st d
      cases content with
      | none =>
        have hread : (ArchiveWrite.apply st (.config d none)).read d
            = some { s with config := .corrupt } :=
          Store.read_change_same (st.mkdir d) d _ s hs
        unfold Store.record? at h
        rw [hread] at h
        cases h
      | some c1 =>
        have hread : (ArchiveWrite.apply st (.config d (some c1))).read d
            = some { s with config := .record c1 } :=
          Store.read_change_same (st.mkdir d) d _ s hs
        unfold Store.record? at h
        rw [hread] at h
        simp only [Option.some.injEq] at h
        rw [h]
        exact Or.inr rfl
  · rw [record?_apply_ne _ _ _ hx] at h
    exact Or.inl h

theorem record?_extractArchive (ar : List ArchiveWrite) (st : Store) (q : Path)
    (c : Container) (h : (extractArchive st ar).record? q = some c) :
    st.record? q = some c ∨ ArchiveWrite.config q (some c) ∈ ar := by
  induction ar generalizing st with
  | nil => exact Or.inl h
  | cons x ar ih =>
    rw [extractArchive_cons] at h
    rcases ih _ h with h1 | h1
    · rcases record?_apply st x q c h1 with h2 | h2
      · exact Or.inl h2
      · exact Or.inr (by rw [h2]; exact List.mem_cons_self _ _)
    · exact Or.inr (List.mem_cons_of_mem _ h1)

/-- A directory is still there after an entry is written, and so is its log. -/
theorem read_apply_some (st : Store) (x : ArchiveWrite) (p : Path) (s : Slot)
    (h : st.read p = some s) :
    ∃ s1, (ArchiveWrite.apply st x).read p = some s1 ∧ (s.log.isSome → s1.log.isSome) := by
  have hm : ∀ d, (st.mkdir d).read p = some s := by
    intro d
    rw [Store.read_mkdir, h]
  cases x with
  | dir d => exact ⟨s, hm d, id⟩
  | config d content =>
    show ∃ s1, ((st.mkdir d).change d _).read p = some s1 ∧ _
    rw [Store.read_change, hm d]
    by_cases hp : p = d
    · rw [if_pos hp]; exact ⟨_, rfl, id⟩
    · rw [if_neg hp]; exact ⟨s, rfl, id⟩
  | log d content =>
    show ∃ s1, ((st.mkdir d).change d _).read p = some s1 ∧ _
    rw [Store.read_change, hm d]
    by_cases hp : p = d
    · rw [if_pos hp]; exact ⟨_, rfl, fun _ => rfl⟩
    · rw [if_neg hp]; exact ⟨s, rfl, id⟩

theorem read_extractArchive_some (ar : List ArchiveWrite) (st : Store) (p : Path) (s : Slot)
    (h : st.read p = some s) :
    ∃ s1, (extractArchive st ar).read p = some s1 ∧ (s.log.isSome → s1.log.isSome) := by
  induction ar generalizing st s with
  | nil => exact ⟨s, h, id⟩
  | cons x ar ih =>
    obtain ⟨s1, h1, hl1⟩ := read_apply_some st x p s h
    obtain ⟨s2, h2, hl2⟩ := ih _ s1 h1
    exact ⟨s2, by rw [extractArchive_cons]; exact h2, fun hl => hl2 (hl1 hl)⟩

/-- A launch that fails does not write the record of the container: a record found in the
store afterwards was there before, or is the image configuration that `ExtractImage` copied
to the `config.json` of the container directory, or is a `config.json` that an entry of the
archive wrote. -/
theorem RunContainerWithSecurity_error_records (w : World) (env : RunEnv) (a : RunArgs)
    (err : Failure) (h : (RunContainerWithSecurity w env a).1 = .error err) (q : Path)
    (c : Container)
    (hc : (RunContainerWithSecurity w env a).2.store.record? q = some c) :
    w.store.record? q = some c ∨
      (q = containerPath (runContainerID env a) ∧ env.imageConfig = .written (some c)) ∨
      ArchiveWrite.config q (some c) ∈ env.archive := by
  have hlog : ∀ s : Slot, ({ s with log := some "" } : Slot).config = s.config := fun _ => rfl
  have hw2 : ((w.store.mkdir (containerPath (runContainerID env a))).change
      (containerPath (runContainerID env a)) (fun s => { s with log := some "" })).record? q
      = w.store.record? q := by
    rw [Store.record?_change_keep _ _ _ _ hlog, Store.record?_mkdir]
  have hw2x : ∀ c, (extractArchive ((w.store.mkdir (containerPath (runContainerID env a))).change
      (containerPath (runContainerID env a)) (fun s => { s with log := some "" }))
      env.archive).record? q = some c →
      w.store.record? q = some c ∨
        (q = containerPath (runContainerID env a) ∧ env.imageConfig = .written (some c)) ∨
        ArchiveWrite.config q (some c) ∈ env.archive := by
    intro c hc
    rcases record?_extractArchive _ _ _ _ hc with h1 | h1
    · rw [hw2] at h1; exact Or.inl h1
    · exact Or.inr (Or.inr h1)
  have hw3 : ∀ c, ((extractArchive ((w.store.mkdir (containerPath (runContainerID env a))).change
      (containerPath (runContainerID env a)) (fun s => { s with log := some "" }))
      env.archive).change
      (containerPath (runContainerID env a)) env.imageConfig.apply).record? q = some c →
      w.store.record? q = some c ∨
        (q = containerPath (runContainerID env a) ∧ env.imageConfig = .written (some c)) ∨
        ArchiveWrite.config q (some c) ∈ env.archive := by
    intro c hc
    rcases record?_change_imageConfig _ _ _ _ _ hc with h1 | h1
    · exact hw2x c h1
    · exact Or.inr (Or.inl h1)
  unfold RunContainerWithSecurity at h hc
  cases h1 : env.initDirOk <;> simp only [h1, Bool.not_true, Bool.not_false, if_true,
    Bool.false_eq_true, if_false] at h hc
  · exact Or.inl hc
  cases h2 : env.mkdirOk <;> simp only [h2, Bool.not_true, Bool.not_false, if_true,
    Bool.false_eq_true, if_false] at h hc
  · exact Or.inl hc
  cases h3 : env.createLogOk <;> simp only [h3, Bool.not_true, Bool.not_false, if_true,
    Bool.false_eq_true, if_false] at h hc
  · rw [Store.record?_mkdir] at hc; exact Or.inl hc
  cases h4 : env.mkRootfsOk <;> simp only [h4, Bool.not_true, Bool.not_false, if_true,
    Bool.false_eq_true, if_false] at h hc
  · rw [hw2] at hc; exact Or.inl hc
  cases h5 : env.extractOk <;> simp only [h5, Bool.not_true, Bool.not_false, if_true,
    Bool.false_eq_true, if_false] at h hc
  · exact hw2x c hc
  cases h6 : env.openLogOk <;> simp only [h6, Bool.not_true, Bool.not_false, if_true,
    Bool.false_eq_true, if_false] at h hc
  · exact hw3 c hc
  cases h7 : env.startPid with
  | none => simp only [h7] at h hc; exact hw3 c hc
  | some pid =>
    simp only [h7] at h hc
    cases h8 : env.writeOk <;> simp only [h8, Bool.not_true, Bool.not_false, if_true,
      Bool.false_eq_true, if_false] at h hc
    · exact hw3 c hc
    · cases h

/-- A launch in which every step of the parent succeeds stores a running record with the
pid of the child in the directory of the container. -/
theorem RunContainerWithSecurity_ok (w : World) (env : RunEnv) (a : RunArgs) (pid : Int)
    (h1 : env.initDirOk = true) (h2 : env.mkdirOk = true) (h3 : env.createLogOk = true)
    (h4 : env.mkRootfsOk = true) (h5 : env.extractOk = true) (h6 : env.openLogOk = true)
    (h7 : env.startPid = some pid) (h8 : env.writeOk = true) :
    (RunContainerWithSecurity w env a).1 = .ok () ∧
    ∃ c, (RunContainerWithSecurity w env a).2.store.record? (containerPath (runContainerID env a))
        = some c ∧ c.Status = StateRunning ∧ c.Pid = pid := by
  unfold RunContainerWithSecurity
  simp only [h1, h2, h3, h4, h5, h6, h7, h8, Bool.not_true, Bool.false_eq_true, if_false,
    true_and]
  obtain ⟨s, hs⟩ := Store.read_mkdir_isSome w.store (containerPath (runContainerID env a))
  have hs2 := Store.read_change_same _ _ (fun s : Slot => { s with log := some "" }) s hs
  obtain ⟨s2, hs2x, _⟩ := read_extractArchive_some env.archive _ _ _ hs2
  have hs3 := Store.read_change_same _ _ env.imageConfig.apply _ hs2x
  apply Exists.intro
  refine And.intro ?_ ?_
  · unfold Store.record?
    rw [Store.read_change_same _ _ _ _ hs3]
  · exact ⟨rfl, rfl⟩

theorem RunContainerWithSecurity_start_fails (w : World) (env : RunEnv) (a : RunArgs)
    (h : env.startPid = none) : ∃ err, (RunContainerWithSecurity w env a).1 = .error err := by
  unfold RunContainerWithSecurity
  cases h1 : env.initDirOk <;> simp only [h1, Bool.not_true, Bool.not_false, if_true,
    Bool.false_eq_true, if_false]
  · exact ⟨_, rfl⟩
  cases h2 : env.mkdirOk <;> simp only [h2, Bool.not_true, Bool.not_false, if_true,
    Bool.false_eq_true, if_false]
  · exact ⟨_, rfl⟩
  cases h3 : env.createLogOk <;> simp only [h3, Bool.not_true, Bool.not_false, if_true,
    Bool.false_eq_true, if_false]
  · exact ⟨_, rfl⟩
  cases h4 : env.mkRootfsOk <;> simp only [h4, Bool.not_true, Bool.not_false, if_true,
    Bool.false_eq_true, if_false]
  · exact ⟨_, rfl⟩
  cases h5 : env.extractOk <;> simp only [h5, Bool.not_true, Bool.not_false, if_true,
    Bool.false_eq_true, if_false]
  · exact ⟨_, rfl⟩
  cases h6 : env.openLogOk <;> simp only [h6, Bool.not_true, Bool.not_false, if_true,
    Bool.false_eq_true, if_false]
  · exact ⟨_, rfl⟩
  simp only [h]
  exact ⟨_, rfl⟩

theorem InternalStartContainer_fails (cenv : ChildEnv) (hos : cenv.goos = "linux")
    (h : cenv.mountOk = false ∨ cenv.pivotRootOk = false ∨ cenv.commandOk = false) :
    ∃ err, (InternalStartContainer cenv).2 = .error err := by
  unfold InternalStartContainer setupMountsLinux
  rw [if_neg (by rw [hos]; decide)]
  cases hm : cenv.mountOk <;> cases hp : cenv.pivotRootOk <;> cases hr : cenv.chrootOk <;>
    cases hd : cenv.chdirOk <;> cases hc : cenv.commandOk <;>
    simp [hm, hp, hc] at h ⊢

/-- C9 as stated fails: the child of a launch fails at the mount step, and the run
operation has succeeded and stored a record with status `running` for the container. -/
theorem launch_mount_failure_recorded_running :
    (InternalStartContainer mountFailChild).2 = .error .setupMounts ∧
    (launch emptyWorld goodRunEnv mountFailChild webArgs).2 = some (.error .setupMounts) ∧
    (launch emptyWorld goodRunEnv mountFailChild webArgs).1.1 = .ok () ∧
    ((launch emptyWorld goodRunEnv mountFailChild webArgs).1.2.store.record?
        (containerPath "web")).map (fun c => (c.Status, c.Pid)) = some (StateRunning, 77) := by
  decide

/-- C9 (as amended): a launch whose child process cannot be started fails, the child
never runs, and the record of the container is not written: a record found in the store
afterwards was there before, or is the image configuration that `ExtractImage` copied to the
`config.json` of the container directory, or is a `config.json` that an entry of the image
archive wrote.  A failure of the isolation setup at mount,
pivot-root or exec of the entry command happens in the started child, where
`InternalStartContainer` returns an error; the run operation does not wait for it: when the
steps of the parent succeed it returns success and the store holds a record with status
`running` and the pid of the child. -/
theorem launch_isolation_failure (w : World) (env : RunEnv) (cenv : ChildEnv) (a : RunArgs) :
    (env.startPid = none →
      (∃ err, (launch w env cenv a).1.1 = .error err) ∧
      (launch w env cenv a).2 = none ∧
      ∀ q c, (launch w env cenv a).1.2.store.record? q = some c →
        w.store.record? q = some c ∨
          (q = containerPath (runContainerID env a) ∧ env.imageConfig = .written (some c)) ∨
          ArchiveWrite.config q (some c) ∈ env.archive) ∧
    (∀ pid, env.succeeds pid → cenv.goos = "linux" →
      (cenv.mountOk = false ∨ cenv.pivotRootOk = false ∨ cenv.commandOk = false) →
      (∃ err, (launch w env cenv a).2 = some (.error err)) ∧
      (launch w env cenv a).1.1 = .ok () ∧
      ∃ c, (launch w env cenv a).1.2.store.record? (containerPath (runContainerID env a))
          = some c ∧ c.Status = StateRunning ∧ c.Pid = pid) := by
  constructor
  · intro hstart
    obtain ⟨err, herr⟩ := RunContainerWithSecurity_start_fails w env a hstart
    refine ⟨⟨err, herr⟩, ?_,
      fun q c hc => RunContainerWithSecurity_error_records w env a err herr q c hc⟩
    unfold launch
    simp [hstart]
  · rintro pid ⟨h1, h2, h3, h4, h5, h6, h7, h8⟩ hos hfail
    obtain ⟨err, herr⟩ := InternalStartContainer_fails cenv hos hfail
    have hok := RunContainerWithSecurity_ok w env a pid h1 h2 h3 h4 h5 h6 h7 h8
    refine ⟨⟨err, ?_⟩, hok.1, hok.2⟩
    unfold launch
    simp [h1, h2, h3, h4, h5, h6, h7, herr]

/-- The amended C9 at a launch that cannot start its child and at one whose child fails at
the mount step. -/
theorem launch_isolation_failure_witness :
    (∃ err, (launch emptyWorld { goodRunEnv with startPid := none } mountFailChild webArgs).1.1
      = .error err) ∧
    (launch emptyWorld goodRunEnv mountFailChild webArgs).1.1 = .ok () :=
  ⟨((launch_isolation_failure emptyWorld { goodRunEnv with startPid := none } mountFailChild
      webArgs).1 (by decide)).1,
   ((launch_isolation_failure emptyWorld goodRunEnv mountFailChild webArgs).2 77
      (by decide) (by decide) (by decide)).2.1⟩

/-! ## Claims on the step relation -/

theorem settled_of_read_eq {st1 st2 : Store} {p : Path} (h : st1.read p = st2.read p)
    (hs : settled st2 p) : settled st1 p := by
  intro c hc
  rw [Store.record?_of_read_eq h] at hc
  exact hs c hc

theorem record?_of_read_stopSlot {st1 : Store} (st2 : Store) {p : Path} {c : Container}
    (h : st1.read p = (st2.read p).map stopSlot) (hc : st1.record? p = some c) :
    c.Status = StateStopped := by
  unfold Store.record? at hc
  rw [h] at hc
  cases hr : st2.read p with
  | none => rw [hr] at hc; cases hc
  | some s =>
    rw [hr] at hc
    simp only [Option.map_some'] at hc
    cases hcfg : (stopSlot s).config with
    | missing =>
      have : stopSlot s = { config := .missing, log := (stopSlot s).log } := by
        rw [← hcfg]
      rw [this] at hc; cases hc
    | corrupt =>
      have : stopSlot s = { config := .corrupt, log := (stopSlot s).log } := by
        rw [← hcfg]
      rw [this] at hc; cases hc
    | record c1 =>
      have : stopSlot s = { config := .record c1, log := (stopSlot s).log } := by
        rw [← hcfg]
      rw [this] at hc
      simp only [Option.some.injEq] at hc
      obtain ⟨c0, -, h0⟩ := stopSlot_config_record hcfg
      rw [← hc, h0]

theorem settled_change_stopSlot {st : Store} {p : Path} (q : Path) (hs : settled st p) :
    settled (st.change q stopSlot) p := by
  by_cases hpq : p = q
  · intro c hc
    refine record?_of_read_stopSlot st ?_ hc
    rw [Store.read_change, if_pos hpq]
  · refine settled_of_read_eq ?_ hs
    rw [Store.read_change, if_neg hpq]

theorem settled_appendFile {st : Store} {p : Path} (path text : String) (hs : settled st p) :
    settled (appendFile st path text) p := by
  unfold appendFile
  cases hf : fileRef path with
  | config d =>
    simp only
    by_cases hpd : p = d
    · intro c hc
      exfalso
      unfold Store.record? at hc
      rw [Store.read_change, if_pos hpd] at hc
      cases hr : st.read p with
      | none => rw [hr] at hc; cases hc
      | some s =>
        rw [hr] at hc
        obtain ⟨cfg, lg⟩ := s
        cases cfg <;> cases hc
    · refine settled_of_read_eq ?_ hs
      rw [Store.read_change, if_neg hpd]
  | log d =>
    simp only
    intro c hc
    have hk := Store.record?_change_keep st d p
      (fun s => { s with log := s.log.map (fun l => l ++ text) }) (fun _ => rfl)
    rw [hk] at hc
    exact hs c hc
  | other => exact hs

theorem settled_reconcileAll (w : World) (cs : List Container) {st : Store} {p : Path}
    (hs : settled st p) : settled (reconcileAll w cs st) p := by
  have h := read_reconcileAll w cs st p
  by_cases ha : (cs.any fun c => stale w c && decide (containerPath c.ID = p)) = true
  · rw [if_pos ha] at h
    intro c hc
    exact record?_of_read_stopSlot st h hc
  · rw [if_neg ha] at h
    exact settled_of_read_eq h hs

theorem settled_ListContainers (w : World) {p : Path} (hs : settled w.store p) :
    settled (ListContainers w).2.store p := by
  rw [ListContainers_eq]
  exact settled_reconcileAll w _ hs

theorem settled_StopContainer (w : World) (now id : String) {p : Path}
    (hs : settled w.store p) : settled (StopContainer w now id).2.store p := by
  cases hr : w.store.read (containerPath id) with
  | none =>
    have : StopContainer w now id = (.error (.notFound id), w) := by
      unfold StopContainer; simp [hr]
    rw [this]; exact hs
  | some s =>
    obtain ⟨cfg, lg⟩ := s
    cases cfg with
    | missing =>
      have : StopContainer w now id = (.error (.notFound id), w) := by
        unfold StopContainer; simp [hr]
      rw [this]; exact hs
    | corrupt =>
      have : StopContainer w now id = (.error .badConfig, w) := by
        unfold StopContainer; simp [hr]
      rw [this]; exact hs
    | record c =>
      by_cases hst : c.Status = StateStopped
      · rw [StopContainer_alreadyStopped w now id c (by rw [hr]; rfl) hst]
        exact hs
      · by_cases hsig : signalOk w c.Pid = true
        · rw [StopContainer_ok w now id c lg hr hst hsig]
          simp only
          by_cases hl : c.LogFile ≠ ""
          · rw [if_pos hl]
            exact settled_appendFile _ _ (settled_change_stopSlot _ hs)
          · rw [if_neg hl]
            exact settled_change_stopSlot _ hs
        · rw [StopContainer_killFailed w now id c lg hr hst (by simpa using hsig)]
          exact hs

theorem Store.read_mkdir_ne (st : Store) {t p : Path} (h : t ≠ p) :
    (st.mkdir t).read p = st.read p := by
  rw [Store.read_mkdir]
  cases st.read p with
  | some s => rfl
  | none => simp only; rw [if_neg h]

theorem Store.read_change_ne (st : Store) {t p : Path} (f : Slot → Slot) (h : t ≠ p) :
    (st.change t f).read p = st.read p := by
  rw [Store.read_change, if_neg (fun e => h e.symm)]

/-- A launch leaves the record of a directory as it is, unless it is the directory of its
container or an entry of the image archive writes the `config.json` of that directory. -/
theorem RunContainerWithSecurity_record_other (w : World) (env : RunEnv) (a : RunArgs)
    (p : Path) (h : containerPath (runContainerID env a) ≠ p)
    (har : ∀ x ∈ env.archive, x.configDir ≠ some p) :
    (RunContainerWithSecurity w env a).2.store.record? p = w.store.record? p := by
  have h2 : ((w.store.mkdir (containerPath (runContainerID env a))).change
      (containerPath (runContainerID env a)) (fun s => { s with log := some "" })).record? p
      = w.store.record? p := by
    rw [Store.record?_change_other _ _ h, Store.record?_mkdir]
  have h2x : (extractArchive ((w.store.mkdir (containerPath (runContainerID env a))).change
      (containerPath (runContainerID env a)) (fun s => { s with log := some "" }))
      env.archive).record? p = w.store.record? p := by
    rw [record?_extractArchive_ne _ _ _ har, h2]
  unfold RunContainerWithSecurity
  cases h1 : env.initDirOk <;> simp only [h1, Bool.not_true, Bool.not_false, if_true,
    Bool.false_eq_true, if_false]
  cases h2 : env.mkdirOk <;> simp only [h2, Bool.not_true, Bool.not_false, if_true,
    Bool.false_eq_true, if_false]
  cases h3 : env.createLogOk <;> simp only [h3, Bool.not_true, Bool.not_false, if_true,
    Bool.false_eq_true, if_false]
  · exact Store.record?_mkdir _ _ _
  cases h4 : env.mkRootfsOk <;> simp only [h4, Bool.not_true, Bool.not_false, if_true,
    Bool.false_eq_true, if_false]
  · assumption
  cases h5 : env.extractOk <;> simp only [h5, Bool.not_true, Bool.not_false, if_true,
    Bool.false_eq_true, if_false]
  · exact h2x
  cases h6 : env.openLogOk <;> simp only [h6, Bool.not_true, Bool.not_false, if_true,
    Bool.false_eq_true, if_false]
  · rw [Store.record?_change_other _ _ h, h2x]
  cases h7 : env.startPid with
  | none =>
    simp only
    rw [Store.record?_change_other _ _ h, h2x]
  | some pid =>
    simp only
    cases h8 : env.writeOk <;> simp only [h8, Bool.not_true, Bool.not_false, if_true,
      Bool.false_eq_true, if_false]
    · rw [Store.record?_change_other _ _ h, h2x]
    · rw [Store.record?_change_other _ _ h, Store.record?_change_other _ _ h, h2x]

theorem ExecInContainer_world (w : World) (linux commandOk : Bool) (id : String) :
    (ExecInContainer w linux commandOk id).2 = w := by
  unfold ExecInContainer
  cases getContainer w.store id with
  | error e => rfl
  | ok c =>
    simp only
    by_cases hs : c.Status ≠ StateRunning
    · rw [if_pos hs]
    · rw [if_neg hs]
      cases linux <;> rfl

theorem archiveWrites_false {env : RunEnv} {a : RunArgs} {p : Path}
    (h : (Op.run env a).archiveWrites p = false) :
    ∀ x ∈ env.archive, x.configDir ≠ some p := by
  intro x hx he
  have hany : (Op.run env a).archiveWrites p = true := by
    show env.archive.any (fun x => x.configDir == some p) = true
    exact List.any_eq_true.mpr ⟨x, hx, by rw [he]; exact beq_self_eq_true _⟩
  rw [h] at hany
  cases hany

theorem settled_step (w : World) (op : Op) {p : Path} (hs : settled w.store p)
    (hop : launchTarget op ≠ some p) (har : op.archiveWrites p = false) :
    settled (step w op).store p := by
  cases op with
  | run env a =>
    have hne : containerPath (runContainerID env a) ≠ p := by
      intro e
      apply hop
      show some (containerPath (runContainerID env a)) = some p
      rw [e]
    intro c hc
    apply hs c
    rw [← RunContainerWithSecurity_record_other w env a p hne (archiveWrites_false har)]
    exact hc
  | list => exact settled_ListContainers w hs
  | stop now id => exact settled_StopContainer w now id hs
  | exec linux commandOk id =>
    show settled (ExecInContainer w linux commandOk id).2.store p
    rw [ExecInContainer_world]
    exact hs
  | logs id follow => exact hs

/-- C10 as stated fails: at `stoppedWorld` the record of `web` is `stopped`, and a launch
with the name `web` leaves the record stored under that ID with status `running`. -/
theorem run_revives_stopped :
    (stoppedWorld.store.record? (containerPath "web")).map (fun c => c.Status)
      = some StateStopped ∧
    ((runTrace stoppedWorld [(([], []), Op.run goodRunEnv webArgs)]).store.record?
      (containerPath "web")).map (fun c => c.Status) = some StateRunning := by
  decide

/-- An entry of the image archive rewrites a stopped record: the rootfs of the container
`web` is the directory of the ID `web/rootfs`, and a launch of `web` from an archive with
the entry `config.json` leaves there the record that the entry holds. -/
theorem archive_revives_stopped :
    containerPath "web/rootfs" = containerPath "web" ++ ["rootfs"] ∧
    (rootfsWorld.store.record? (containerPath "web/rootfs")).map (fun c => c.Status)
      = some StateStopped ∧
    launchTarget (Op.run rootfsRunEnv webArgs) ≠ some (containerPath "web/rootfs") ∧
    ((runTrace rootfsWorld [(([], []), Op.run rootfsRunEnv webArgs)]).store.record?
      (containerPath "web/rootfs")).map (fun c => c.Status) = some StateRunning := by
  decide

/-- C10 (as amended): once the record stored under a container ID has the status `stopped`,
no sequence of list, stop, exec and logs commands, and of launches into directories other
than that of the ID whose image archives have no entry written as the `config.json` of that
directory, interleaved with any changes of the process table, leaves a record with another
status under that ID. -/
theorem stopped_is_terminal (tr : List ((List Int × List Int) × Op)) (w : World) (id : String)
    (hstop : ∃ c, w.store.record? (containerPath id) = some c ∧ c.Status = StateStopped)
    (hrun : ∀ e ∈ tr, launchTarget e.2 ≠ some (containerPath id))
    (harch : ∀ e ∈ tr, e.2.archiveWrites (containerPath id) = false) :
    ∀ c, (runTrace w tr).store.record? (containerPath id) = some c →
      c.Status = StateStopped := by
  have hs : settled w.store (containerPath id) := by
    obtain ⟨c0, h0, hc0⟩ := hstop
    intro c hc
    rw [h0] at hc
    cases hc
    exact hc0
  clear hstop
  induction tr generalizing w with
  | nil => exact hs
  | cons e rest ih =>
    obtain ⟨os, op⟩ := e
    unfold runTrace
    apply ih
    · exact fun e he => hrun e (List.mem_cons_of_mem _ he)
    · exact fun e he => harch e (List.mem_cons_of_mem _ he)
    · exact settled_step _ op hs (hrun _ (List.mem_cons_self _ _))
        (harch _ (List.mem_cons_self _ _))

/-- The amended C10 at `stoppedWorld`: after a list, a stop, an exec, a logs and a launch of
another container, whose archive writes a `config.json` below its own rootfs, with a process
table that shows pid 4242 alive in between, the record of `web` is the stopped one. -/
theorem stopped_is_terminal_witness :
    (runTrace stoppedWorld
        [(([4242], []), Op.list), (([4242], []), Op.stop "t1" "web"),
         (([], []), Op.exec true true "web"), (([], []), Op.logs "web" false),
         (([], []), Op.run { goodRunEnv with
            archive := [.config (containerPath "db/rootfs") (some webRecord)] }
            { webArgs with containerName := "db" })]).store.record?
        (containerPath "web") = some { webRecord with Status := StateStopped } ∧
    ({ webRecord with Status := StateStopped } : Container).Status = StateStopped :=
  ⟨by decide,
   stopped_is_terminal
    [(([4242], []), Op.list), (([4242], []), Op.stop "t1" "web"),
     (([], []), Op.exec true true "web"), (([], []), Op.logs "web" false),
     (([], []), Op.run { goodRunEnv with
        archive := [.config (containerPath "db/rootfs") (some webRecord)] }
        { webArgs with containerName := "db" })]
    stoppedWorld "web" (by decide) (by decide) (by decide) _ (by decide)⟩
/-! ## Claims on cgroups and the child of a launch -/

theorem InternalStartContainerWith_eq (tbl : Char → Char) (env : ChildEnv) (genv : CgroupEnv)
    (memLimit cpuLimit : String) :
    ((InternalStartContainerWith tbl env genv memLimit cpuLimit).1,
      (InternalStartContainerWith tbl env genv memLimit cpuLimit).2.2)
      = InternalStartContainer env := by
  unfold InternalStartContainerWith InternalStartContainer
  by_cases h0 : env.goos ≠ "linux"
  · rw [if_pos h0, if_pos h0]
  · rw [if_neg h0, if_neg h0]
    cases hm : setupMountsLinux env <;> cases hr : env.chrootOk <;> cases hd : env.chdirOk <;>
      cases hc : env.commandOk <;> simp

/-- C18: in `setupCgroupsWithLimits` on Linux, every value written to `memory.max` is
`parseMemoryLimit(mem)` when that succeeds and 67108864 otherwise, every quota written to
`cpu.max` is `parseCPULimit(cpu)` when that succeeds and 10000 otherwise, against the period
100000; when no file operation fails both are written and the result is success; and on
every host OS the result is the same for every pair of limit strings, so a parse failure
never makes it an error. -/
theorem setupCgroupsWithLimits_defaults (tbl : Char → Char) (goos : String) (env : CgroupEnv)
    (memLimit cpuLimit memLimit2 cpuLimit2 : String) (b q p : Nat) :
    (CgroupWrite.memoryMax b ∈ (setupCgroupsWithLimits tbl "linux" env memLimit cpuLimit).1 →
      b = (match parseMemoryLimit tbl memLimit with
           | .ok v => v
           | .error _ => 67108864)) ∧
    (CgroupWrite.cpuMax q p ∈ (setupCgroupsWithLimits tbl "linux" env memLimit cpuLimit).1 →
      p = 100000 ∧
      q = (match parseCPULimit cpuLimit with
           | .ok v => v
           | .error _ => 10000)) ∧
    (env.mkdirOk = true → env.writeMemOk = true → env.writeCpuOk = true →
      env.writeProcsOk = true →
      ∃ b1 q1, (setupCgroupsWithLimits tbl "linux" env memLimit cpuLimit)
        = ([.memoryMax b1, .cpuMax q1 100000, .cgroupProcs env.pid], .ok ())) ∧
    (setupCgroupsWithLimits tbl goos env memLimit cpuLimit).2
      = (setupCgroupsWithLimits tbl goos env memLimit2 cpuLimit2).2 := by
  have hos : ¬ (("linux" : String) ≠ "linux") := by decide
  have hany : (setupCgroupsWithLimits tbl goos env memLimit cpuLimit).2
      = (setupCgroupsWithLimits tbl goos env memLimit2 cpuLimit2).2 := by
    unfold setupCgroupsWithLimits
    by_cases hg : goos ≠ "linux"
    · simp only [if_pos hg]
    · simp only [if_neg hg]
      cases h1 : env.mkdirOk <;> cases h2 : env.writeMemOk <;> cases h3 : env.writeCpuOk <;>
        cases h4 : env.writeProcsOk <;> simp
  refine ⟨?_, ?_, ?_, hany⟩
  all_goals
    unfold setupCgroupsWithLimits
    simp only [if_neg hos]
    cases h1 : env.mkdirOk <;> cases h2 : env.writeMemOk <;> cases h3 : env.writeCpuOk <;>
      cases h4 : env.writeProcsOk <;> simp
  all_goals exact fun hq hp => ⟨hp, hq⟩

/-- C18 at the limits `bad` and `50`, and at `64m` and `oops`. -/
theorem setupCgroupsWithLimits_defaults_witness :
    setupCgroupsWithLimits id "linux" goodCgroupEnv "bad" "50"
      = ([.memoryMax 67108864, .cpuMax 50000 100000, .cgroupProcs 1], .ok ()) ∧
    (setupCgroupsWithLimits id "linux" goodCgroupEnv "64m" "oops").1
      = [.memoryMax 67108864, .cpuMax 10000 100000, .cgroupProcs 1] ∧
    (∃ b1 q1, (setupCgroupsWithLimits id "linux" goodCgroupEnv "bad" "oops")
        = ([.memoryMax b1, .cpuMax q1 100000, .cgroupProcs goodCgroupEnv.pid], .ok ())) :=
  ⟨by decide, by decide,
   (setupCgroupsWithLimits_defaults id "linux" goodCgroupEnv "bad" "oops" "" "" 0 0 0).2.2.1
     (by decide) (by decide) (by decide) (by decide)⟩

/-- C19 as stated fails: on the host OS `darwin`, with every step able to succeed,
`InternalStartContainer` attempts no step and returns the only-on-Linux error. -/
theorem InternalStartContainer_darwin :
    darwinChild.goos ≠ "linux" ∧
    InternalStartContainer darwinChild = ([], .error .notLinux) ∧
    InternalStartContainerWith id darwinChild goodCgroupEnv "64m" "10"
      = ([], [], .error .notLinux) := by
  decide

/-- C19 (as amended): on a host OS other than Linux, `InternalStartContainer` returns the
only-on-Linux error at once: mount setup, cgroup setup, the root change and the entry command
are not attempted, simulated or otherwise. -/
theorem InternalStartContainer_not_linux (tbl : Char → Char) (env : ChildEnv)
    (genv : CgroupEnv) (memLimit cpuLimit : String) (h : env.goos ≠ "linux") :
    InternalStartContainer env = ([], .error .notLinux) ∧
    InternalStartContainerWith tbl env genv memLimit cpuLimit = ([], [], .error .notLinux) := by
  unfold InternalStartContainer InternalStartContainerWith
  rw [if_pos h, if_pos h]
  exact ⟨rfl, rfl⟩

/-- The amended C19 at the host OS `darwin`. -/
theorem InternalStartContainer_not_linux_witness :
    InternalStartContainer darwinChild = ([], .error .notLinux) :=
  (InternalStartContainer_not_linux id darwinChild goodCgroupEnv "64m" "10" (by decide)).1

/-- C20: in `InternalStartContainer` on Linux, when mount setup succeeds the steps attempted
and the result are the same whatever `setupCgroupsWithLimits` does, and the root change is
attempted after it (then `chdir` and the entry command, each when the step before it
succeeds); when mount setup fails the error is returned with no cgroup write, no root change
and no entry command attempted. -/
theorem InternalStartContainer_cgroups_warning (tbl : Char → Char) (env : ChildEnv)
    (genv genv2 : CgroupEnv) (memLimit cpuLimit memLimit2 cpuLimit2 : String)
    (hos : env.goos = "linux") :
    (setupMountsLinux env = true →
      (InternalStartContainerWith tbl env genv memLimit cpuLimit).1
          = (InternalStartContainerWith tbl env genv2 memLimit2 cpuLimit2).1 ∧
      (InternalStartContainerWith tbl env genv memLimit cpuLimit).2.2
          = (InternalStartContainerWith tbl env genv2 memLimit2 cpuLimit2).2.2 ∧
      ChildStep.chroot ∈ (InternalStartContainerWith tbl env genv memLimit cpuLimit).1 ∧
      (env.chrootOk = true →
        ChildStep.chdir ∈ (InternalStartContainerWith tbl env genv memLimit cpuLimit).1) ∧
      (env.chrootOk = true → env.chdirOk = true →
        ChildStep.command ∈ (InternalStartContainerWith tbl env genv memLimit cpuLimit).1 ∧
        (InternalStartContainerWith tbl env genv memLimit cpuLimit).2.2
          = (if env.commandOk then .ok () else .error .commandFailed))) ∧
    (setupMountsLinux env = false →
      InternalStartContainerWith tbl env genv memLimit cpuLimit
        = ([.mounts], [], .error .setupMounts)) := by
  have hos2 : ¬ (env.goos ≠ "linux") := by rw [hos]; decide
  unfold InternalStartContainerWith
  simp only [if_neg hos2]
  cases hm : setupMountsLinux env <;> cases hr : env.chrootOk <;> cases hd : env.chdirOk <;>
    cases hc : env.commandOk <;> simp

/-- C20 at a Linux child whose cgroup directory cannot be created, and at one whose mount
step fails. -/
theorem InternalStartContainer_cgroups_warning_witness :
    (InternalStartContainerWith id linuxChild noCgroupEnv "64m" "10").2.2 = .ok () ∧
    ChildStep.command ∈ (InternalStartContainerWith id linuxChild noCgroupEnv "64m" "10").1 ∧
    InternalStartContainerWith id mountFailChild goodCgroupEnv "64m" "10"
      = ([.mounts], [], .error .setupMounts) :=
  have h := InternalStartContainer_cgroups_warning id linuxChild noCgroupEnv goodCgroupEnv
    "64m" "10" "64m" "10" (by decide)
  have h2 := InternalStartContainer_cgroups_warning id mountFailChild goodCgroupEnv goodCgroupEnv
    "64m" "10" "64m" "10" (by decide)
  ⟨by decide, ((h.1 (by decide)).2.2.2.2 (by decide) (by decide)).1, h2.2 (by decide)⟩

/-! ## Claims on logs, listing, exec and archive entries -/

/-- C15: `LogsFromContainer(id, false)` fails, with no output, when the container directory,
its `config.json` or its `container.log` is missing; otherwise it returns success and its
output is the content of `container.log`. -/
theorem LogsFromContainer_nofollow (w : World) (id : String) :
    ((w.store.read (containerPath id) = none ∨
        ∃ s, w.store.read (containerPath id) = some s ∧ (s.config = .missing ∨ s.log = none)) →
      ∃ err, LogsFromContainer w id = .error err) ∧
    (∀ s l, w.store.read (containerPath id) = some s → s.config ≠ .missing → s.log = some l →
      LogsFromContainer w id = .ok l) := by
  unfold LogsFromContainer
  constructor
  · rintro (h | ⟨s, hs, h⟩)
    · rw [h]; exact ⟨_, rfl⟩
    · rw [hs]
      obtain ⟨cfg, lg⟩ := s
      cases cfg with
      | missing => exact ⟨_, rfl⟩
      | corrupt =>
        rcases h with h | h
        · cases h
        · simp only at h; subst h; exact ⟨_, rfl⟩
      | record c =>
        rcases h with h | h
        · cases h
        · simp only at h; subst h; exact ⟨_, rfl⟩
  · intro s l hs hc hl
    rw [hs]
    obtain ⟨cfg, lg⟩ := s
    simp only at hl hc
    subst hl
    cases cfg with
    | missing => exact absurd rfl hc
    | corrupt => rfl
    | record c => rfl

/-- C15 at `staleWorld`, whose log is empty, and at an ID without a directory. -/
theorem LogsFromContainer_nofollow_witness :
    LogsFromContainer staleWorld "web" = .ok "" ∧
    ∃ err, LogsFromContainer staleWorld "db" = .error err :=
  ⟨(LogsFromContainer_nofollow staleWorld "web").2
      { config := .record webRecord, log := some "" } "" (by decide) (by decide) (by decide),
   (LogsFromContainer_nofollow staleWorld "db").1 (Or.inl (by decide))⟩

theorem getContainersLoop_eq (files : List DirEntry) (containers : List Container) :
    getContainersLoop files containers
      = containers ++ (files.filter (fun e => e.isDir)).filterMap DirEntry.record? := by
  induction files generalizing containers with
  | nil => simp [getContainersLoop]
  | cons file files ih =>
    unfold getContainersLoop
    cases hd : file.isDir
    · simp only [Bool.not_false, if_true]
      rw [ih]
      simp [hd]
    · simp only [Bool.not_true, Bool.false_eq_true, if_false]
      cases hc : file.config with
      | missing => simp only; rw [ih]; simp [hd, DirEntry.record?, hc]
      | corrupt => simp only; rw [ih]; simp [hd, DirEntry.record?, hc]
      | record c => simp only; rw [ih]; simp [hd, DirEntry.record?, hc]

theorem getContainersDir_storeEntries (st : Store) :
    getContainersDir (.entries (storeEntries st)) = .ok (getContainers st) := by
  show Except.ok (getContainersLoop (storeEntries st) []) = Except.ok (getContainers st)
  rw [getContainersLoop_eq]
  simp only [List.nil_append, Except.ok.injEq]
  unfold storeEntries getContainers
  induction st with
  | nil => rfl
  | cons e rest ih =>
    simp only [List.filterMap_cons]
    by_cases hl : isListed e.1
    · have hl2 : e.1.dropLast = joinPath [ContainerDir] ∧ e.1 ≠ [] := hl
      rw [if_pos hl, if_pos hl2]
      simp only [List.filter_cons, if_true, List.filterMap_cons]
      rw [ih]
      cases hc : e.2.config <;> simp [DirEntry.record?, hc]
    · have hl2 : ¬ (e.1.dropLast = joinPath [ContainerDir] ∧ e.1 ≠ []) := hl
      rw [if_neg hl, if_neg hl2]
      exact ih

/-- C16: `getContainers` returns, in enumeration order, exactly the records of the entries
that are subdirectories and whose `config.json` is readable and decodes; it succeeds whatever
the entries hold, an entry that is no directory or whose `config.json` is missing, unreadable
or undecodable contributes nothing, and the others are returned all the same. -/
theorem getContainers_skips (files files2 : List DirEntry) (e : DirEntry) :
    getContainersDir (.entries files)
      = .ok ((files.filter (fun e => e.isDir)).filterMap DirEntry.record?) ∧
    getContainersDir (.entries []) = .ok [] ∧
    (∀ c, e.isDir = true → e.config = .record c →
      getContainersDir (.entries (files ++ e :: files2)) =
        .ok (getContainersLoop files [] ++ c :: getContainersLoop files2 [])) ∧
    ((e.isDir = false ∨ e.config = .missing ∨ e.config = .corrupt) →
      getContainersDir (.entries (files ++ e :: files2))
        = getContainersDir (.entries (files ++ files2))) := by
  simp only [getContainersDir, getContainersLoop_eq, List.nil_append, List.filter_append, List.filterMap_append,
    List.filter_cons, List.filter_nil, List.filterMap_nil, true_and, Except.ok.injEq]
  constructor
  · intro c hd hc
    simp [hd, DirEntry.record?, hc]
  · rintro (h | h | h)
    · simp [h]
    · cases hd : e.isDir <;> simp [DirEntry.record?, h]
    · cases hd : e.isDir <;> simp [DirEntry.record?, h]

/-- C16 at a listing with a plain file, a directory with a corrupt `config.json` and the
directory of `web`. -/
theorem getContainers_skips_witness :
    getContainersDir (.entries
      [{ name := "notes.txt", isDir := false, config := .missing },
       { name := "bad", isDir := true, config := .corrupt },
       { name := "web", isDir := true, config := .record webRecord }]) = .ok [webRecord] ∧
    getContainersDir (.entries
      ([{ name := "web", isDir := true, config := .record webRecord }]
        ++ { name := "bad", isDir := true, config := .corrupt } :: []))
      = getContainersDir (.entries
        ([{ name := "web", isDir := true, config := .record webRecord }] ++ [])) :=
  ⟨by decide,
   (getContainers_skips [{ name := "web", isDir := true, config := .record webRecord }] []
      { name := "bad", isDir := true, config := .corrupt }).2.2.2 (Or.inr (Or.inr rfl))⟩

/-- C17 fails on the code: for the target directory of the rootfs of `web` and the entry name
`../rootfs-other/x`, the path check of `ExtractImage` accepts the entry, and the path it is
written to lies outside the target directory. -/
theorem extractEntryPath_escapes :
    extractEntryPath "/var/run/minidocker/containers/web/rootfs" "../rootfs-other/x"
      = .ok "/var/run/minidocker/containers/web/rootfs-other/x" ∧
    ¬ insideDir "/var/run/minidocker/containers/web/rootfs"
        "/var/run/minidocker/containers/web/rootfs-other/x" ∧
    extractEntryPath "/var/run/minidocker/containers/web/rootfs" "../config.json"
      = .error (.pathTraversal "../config.json") := by
  decide

/-! ## Claims on exec and on a successful launch -/

theorem getContainer_of_read {st : Store} {id : String} {s : Slot}
    (h : st.read (containerPath id) = some s) :
    getContainer st id =
      match s.config with
      | .record c => .ok c
      | .corrupt => .error .badConfig
      | .missing => .error (.notFound id) := by
  unfold getContainer
  rw [h]
  obtain ⟨cfg, lg⟩ := s
  cases cfg <;> rfl

/-- C13 as stated fails: at `staleWorld` the record of `web` is `running` and its pid 4242
is absent from the process table, yet `ExecInContainer` does not fail with the not-running
error: on Linux it runs the `nsenter` command and returns that command's result, elsewhere
it returns success. -/
theorem ExecInContainer_no_reconcile :
    staleWorld.store.record? (containerPath "web") = some webRecord ∧
    webRecord.Status = StateRunning ∧
    webRecord.Pid ∉ staleWorld.procs ∧
    execRunsCommand staleWorld true "web" = true ∧
    (ExecInContainer staleWorld true false "web").1 = .error .commandFailed ∧
    (ExecInContainer staleWorld true true "web").1 = .ok () ∧
    (ExecInContainer staleWorld false false "web").1 = .ok () := by
  decide

/-- C13 (as amended): `ExecInContainer` judges the stored status as it is.  It fails with the
not-running error, without running the command, whenever the stored status is not `running`
(so when it is `stopped`); with the stored status `running` it goes on whatever the process
table holds: on Linux it runs the `nsenter` command and returns its result, elsewhere it
returns success without running it; it fails with the not-found error when the ID has no
`config.json`. -/
theorem ExecInContainer_stored_status (w : World) (linux commandOk : Bool) (id : String) :
    (∀ c, w.store.record? (containerPath id) = some c → c.Status ≠ StateRunning →
      (ExecInContainer w linux commandOk id).1 = .error (.notRunning id) ∧
      execRunsCommand w linux id = false) ∧
    (∀ c, w.store.record? (containerPath id) = some c → c.Status = StateRunning →
      (ExecInContainer w linux commandOk id).1
        = (if linux then (if commandOk then .ok () else .error .commandFailed) else .ok ()) ∧
      execRunsCommand w linux id = linux) ∧
    ((w.store.read (containerPath id) = none ∨
        ∃ s, w.store.read (containerPath id) = some s ∧ s.config = .missing) →
      (ExecInContainer w linux commandOk id).1 = .error (.notFound id) ∧
      execRunsCommand w linux id = false) := by
  have hrec : ∀ c, w.store.record? (containerPath id) = some c →
      getContainer w.store id = .ok c := by
    intro c hc
    unfold Store.record? at hc
    cases hr : w.store.read (containerPath id) with
    | none => rw [hr] at hc; cases hc
    | some s =>
      rw [hr] at hc
      rw [getContainer_of_read hr]
      obtain ⟨cfg, lg⟩ := s
      cases cfg with
      | missing => cases hc
      | corrupt => cases hc
      | record c1 =>
        simp only [Option.some.injEq] at hc
        rw [hc]
  refine ⟨?_, ?_, ?_⟩
  · intro c hc hs
    unfold ExecInContainer execRunsCommand
    rw [hrec c hc]
    simp only [if_pos hs]
    trivial
  · intro c hc hs
    have hs2 : ¬ c.Status ≠ StateRunning := fun h => h hs
    unfold ExecInContainer execRunsCommand
    rw [hrec c hc]
    simp only [if_neg hs2]
    cases linux <;> simp
  · intro h
    have hg : getContainer w.store id = .error (.notFound id) := by
      rcases h with h | ⟨s, hs, hm⟩
      · unfold getContainer; rw [h]; rfl
      · rw [getContainer_of_read hs, hm]
    unfold ExecInContainer execRunsCommand
    rw [hg]
    trivial

/-- The amended C13 at `stoppedWorld`, at `staleWorld` and at an ID without a directory. -/
theorem ExecInContainer_stored_status_witness :
    (ExecInContainer stoppedWorld true true "web").1 = .error (.notRunning "web") ∧
    (ExecInContainer staleWorld true false "web").1 = .error .commandFailed ∧
    (ExecInContainer staleWorld true true "db").1 = .error (.notFound "db") :=
  ⟨((ExecInContainer_stored_status stoppedWorld true true "web").1
      { webRecord with Status := StateStopped } (by decide) (by decide)).1,
   ((ExecInContainer_stored_status staleWorld true false "web").2.1
      webRecord (by decide) (by decide)).1,
   ((ExecInContainer_stored_status staleWorld true true "db").2.2 (Or.inl (by decide))).1⟩

/-- C12: when `RunContainerWithSecurity` returns success, the child was started with some
pid, and the directory of the container holds a `config.json` that decodes to the record with
the container ID (the name, or the generated token when the name is empty), the status
`running`, the pid of the child, the memory and cpu strings, the volumes and ports as given,
and the log file `container.log` of that directory, which exists. -/
theorem RunContainerWithSecurity_record (w : World) (env : RunEnv) (a : RunArgs)
    (h : (RunContainerWithSecurity w env a).1 = .ok ()) :
    ∃ pid s, env.startPid = some pid ∧
      (RunContainerWithSecurity w env a).2.store.read (containerPath (runContainerID env a))
        = some s ∧
      s.config = .record
        { ID := runContainerID env a
          Name := a.containerName
          Image := a.imageName
          Status := StateRunning
          Pid := pid
          CreatedAt := env.now
          Volumes := a.volumes
          Ports := a.ports
          Memory := a.memory
          CPU := a.cpu
          LogFile := pathString (containerPath (runContainerID env a) ++ ["container.log"]) } ∧
      (∃ l, s.log = some l) ∧
      runContainerID env a = (if a.containerName = "" then env.genID else a.containerName) := by
  obtain ⟨s0, hs0⟩ := Store.read_mkdir_isSome w.store (containerPath (runContainerID env a))
  have hs1 := Store.read_change_same _ _ (fun s : Slot => { s with log := some "" }) s0 hs0
  obtain ⟨s1, hs1x, hl1⟩ := read_extractArchive_some env.archive _ _ _ hs1
  have hs2 := Store.read_change_same _ _ env.imageConfig.apply _ hs1x
  have hlog : ∃ l, (env.imageConfig.apply s1).log = some l := by
    have hsome : ∃ l, s1.log = some l := Option.isSome_iff_exists.mp (hl1 rfl)
    obtain ⟨l, hl⟩ := hsome
    cases env.imageConfig with
    | notWritten => exact ⟨l, hl⟩
    | written d => cases d <;> exact ⟨l, hl⟩
  unfold RunContainerWithSecurity at h ⊢
  cases h1 : env.initDirOk <;> simp only [h1, Bool.not_true, Bool.not_false, if_true,
    Bool.false_eq_true, if_false] at h ⊢
  · cases h
  cases h2 : env.mkdirOk <;> simp only [h2, Bool.not_true, Bool.not_false, if_true,
    Bool.false_eq_true, if_false] at h ⊢
  · cases h
  cases h3 : env.createLogOk <;> simp only [h3, Bool.not_true, Bool.not_false, if_true,
    Bool.false_eq_true, if_false] at h ⊢
  · cases h
  cases h4 : env.mkRootfsOk <;> simp only [h4, Bool.not_true, Bool.not_false, if_true,
    Bool.false_eq_true, if_false] at h ⊢
  · cases h
  cases h5 : env.extractOk <;> simp only [h5, Bool.not_true, Bool.not_false, if_true,
    Bool.false_eq_true, if_false] at h ⊢
  · cases h
  cases h6 : env.openLogOk <;> simp only [h6, Bool.not_true, Bool.not_false, if_true,
    Bool.false_eq_true, if_false] at h ⊢
  · cases h
  cases h7 : env.startPid with
  | none => simp only [h7] at h; cases h
  | some pid =>
    simp only [h7] at h ⊢
    cases h8 : env.writeOk <;> simp only [h8, Bool.not_true, Bool.not_false, if_true,
      Bool.false_eq_true, if_false] at h ⊢
    · cases h
    · exact ⟨pid, _, rfl, Store.read_change_same _ _ _ _ hs2, rfl, hlog, rfl⟩

/-- C12 at the launch `run --image alpine --name web` into the empty store. -/
theorem RunContainerWithSecurity_record_witness :
    ∃ pid s, goodRunEnv.startPid = some pid ∧
      (RunContainerWithSecurity emptyWorld goodRunEnv webArgs).2.store.read
          (containerPath (runContainerID goodRunEnv webArgs)) = some s ∧
      s.config = .record
        { ID := runContainerID goodRunEnv webArgs
          Name := webArgs.containerName
          Image := webArgs.imageName
          Status := StateRunning
          Pid := pid
          CreatedAt := goodRunEnv.now
          Volumes := webArgs.volumes
          Ports := webArgs.ports
          Memory := webArgs.memory
          CPU := webArgs.cpu
          LogFile := pathString
            (containerPath (runContainerID goodRunEnv webArgs) ++ ["container.log"]) } ∧
      (∃ l, s.log = some l) ∧
      runContainerID goodRunEnv webArgs
        = (if webArgs.containerName = "" then goodRunEnv.genID else webArgs.containerName) :=
  RunContainerWithSecurity_record emptyWorld goodRunEnv webArgs (by decide)

/-! ## Claims on following a log -/

theorem byteLen_reverse (l : List Char) : byteLen l.reverse = byteLen l := by
  unfold byteLen
  rw [List.map_reverse, List.sum_reverse]

theorem scanLines_line (l cur rest : List Char) (h : '\n' ∉ l) :
    scanLines cur (l ++ '\n' :: rest) =
      if byteLen (l.reverse ++ cur) < maxScanTokenSize then
        dropCR (l.reverse ++ cur).reverse :: scanLines [] rest
      else [] := by
  induction l generalizing cur with
  | nil => simp [scanLines]
  | cons c l ih =>
    have hc : c ≠ '\n' := fun e => h (by rw [e]; exact List.mem_cons_self _ _)
    have hl : '\n' ∉ l := fun hm => h (List.mem_cons_of_mem _ hm)
    simp only [List.cons_append]
    rw [scanLines, if_neg hc, ih (c :: cur) hl]
    simp

theorem printLines_joinLines (lines : List (List Char))
    (h : ∀ l ∈ lines, '\n' ∉ l ∧ byteLen l < maxScanTokenSize ∧ l.getLast? ≠ some '\r') :
    printLines (joinLines lines) = joinLines lines := by
  induction lines with
  | nil => simp [printLines, joinLines, scanLines]
  | cons l lines ih =>
    obtain ⟨h1, h2, h3⟩ := h l (List.mem_cons_self _ _)
    have ih2 := ih (fun x hx => h x (List.mem_cons_of_mem _ hx))
    unfold printLines joinLines at ih2 ⊢
    simp only [List.map_cons, List.flatten_cons, List.append_assoc, List.singleton_append]
    rw [scanLines_line l [] _ h1]
    simp only [List.append_nil, byteLen_reverse, h2, if_true, List.reverse_reverse,
      List.map_cons, List.flatten_cons]
    rw [ih2]
    unfold dropCR
    rw [if_neg h3]
    simp

/-- C14 as stated fails: after the content `hello` and a line break has been drained, the
appended bytes `abc` are printed with a line break added, and of the appended bytes `a`,
carriage return, line break the carriage return is dropped. -/
theorem followPass_alters_bytes :
    followPass 6 ("hello\n".data ++ "abc".data) = "abc\n".data ∧
    "abc\n".data ≠ "abc".data ∧
    followPass 6 ("hello\n".data ++ "a\r\n".data) = "a\n".data ∧
    "a\n".data ≠ "a\r\n".data := by
  decide

/-- C14 (as amended): with `follow = true`, for existing content that has been drained and
an appended byte string made of complete lines, each ended by a line break, shorter than
65536 bytes and not ending in a carriage return, the bytes printed for the append are
exactly the appended bytes, once and in order. -/
theorem followPass_complete_lines (old : List Char) (lines : List (List Char))
    (h : ∀ l ∈ lines, '\n' ∉ l ∧ byteLen l < maxScanTokenSize ∧ l.getLast? ≠ some '\r') :
    followPass old.length (old ++ joinLines lines) = joinLines lines := by
  unfold followPass
  by_cases hl : (old ++ joinLines lines).length > old.length
  · rw [if_pos hl, List.drop_left, printLines_joinLines lines h]
  · rw [if_neg hl]
    have : (joinLines lines).length = 0 := by
      rw [List.length_append] at hl
      omega
    exact (List.length_eq_zero.1 this).symm

/-- The amended C14 at the drained content `hello` and the appended lines `abc` and `de`. -/
theorem followPass_complete_lines_witness :
    followPass 6 ("hello\n".data ++ "abc\nde\n".data) = "abc\nde\n".data :=
  followPass_complete_lines "hello\n".data ["abc".data, "de".data] (by decide)

/-! ## Claims on the invariant of the store -/

theorem RunContainer_eq (w : World) (env : RunEnv) (a : RunArgs) :
    RunContainer w env a.imageName a.containerName a.volumes a.ports a.memory a.cpu
      = RunContainerWithSecurity w env a := rfl

theorem Store.keys_change (st : Store) (p : Path) (f : Slot → Slot) :
    (st.change p f).keys = st.keys := by
  induction st with
  | nil => rfl
  | cons e rest ih =>
    unfold Store.change
    by_cases h : e.1 = p
    · rw [if_pos h]; rfl
    · rw [if_neg h]
      show e.1 :: (Store.change rest p f).keys = e.1 :: Store.keys rest
      rw [ih]

theorem Store.read_none_iff (st : Store) (p : Path) : st.read p = none ↔ p ∉ st.keys := by
  induction st with
  | nil => simp [Store.read, Store.keys]
  | cons e rest ih =>
    rw [Store.read_cons]
    show _ ↔ p ∉ e.1 :: Store.keys rest
    by_cases h : e.1 = p
    · rw [if_pos h]
      simp [h]
    · rw [if_neg h, ih]
      simp only [List.mem_cons, not_or]
      constructor
      · intro hp; exact ⟨fun e' => h e'.symm, hp⟩
      · intro hp; exact hp.2

theorem Store.keys_mkdir_nodup (st : Store) (p : Path) (h : st.keys.Nodup) :
    (st.mkdir p).keys.Nodup := by
  unfold Store.mkdir
  cases hr : st.read p with
  | some s => exact h
  | none =>
    simp only
    have hp : p ∉ st.keys := (Store.read_none_iff st p).1 hr
    show (List.map (fun e => e.1) (st ++ [(p, _)])).Nodup
    rw [List.map_append]
    apply List.Nodup.append h
    · simp
    · intro x hx hx2
      simp only [List.map_cons, List.map_nil, List.mem_singleton] at hx2
      rw [hx2] at hx
      exact hp hx

theorem wellKeyed_change (st : Store) (p : Path) (f : Slot → Slot) (hst : wellKeyed st)
    (hf : ∀ s c, (∀ c0, s.config = .record c0 → containerPath c0.ID = p) →
      (f s).config = .record c → containerPath c.ID = p) :
    wellKeyed (st.change p f) := by
  induction st with
  | nil => exact hst
  | cons e rest ih =>
    have hrest : wellKeyed rest := fun x hx => hst x (List.mem_cons_of_mem _ hx)
    have he := hst e (List.mem_cons_self _ _)
    unfold Store.change
    by_cases h : e.1 = p
    · rw [if_pos h]
      intro x hx c hc
      rcases List.mem_cons.1 hx with hx | hx
      · rw [hx] at hc ⊢
        simp only at hc ⊢
        rw [h]
        exact hf e.2 c (fun c0 hc0 => h ▸ he c0 hc0) hc
      · exact hrest x hx c hc
    · rw [if_neg h]
      intro x hx c hc
      rcases List.mem_cons.1 hx with hx | hx
      · rw [hx] at hc ⊢
        exact he c hc
      · exact ih hrest x hx c hc

theorem wellKeyed_mkdir (st : Store) (p : Path) (hst : wellKeyed st) :
    wellKeyed (st.mkdir p) := by
  unfold Store.mkdir
  cases st.read p with
  | some s => exact hst
  | none =>
    intro x hx c hc
    rcases List.mem_append.1 hx with hx | hx
    · exact hst x hx c hc
    · simp only [List.mem_singleton] at hx
      rw [hx] at hc
      cases hc

theorem wellKeyed_change_stopSlot (st : Store) (p : Path) (hst : wellKeyed st) :
    wellKeyed (st.change p stopSlot) := by
  apply wellKeyed_change st p stopSlot hst
  intro s c hs hc
  obtain ⟨c0, h0, h1⟩ := stopSlot_config_record hc
  rw [h1]
  exact hs c0 h0

theorem wellKeyed_appendFile (st : Store) (path text : String) (hst : wellKeyed st) :
    wellKeyed (appendFile st path text) := by
  unfold appendFile
  cases fileRef path with
  | config d =>
    apply wellKeyed_change st d _ hst
    intro s c _ hc
    exfalso
    obtain ⟨cfg, lg⟩ := s
    cases cfg <;> cases hc
  | log d =>
    apply wellKeyed_change st d _ hst
    intro s c hs hc
    exact hs c hc
  | other => exact hst

theorem Store.keys_appendFile (st : Store) (path text : String) :
    (appendFile st path text).keys = st.keys := by
  unfold appendFile
  cases fileRef path with
  | config d => exact Store.keys_change _ _ _
  | log d => exact Store.keys_change _ _ _
  | other => rfl

theorem wellKeyed_reconcileAll (w : World) (cs : List Container) (st : Store)
    (hst : wellKeyed st) : wellKeyed (reconcileAll w cs st) := by
  induction cs generalizing st with
  | nil => exact hst
  | cons c cs ih =>
    rw [reconcileAll_cons]
    apply ih
    by_cases hs : stale w c = true
    · rw [if_pos hs]; exact wellKeyed_change_stopSlot _ _ hst
    · rw [if_neg hs]; exact hst

theorem Store.keys_reconcileAll (w : World) (cs : List Container) (st : Store) :
    (reconcileAll w cs st).keys = st.keys := by
  induction cs generalizing st with
  | nil => rfl
  | cons c cs ih =>
    rw [reconcileAll_cons, ih]
    by_cases hs : stale w c = true
    · rw [if_pos hs]; exact Store.keys_change _ _ _
    · rw [if_neg hs]

/-- The store after `StopContainer`, in each of its outcomes. -/
theorem StopContainer_store (w : World) (now id : String) :
    (StopContainer w now id).2.store = w.store ∨
    (StopContainer w now id).2.store = w.store.change (containerPath id) stopSlot ∨
    ∃ path, (StopContainer w now id).2.store
      = appendFile (w.store.change (containerPath id) stopSlot) path (stopMarker now) := by
  cases hr : w.store.read (containerPath id) with
  | none =>
    left
    have : StopContainer w now id = (.error (.notFound id), w) := by
      unfold StopContainer; simp [hr]
    rw [this]
  | some s =>
    obtain ⟨cfg, lg⟩ := s
    cases cfg with
    | missing =>
      left
      have : StopContainer w now id = (.error (.notFound id), w) := by
        unfold StopContainer; simp [hr]
      rw [this]
    | corrupt =>
      left
      have : StopContainer w now id = (.error .badConfig, w) := by
        unfold StopContainer; simp [hr]
      rw [this]
    | record c =>
      by_cases hst : c.Status = StateStopped
      · left
        rw [StopContainer_alreadyStopped w now id c (by rw [hr]; rfl) hst]
      · by_cases hsig : signalOk w c.Pid = true
        · rw [StopContainer_ok w now id c lg hr hst hsig]
          simp only
          by_cases hl : c.LogFile ≠ ""
          · rw [if_pos hl]
            exact Or.inr (Or.inr ⟨_, rfl⟩)
          · rw [if_neg hl]
            exact Or.inr (Or.inl rfl)
        · left
          rw [StopContainer_killFailed w now id c lg hr hst (by simpa using hsig)]

theorem Store.change_change (st : Store) (p : Path) (f g : Slot → Slot) :
    (st.change p f).change p g = st.change p (fun s => g (f s)) := by
  induction st with
  | nil => rfl
  | cons e rest ih =>
    by_cases h : e.1 = p
    · simp only [Store.change, if_pos h]
    · simp only [Store.change, if_neg h]
      rw [ih]

theorem wellKeyed_imageConfig (st : Store) (p : Path) (wr : ImageConfigWrite)
    (hst : wellKeyed st) (hwr : ∀ c, wr ≠ .written (some c)) :
    wellKeyed (st.change p wr.apply) := by
  apply wellKeyed_change st p _ hst
  intro s c hs hc
  cases wr with
  | notWritten => exact hs c hc
  | written d =>
    cases d with
    | none => cases hc
    | some c1 => exact absurd rfl (hwr c1)

theorem wellKeyed_apply (st : Store) (x : ArchiveWrite) (hst : wellKeyed st)
    (hx : x.keyed = true) : wellKeyed (ArchiveWrite.apply st x) := by
  cases x with
  | dir d => exact wellKeyed_mkdir _ _ hst
  | config d content =>
    apply wellKeyed_change _ _ _ (wellKeyed_mkdir _ _ hst)
    intro s c _ hc
    cases content with
    | none => cases hc
    | some c1 =>
      simp only [ConfigFile.record.injEq] at hc
      rw [← hc]
      exact of_decide_eq_true hx
  | log d content =>
    apply wellKeyed_change _ _ _ (wellKeyed_mkdir _ _ hst)
    intro s c hs hc
    exact hs c hc

theorem wellKeyed_extractArchive (ar : List ArchiveWrite) (st : Store) (hst : wellKeyed st)
    (har : ar.all ArchiveWrite.keyed = true) : wellKeyed (extractArchive st ar) := by
  induction ar generalizing st with
  | nil => exact hst
  | cons x ar ih =>
    rw [List.all_cons, Bool.and_eq_true] at har
    rw [extractArchive_cons]
    exact ih _ (wellKeyed_apply st x hst har.1) har.2

theorem Store.keys_apply_nodup (st : Store) (x : ArchiveWrite) (h : st.keys.Nodup) :
    (ArchiveWrite.apply st x).keys.Nodup := by
  cases x with
  | dir d => exact Store.keys_mkdir_nodup _ _ h
  | config d content =>
    show ((st.mkdir d).change d _).keys.Nodup
    rw [Store.keys_change]
    exact Store.keys_mkdir_nodup _ _ h
  | log d content =>
    show ((st.mkdir d).change d _).keys.Nodup
    rw [Store.keys_change]
    exact Store.keys_mkdir_nodup _ _ h

theorem Store.keys_extractArchive_nodup (ar : List ArchiveWrite) (st : Store)
    (h : st.keys.Nodup) : (extractArchive st ar).keys.Nodup := by
  induction ar generalizing st with
  | nil => exact h
  | cons x ar ih =>
    rw [extractArchive_cons]
    exact ih _ (Store.keys_apply_nodup st x h)

/-- A launch that does not leave an image configuration behind, from an archive whose
entries are `keyed`, keeps every record in the directory of its ID. -/
theorem wellKeyed_run (w : World) (env : RunEnv) (a : RunArgs) (hst : wellKeyed w.store)
    (hb : env.leavesImageConfig = false) (har : env.archive.all ArchiveWrite.keyed = true) :
    wellKeyed (RunContainerWithSecurity w env a).2.store := by
  have hlog0 : wellKeyed ((w.store.mkdir (containerPath (runContainerID env a))).change
      (containerPath (runContainerID env a)) (fun s => { s with log := some "" })) := by
    apply wellKeyed_change _ _ _ (wellKeyed_mkdir _ _ hst)
    intro s c hs hc
    exact hs c hc
  have hlog := wellKeyed_extractArchive env.archive _ hlog0 har
  unfold RunEnv.leavesImageConfig at hb
  unfold RunContainerWithSecurity
  cases h1 : env.initDirOk <;> simp only [h1, Bool.not_true, Bool.not_false, if_true,
    Bool.false_eq_true, if_false]
  · exact hst
  cases h2 : env.mkdirOk <;> simp only [h2, Bool.not_true, Bool.not_false, if_true,
    Bool.false_eq_true, if_false]
  · exact hst
  cases h3 : env.createLogOk <;> simp only [h3, Bool.not_true, Bool.not_false, if_true,
    Bool.false_eq_true, if_false]
  · exact wellKeyed_mkdir _ _ hst
  cases h4 : env.mkRootfsOk <;> simp only [h4, Bool.not_true, Bool.not_false, if_true,
    Bool.false_eq_true, if_false]
  · exact hlog0
  cases h5 : env.extractOk <;> simp only [h5, Bool.not_true, Bool.not_false, if_true,
    Bool.false_eq_true, if_false]
  · exact hlog
  have hwritten : (env.openLogOk && env.startPid.isSome && env.writeOk) = false →
      ∀ c, env.imageConfig ≠ .written (some c) := by
    intro hfail c hc
    rw [h1, h2, h3, h4, h5, hc, hfail] at hb
    cases hb
  cases h6 : env.openLogOk <;> simp only [h6, Bool.not_true, Bool.not_false, if_true,
    Bool.false_eq_true, if_false]
  · exact wellKeyed_imageConfig _ _ _ hlog (hwritten (by rw [h6]; rfl))
  cases h7 : env.startPid with
  | none =>
    simp only
    exact wellKeyed_imageConfig _ _ _ hlog (hwritten (by rw [h6, h7]; rfl))
  | some pid =>
    simp only
    cases h8 : env.writeOk <;> simp only [h8, Bool.not_true, Bool.not_false, if_true,
      Bool.false_eq_true, if_false]
    · exact wellKeyed_imageConfig _ _ _ hlog (hwritten (by rw [h6, h7, h8]; rfl))
    · rw [Store.change_change]
      apply wellKeyed_change _ _ _ hlog
      intro s c _ hc
      simp only [ConfigFile.record.injEq] at hc
      rw [← hc]

theorem Store.keys_run_nodup (w : World) (env : RunEnv) (a : RunArgs)
    (hst : w.store.keys.Nodup) : (RunContainerWithSecurity w env a).2.store.keys.Nodup := by
  have h1k := Store.keys_mkdir_nodup w.store (containerPath (runContainerID env a)) hst
  have h2k : ((w.store.mkdir (containerPath (runContainerID env a))).change
      (containerPath (runContainerID env a)) (fun s => { s with log := some "" })).keys.Nodup := by
    rw [Store.keys_change]; exact h1k
  have h2x := Store.keys_extractArchive_nodup env.archive _ h2k
  unfold RunContainerWithSecurity
  cases h1 : env.initDirOk <;> simp only [h1, Bool.not_true, Bool.not_false, if_true,
    Bool.false_eq_true, if_false]
  · exact hst
  cases h2 : env.mkdirOk <;> simp only [h2, Bool.not_true, Bool.not_false, if_true,
    Bool.false_eq_true, if_false]
  · exact hst
  cases h3 : env.createLogOk <;> simp only [h3, Bool.not_true, Bool.not_false, if_true,
    Bool.false_eq_true, if_false]
  · exact h1k
  cases h4 : env.mkRootfsOk <;> simp only [h4, Bool.not_true, Bool.not_false, if_true,
    Bool.false_eq_true, if_false]
  · exact h2k
  cases h5 : env.extractOk <;> simp only [h5, Bool.not_true, Bool.not_false, if_true,
    Bool.false_eq_true, if_false]
  · exact h2x
  cases h6 : env.openLogOk <;> simp only [h6, Bool.not_true, Bool.not_false, if_true,
    Bool.false_eq_true, if_false]
  · rw [Store.keys_change]; exact h2x
  cases h7 : env.startPid with
  | none => simp only; rw [Store.keys_change]; exact h2x
  | some pid =>
    simp only
    cases h8 : env.writeOk <;> simp only [h8, Bool.not_true, Bool.not_false, if_true,
      Bool.false_eq_true, if_false]
    · rw [Store.keys_change]; exact h2x
    · rw [Store.keys_change, Store.keys_change]; exact h2x

theorem wellKeyed_step (w : World) (op : Op) (hst : wellKeyed w.store)
    (hb : op.leavesImageConfig = false) (har : op.archiveKeyed = true) :
    wellKeyed (step w op).store := by
  cases op with
  | run env a => exact wellKeyed_run w env a hst hb har
  | list =>
    show wellKeyed (ListContainers w).2.store
    rw [ListContainers_eq]
    exact wellKeyed_reconcileAll w _ _ hst
  | stop now id =>
    show wellKeyed (StopContainer w now id).2.store
    rcases StopContainer_store w now id with h | h | ⟨path, h⟩
    · rw [h]; exact hst
    · rw [h]; exact wellKeyed_change_stopSlot _ _ hst
    · rw [h]; exact wellKeyed_appendFile _ _ _ (wellKeyed_change_stopSlot _ _ hst)
  | exec linux commandOk id =>
    show wellKeyed (ExecInContainer w linux commandOk id).2.store
    rw [ExecInContainer_world]
    exact hst
  | logs id follow => exact hst

theorem keys_nodup_step (w : World) (op : Op) (hst : w.store.keys.Nodup) :
    (step w op).store.keys.Nodup := by
  cases op with
  | run env a =>
    exact Store.keys_run_nodup w env a hst
  | list =>
    show (ListContainers w).2.store.keys.Nodup
    rw [ListContainers_eq]
    simp only
    rw [Store.keys_reconcileAll]
    exact hst
  | stop now id =>
    show (StopContainer w now id).2.store.keys.Nodup
    rcases StopContainer_store w now id with h | h | ⟨path, h⟩
    · rw [h]; exact hst
    · rw [h, Store.keys_change]; exact hst
    · rw [h, Store.keys_appendFile, Store.keys_change]; exact hst
  | exec linux commandOk id =>
    show (ExecInContainer w linux commandOk id).2.store.keys.Nodup
    rw [ExecInContainer_world]
    exact hst
  | logs id follow => exact hst

theorem runTrace_invariant (tr : List ((List Int × List Int) × Op)) (w : World)
    (hk : wellKeyed w.store) (hn : w.store.keys.Nodup)
    (hok : ∀ e ∈ tr, e.2.leavesImageConfig = false)
    (har : ∀ e ∈ tr, e.2.archiveKeyed = true) :
    wellKeyed (runTrace w tr).store ∧ (runTrace w tr).store.keys.Nodup := by
  induction tr generalizing w with
  | nil => exact ⟨hk, hn⟩
  | cons e rest ih =>
    obtain ⟨os, op⟩ := e
    unfold runTrace
    apply ih
    · exact wellKeyed_step _ op hk (hok _ (List.mem_cons_self _ _))
        (har _ (List.mem_cons_self _ _))
    · exact keys_nodup_step _ op hn
    · exact fun e he => hok e (List.mem_cons_of_mem _ he)
    · exact fun e he => har e (List.mem_cons_of_mem _ he)

theorem getContainers_cons_eq (e : Path × Slot) (rest : Store) :
    getContainers (e :: rest) = getContainers rest ∨
    ∃ c, isListed e.1 ∧ e.2.config = .record c ∧
      getContainers (e :: rest) = c :: getContainers rest := by
  unfold getContainers
  rw [List.filterMap_cons]
  by_cases hl : e.1.dropLast = joinPath [ContainerDir] ∧ e.1 ≠ []
  · rw [if_pos hl]
    obtain ⟨p, cfg, lg⟩ := e
    cases cfg with
    | missing => exact Or.inl rfl
    | corrupt => exact Or.inl rfl
    | record c => exact Or.inr ⟨c, hl, rfl, rfl⟩
  · rw [if_neg hl]
    exact Or.inl rfl

/-- The IDs that `getContainers` returns resolve to directories of the store, in order. -/
theorem getContainers_paths_sublist (st : Store) (hk : wellKeyed st) :
    ((getContainers st).map (fun c => containerPath c.ID)).Sublist st.keys := by
  induction st with
  | nil => exact List.Sublist.slnil
  | cons e rest ih =>
    have hrest : wellKeyed rest := fun x hx => hk x (List.mem_cons_of_mem _ hx)
    have he := hk e (List.mem_cons_self _ _)
    show (List.map _ (getContainers (e :: rest))).Sublist (e.1 :: Store.keys rest)
    rcases getContainers_cons_eq e rest with h | ⟨c, -, hc, h⟩
    · rw [h]
      exact List.Sublist.cons _ (ih hrest)
    · rw [h, List.map_cons, he c hc]
      exact List.Sublist.cons₂ _ (ih hrest)

theorem getContainers_ids_nodup (st : Store) (hk : wellKeyed st) (hn : st.keys.Nodup) :
    ((getContainers st).map (fun c => c.ID)).Nodup := by
  have h1 : ((getContainers st).map (fun c => containerPath c.ID)).Nodup :=
    List.Nodup.sublist (getContainers_paths_sublist st hk) hn
  have h2 : (getContainers st).map (fun c => containerPath c.ID)
      = ((getContainers st).map (fun c => c.ID)).map containerPath := by
    rw [List.map_map]; rfl
  rw [h2] at h1
  exact List.Nodup.of_map _ h1

/-- C11 as stated fails.  From the empty store, the successful launch with the name `web/`
stores a record with the ID `web/` in the directory `web`; a launch of `web` that fails at
`cmd.Start` leaves in the directory `web` the image configuration, which `getContainers`
returns as a record with the empty ID; and two such failed launches, of `web` and of `db`,
leave two returned records that share the empty ID. -/
theorem getContainers_id_not_directory :
    (runTrace emptyWorld
      [(([], []), Op.run goodRunEnv { webArgs with containerName := "web/" })]).store.keys
      = [["var", "run", "minidocker", "containers", "web"]] ∧
    (getContainers (runTrace emptyWorld
      [(([], []), Op.run goodRunEnv { webArgs with containerName := "web/" })]).store).map
        (fun c => c.ID) = ["web/"] ∧
    (runTrace emptyWorld [(([], []), Op.run startFailEnv webArgs)]).store.keys
      = [["var", "run", "minidocker", "containers", "web"]] ∧
    (getContainers (runTrace emptyWorld [(([], []), Op.run startFailEnv webArgs)]).store).map
        (fun c => c.ID) = [""] ∧
    (getContainers (runTrace emptyWorld
      [(([], []), Op.run startFailEnv webArgs),
       (([], []), Op.run startFailEnv { webArgs with containerName := "db" })]).store).map
        (fun c => c.ID) = ["", ""] := by
  decide

/-- An entry of the image archive leaves a record under another directory than its ID
names: the launch with the name `.` has its rootfs at `containers/rootfs`, a direct
subdirectory of `ContainerDir`, and an archive entry `config.json` is returned from there by
`getContainers` with the ID that it holds. -/
theorem archive_id_not_directory :
    containerPath "." ++ ["rootfs"] = ["var", "run", "minidocker", "containers", "rootfs"] ∧
    (getContainers (runTrace emptyWorld
      [(([], []), Op.run
        { goodRunEnv with
          archive := [.config (containerPath "." ++ ["rootfs"]) (some webRecord)] }
        { webArgs with containerName := "." })]).store).map (fun c => c.ID) = ["web"] := by
  decide

/-- C11 (as amended): starting from an empty store, under every outcome of `StopContainer`
and `ListContainers` and under every outcome of `RunContainer` and `RunContainerWithSecurity`
that is a success or a failure that leaves no image configuration behind, from image
archives in which every entry `config.json` that decodes as a record and is written into the
store has an ID that resolves to the directory of the file, every record that
`getContainers` returns from a directory has an ID that `filepath.Join(ContainerDir, id)`
resolves to that directory, hence no two returned records share an ID.  A launch by
`RunContainer` is the launch by `RunContainerWithSecurity` with any profile. -/
theorem getContainers_ids_resolve (tr : List ((List Int × List Int) × Op)) (w : World)
    (env : RunEnv) (a : RunArgs)
    (hempty : w.store = [])
    (hok : ∀ e ∈ tr, e.2.leavesImageConfig = false)
    (har : ∀ e ∈ tr, e.2.archiveKeyed = true) :
    (∀ e ∈ (runTrace w tr).store, isListed e.1 → ∀ c, e.2.config = .record c →
      containerPath c.ID = e.1) ∧
    ((getContainers (runTrace w tr).store).map (fun c => c.ID)).Nodup ∧
    RunContainer w env a.imageName a.containerName a.volumes a.ports a.memory a.cpu
      = RunContainerWithSecurity w env a := by
  have hk : wellKeyed w.store := by
    rw [hempty]
    intro e he
    cases he
  have hn : w.store.keys.Nodup := by
    rw [hempty]
    exact List.nodup_nil
  obtain ⟨h1, h2⟩ := runTrace_invariant tr w hk hn hok har
  exact ⟨fun e he _ c hc => h1 e he c hc, getContainers_ids_nodup _ h1 h2, rfl⟩

/-- The amended C11 at the launches of `web/` and of `db`, the latter from an archive with an
entry `config.json` below the rootfs, a launch that fails at the image extraction, a list
and a stop. -/
theorem getContainers_ids_resolve_witness :
    ((getContainers (runTrace emptyWorld
      [(([], []), Op.run goodRunEnv { webArgs with containerName := "web/" }),
       (([77], []), Op.run
          { goodRunEnv with
            archive := [.config (containerPath "db/rootfs")
              (some { webRecord with ID := "db/rootfs" })] }
          { webArgs with containerName := "db" }),
       (([77], []), Op.run { goodRunEnv with extractOk := false }
          { webArgs with containerName := "cache" }),
       (([77], []), Op.list),
       (([77], []), Op.stop "t1" "db")]).store).map (fun c => c.ID)).Nodup :=
  (getContainers_ids_resolve
    [(([], []), Op.run goodRunEnv { webArgs with containerName := "web/" }),
     (([77], []), Op.run
        { goodRunEnv with
          archive := [.config (containerPath "db/rootfs")
            (some { webRecord with ID := "db/rootfs" })] }
        { webArgs with containerName := "db" }),
     (([77], []), Op.run { goodRunEnv with extractOk := false }
        { webArgs with containerName := "cache" }),
     (([77], []), Op.list),
     (([77], []), Op.stop "t1" "db")]
    emptyWorld goodRunEnv webArgs rfl (by decide) (by decide)).2.1

/-! ## Claims on profiles, signals and stopping -/

/-- C24: with `privileged = false` and a valid security-profile name, the profile passed to
the launcher is `GetSecurityProfile(name)` in every field except `ReadOnlyRootfs`, which is
the profile's own value or the read-only flag: read-only forces a read-only root on
`default`, and without it `default` stays writable and `restricted` read-only. -/
theorem runActionProfile_readOnly (tbl : Char → Char) (name : String) (readOnly : Bool)
    (p : SecurityProfile) (h : GetSecurityProfile tbl name = .ok p) :
    runActionProfile tbl name readOnly false
      = .ok { p with ReadOnlyRootfs := p.ReadOnlyRootfs || readOnly } ∧
    runActionProfile tbl "default" true false
      = .ok { DefaultSecurityProfile with ReadOnlyRootfs := true } ∧
    runActionProfile tbl "default" false false = .ok DefaultSecurityProfile ∧
    runActionProfile tbl "restricted" false false = .ok RestrictedSecurityProfile ∧
    RestrictedSecurityProfile.ReadOnlyRootfs = true ∧
    DefaultSecurityProfile.ReadOnlyRootfs = false := by
  have hd : GetSecurityProfile tbl "default" = .ok DefaultSecurityProfile := by
    unfold GetSecurityProfile
    rw [ToLower_ascii tbl "default" (by decide)]
    decide
  have hr : GetSecurityProfile tbl "restricted" = .ok RestrictedSecurityProfile := by
    unfold GetSecurityProfile
    rw [ToLower_ascii tbl "restricted" (by decide)]
    decide
  refine ⟨?_, ?_, ?_, ?_, rfl, rfl⟩
  · unfold runActionProfile
    simp only [Bool.false_eq_true, if_false, h]
    cases readOnly
    · simp
    · simp
  · unfold runActionProfile
    simp only [Bool.false_eq_true, if_false, hd, if_true]
  · unfold runActionProfile
    simp only [Bool.false_eq_true, if_false, hd]
  · unfold runActionProfile
    simp only [Bool.false_eq_true, if_false, hr]

/-- C24 at the profile name `Restricted` with the read-only flag. -/
theorem runActionProfile_readOnly_witness :
    runActionProfile id "Restricted" true false = .ok RestrictedSecurityProfile ∧
    runActionProfile id "default" true false
      = .ok { DefaultSecurityProfile with ReadOnlyRootfs := true } :=
  ⟨(runActionProfile_readOnly id "Restricted" true RestrictedSecurityProfile (by decide)).1,
   (runActionProfile_readOnly id "Restricted" true RestrictedSecurityProfile (by decide)).2.1⟩

/-- C22: on Linux and darwin `killProcess` sends `SIGTERM` first and returns an error
exactly when sending `SIGTERM` fails, nothing else being sent then; when `SIGTERM` succeeds
it sends `SIGKILL` next and returns success whatever the result of sending `SIGKILL`. -/
theorem killProcessOn_unix (goos : String) (sigtermOk sigkillOk killOk : Bool)
    (hos : goos = "linux" ∨ goos = "darwin") :
    (killProcessOn goos sigtermOk sigkillOk killOk).1.head? = some .sigterm ∧
    ((∃ err, (killProcessOn goos sigtermOk sigkillOk killOk).2 = .error err) ↔
      sigtermOk = false) ∧
    (sigtermOk = false → (killProcessOn goos sigtermOk sigkillOk killOk).1 = [.sigterm]) ∧
    (sigtermOk = true →
      killProcessOn goos sigtermOk sigkillOk killOk = ([.sigterm, .sigkill], .ok ())) := by
  unfold killProcessOn
  rw [if_pos hos]
  cases sigtermOk <;> cases sigkillOk <;> simp

/-- C22 on Linux with a `SIGKILL` that fails, and on darwin with a `SIGTERM` that fails. -/
theorem killProcessOn_unix_witness :
    killProcessOn "linux" true false false = ([.sigterm, .sigkill], .ok ()) ∧
    (killProcessOn "darwin" false true true).1 = [.sigterm] :=
  ⟨(killProcessOn_unix "linux" true false false (by decide)).2.2.2 rfl,
   (killProcessOn_unix "darwin" false true true (by decide)).2.2.1 rfl⟩

theorem killProcess_eq_killProcessOn (w : World) (pid : Int) (sigkillOk killOk : Bool) :
    ((killProcess w pid).1 = true ↔
      (killProcessOn "linux" (signalOk w pid) sigkillOk killOk).2 = .ok ()) := by
  unfold killProcess killProcessOn
  cases h : signalOk w pid <;> cases sigkillOk <;> simp

/-- The state after a `StopContainer` that fails, and the four causes of failure. -/
theorem StopContainer_error_world (w : World) (now id : String) (err : Failure)
    (h : (StopContainer w now id).1 = .error err) :
    (err = .notFound id ∨ err = .badConfig ∨ err = .alreadyStopped id ∨ err = .killFailed) ∧
    (StopContainer w now id).2 = w := by
  cases hr : w.store.read (containerPath id) with
  | none =>
    have hs : StopContainer w now id = (.error (.notFound id), w) := by
      unfold StopContainer; simp [hr]
    rw [hs] at h ⊢
    exact ⟨Or.inl (Except.error.inj h).symm, rfl⟩
  | some s =>
    obtain ⟨cfg, lg⟩ := s
    cases cfg with
    | missing =>
      have hs : StopContainer w now id = (.error (.notFound id), w) := by
        unfold StopContainer; simp [hr]
      rw [hs] at h ⊢
      exact ⟨Or.inl (Except.error.inj h).symm, rfl⟩
    | corrupt =>
      have hs : StopContainer w now id = (.error .badConfig, w) := by
        unfold StopContainer; simp [hr]
      rw [hs] at h ⊢
      exact ⟨Or.inr (Or.inl (Except.error.inj h).symm), rfl⟩
    | record c =>
      by_cases hst : c.Status = StateStopped
      · rw [StopContainer_alreadyStopped w now id c (by rw [hr]; rfl) hst] at h ⊢
        exact ⟨Or.inr (Or.inr (Or.inl (Except.error.inj h).symm)), rfl⟩
      · by_cases hsig : signalOk w c.Pid = true
        · rw [StopContainer_ok w now id c lg hr hst hsig] at h
          cases h
        · rw [StopContainer_killFailed w now id c lg hr hst (by simpa using hsig)] at h ⊢
          exact ⟨Or.inr (Or.inr (Or.inr (Except.error.inj h).symm)), rfl⟩

/-- C27: whenever `StopContainer` returns an error, which it does because the record is
missing, is undecodable, is already stopped, or the termination signal could not be sent,
the state is the same before and after the call: no record and no log file has changed. -/
theorem StopContainer_error_unchanged (w : World) (now id : String) (err : Failure)
    (h : (StopContainer w now id).1 = .error err) :
    (err = .notFound id ∨ err = .badConfig ∨ err = .alreadyStopped id ∨ err = .killFailed) ∧
    (StopContainer w now id).2 = w ∧
    (∀ q, (StopContainer w now id).2.store.read q = w.store.read q) := by
  have hw := StopContainer_error_world w now id err h
  exact ⟨hw.1, hw.2, fun q => by rw [hw.2]⟩

/-- C27 at `stoppedWorld` (already stopped) and at `staleWorld` (the signal cannot be
sent). -/
theorem StopContainer_error_unchanged_witness :
    (StopContainer stoppedWorld "t1" "web").2 = stoppedWorld ∧
    (StopContainer staleWorld "t1" "web").2 = staleWorld :=
  ⟨(StopContainer_error_unchanged stoppedWorld "t1" "web" (.alreadyStopped "web")
      (by decide)).2.1,
   (StopContainer_error_unchanged staleWorld "t1" "web" .killFailed (by decide)).2.1⟩

/-! ## The stop marker -/

theorem stopSlot_log (s : Slot) : (stopSlot s).log = s.log := by
  unfold stopSlot
  cases s.config <;> rfl

theorem Store.log_change_stopSlot (st : Store) (p d : Path) :
    ((st.change p stopSlot).read d).bind (fun s => s.log)
      = (st.read d).bind (fun s => s.log) := by
  rw [Store.read_change]
  by_cases hq : d = p
  · rw [if_pos hq]
    cases st.read d with
    | none => rfl
    | some s => simp only [Option.map_some', Option.some_bind, stopSlot_log]
  · rw [if_neg hq]

/-- C23 as stated fails: at `selfLogWorld` the `log_file` of the record of `web` is not empty
and names a file that exists and can be opened, the `config.json` of the record.  The
`StopContainer` succeeds, and the marker appended to that file leaves a `config.json` that
does not decode: the store holds no record of `web` with status `stopped`. -/
theorem StopContainer_marker_in_config :
    (selfLogWorld.store.record? (containerPath "web")).map (fun c => c.LogFile)
      = some "/var/run/minidocker/containers/web/config.json" ∧
    fileRef "/var/run/minidocker/containers/web/config.json" = .config (containerPath "web") ∧
    (StopContainer selfLogWorld "t1" "web").1 = .ok () ∧
    (StopContainer selfLogWorld "t1" "web").2.store.record? (containerPath "web") = none ∧
    ((StopContainer selfLogWorld "t1" "web").2.store.read (containerPath "web")).map
      (fun s => s.config) = some .corrupt := by
  decide

/-- C23 (as amended): after a successful `StopContainer` on a record whose `log_file` is not
empty and is not the path of the record's own `config.json`, the stored status is `stopped`;
and when the `log_file` is the path of the `container.log` of a directory of the store, which
is there, the new content of that log is its previous content followed by one marker, which
ends in `Container stopped` and a line break. -/
theorem StopContainer_log_marker (w : World) (now id : String) (c : Container)
    (lg : Option String)
    (hok : (StopContainer w now id).1 = .ok ())
    (hstored : w.store.read (containerPath id) = some { config := .record c, log := lg })
    (hne : c.LogFile ≠ "")
    (hself : fileRef c.LogFile ≠ .config (containerPath id)) :
    (StopContainer w now id).2.store.record? (containerPath id)
      = some { c with Status := StateStopped } ∧
    (∀ d l, fileRef c.LogFile = .log d → (w.store.read d).bind (fun s => s.log) = some l →
      ((StopContainer w now id).2.store.read d).bind (fun s => s.log)
        = some (l ++ stopMarker now)) ∧
    stopMarker now = ("\n[" ++ now ++ "] ") ++ "Container stopped\n" := by
  have hns : c.Status ≠ StateStopped := by
    intro hst
    rw [StopContainer_alreadyStopped w now id c (by rw [hstored]; rfl) hst] at hok
    cases hok
  have hsig : signalOk w c.Pid = true := by
    cases hs : signalOk w c.Pid with
    | true => rfl
    | false =>
      rw [StopContainer_killFailed w now id c lg hstored hns hs] at hok
      cases hok
  rw [StopContainer_ok w now id c lg hstored hns hsig]
  simp only [if_pos hne]
  refine ⟨?_, ?_, ?_⟩
  · have h1 : (appendFile (w.store.change (containerPath id) stopSlot) c.LogFile
        (stopMarker now)).record? (containerPath id)
        = (w.store.change (containerPath id) stopSlot).record? (containerPath id) :=
      Store.record?_of_config_eq (appendFile_read_config _ _ _ _ hself)
    rw [h1]
    unfold Store.record?
    rw [Store.read_change_same _ _ _ _ hstored]
    rfl
  · intro d l href hlog
    unfold appendFile
    rw [href]
    simp only
    rw [Store.read_change]
    simp only [if_true]
    have h2 := Store.log_change_stopSlot w.store (containerPath id) d
    rw [hlog] at h2
    cases hx : (w.store.change (containerPath id) stopSlot).read d with
    | none => rw [hx] at h2; cases h2
    | some s =>
      rw [hx] at h2
      simp only [Option.some_bind] at h2
      simp only [Option.map_some', Option.some_bind, h2, Option.map_some']
  · have hlit : "] " ++ "Container stopped\n" = "] Container stopped\n" := by decide
    unfold stopMarker
    simp only [String.append_assoc, hlit]

/-- The amended C23 at `liveWorld`: the record of `web` is stopped and its log gains the one
marker. -/
theorem StopContainer_log_marker_witness :
    (StopContainer liveWorld "t1" "web").2.store.record? (containerPath "web")
      = some { webRecord with Status := StateStopped } ∧
    ((StopContainer liveWorld "t1" "web").2.store.read (containerPath "web")).bind
        (fun s => s.log) = some ("" ++ stopMarker "t1") :=
  ⟨(StopContainer_log_marker liveWorld "t1" "web" webRecord (some "")
      (by decide) (by decide) (by decide) (by decide)).1,
   (StopContainer_log_marker liveWorld "t1" "web" webRecord (some "")
      (by decide) (by decide) (by decide) (by decide)).2.1 (containerPath "web") ""
      (by decide) (by decide)⟩

/-! ## Port specs -/

theorem setupPortMapping_error (linux : Bool) (ports : List String) (err : Failure)
    (h : setupPortMapping linux ports = .error err) :
    linux = true ∧
    ∃ port, port ∈ ports ∧ err = .portFormat port ∧ malformedPort port = true := by
  induction ports with
  | nil => unfold setupPortMapping at h; cases h
  | cons port ports ih =>
    unfold setupPortMapping at h
    cases linux with
    | false => simp at h
    | true =>
      simp only [Bool.not_true, Bool.false_eq_true, if_false] at h
      by_cases hp : (splitRune ':' [] port.data).length ≠ 2
      · rw [if_pos hp] at h
        exact ⟨rfl, port, List.mem_cons_self _ _, (Except.error.inj h).symm,
          decide_eq_true hp⟩
      · rw [if_neg hp] at h
        obtain ⟨_, p, hm, he, hl⟩ := ih h
        exact ⟨rfl, p, List.mem_cons_of_mem _ hm, he, hl⟩

/-- On Linux a list with a malformed spec makes `setupPortMapping` return the error of a
malformed spec of the list (the first one). -/
theorem setupPortMapping_malformed (ports : List String) (bad : String) (hbad : bad ∈ ports)
    (hm : malformedPort bad = true) :
    ∃ port, port ∈ ports ∧ malformedPort port = true ∧
      setupPortMapping true ports = .error (.portFormat port) := by
  induction ports with
  | nil => cases hbad
  | cons port ports ih =>
    unfold setupPortMapping
    simp only [Bool.not_true, Bool.false_eq_true, if_false]
    by_cases hp : (splitRune ':' [] port.data).length ≠ 2
    · rw [if_pos hp]
      exact ⟨port, List.mem_cons_self _ _, decide_eq_true hp, rfl⟩
    · rw [if_neg hp]
      have hin : bad ∈ ports := by
        cases hbad with
        | head => exact absurd (of_decide_eq_true hm) hp
        | tail _ h => exact h
      obtain ⟨p, hpm, hpb, he⟩ := ih hin
      exact ⟨p, List.mem_cons_of_mem _ hpm, hpb, he⟩

theorem setupPortMapping_off_linux (ports : List String) :
    setupPortMapping false ports = .ok () := by
  cases ports <;> rfl

theorem read_change_withoutPorts (st : Store) (p q : Path) (f g : Slot → Slot)
    (hfg : ∀ s, (f s).withoutPorts = (g s).withoutPorts) :
    ((st.change p f).read q).map Slot.withoutPorts
      = ((st.change p g).read q).map Slot.withoutPorts := by
  rw [Store.read_change, Store.read_change]
  by_cases hq : q = p
  · rw [if_pos hq, if_pos hq]
    cases st.read q with
    | none => rfl
    | some s => simp only [Option.map_some', hfg]
  · rw [if_neg hq, if_neg hq]

/-- The result and the state of the launch with the port step written out are those of
`RunContainerWithSecurity`. -/
theorem RunContainerWithSecurityPorts_eq (w : World) (env : RunEnv) (linux : Bool)
    (a : RunArgs) :
    ((RunContainerWithSecurityPorts w env linux a).1,
      (RunContainerWithSecurityPorts w env linux a).2.1) = RunContainerWithSecurity w env a := by
  unfold RunContainerWithSecurityPorts RunContainerWithSecurity
  cases env.initDirOk <;> cases env.mkdirOk <;> cases env.createLogOk <;>
    cases env.mkRootfsOk <;> cases env.extractOk <;> cases env.openLogOk <;>
    cases env.startPid <;> cases env.writeOk <;> rfl

/-- The warning of a launch is the error of `setupPortMapping`. -/
theorem RunContainerWithSecurityPorts_warning (w : World) (env : RunEnv) (linux : Bool)
    (a : RunArgs) (err : Failure)
    (h : (RunContainerWithSecurityPorts w env linux a).2.2 = some err) :
    setupPortMapping linux a.ports = .error err := by
  unfold RunContainerWithSecurityPorts at h
  have hw : (if a.ports.length > 0 then
      match setupPortMapping linux a.ports with
      | .error err => some err
      | .ok _ => none
    else none) = some err → setupPortMapping linux a.ports = .error err := by
    intro hx
    by_cases hl : a.ports.length > 0
    · rw [if_pos hl] at hx
      cases hs : setupPortMapping linux a.ports with
      | ok u => rw [hs] at hx; cases hx
      | error e => rw [hs] at hx; rw [Option.some.inj hx]
    · rw [if_neg hl] at hx; cases hx
  cases h1 : env.initDirOk <;> simp only [h1, Bool.not_true, Bool.not_false, if_true,
    Bool.false_eq_true, if_false] at h
  · cases h
  cases h2 : env.mkdirOk <;> simp only [h2, Bool.not_true, Bool.not_false, if_true,
    Bool.false_eq_true, if_false] at h
  · cases h
  cases h3 : env.createLogOk <;> simp only [h3, Bool.not_true, Bool.not_false, if_true,
    Bool.false_eq_true, if_false] at h
  · cases h
  cases h4 : env.mkRootfsOk <;> simp only [h4, Bool.not_true, Bool.not_false, if_true,
    Bool.false_eq_true, if_false] at h
  · cases h
  cases h5 : env.extractOk <;> simp only [h5, Bool.not_true, Bool.not_false, if_true,
    Bool.false_eq_true, if_false] at h
  · cases h
  cases h6 : env.openLogOk <;> simp only [h6, Bool.not_true, Bool.not_false, if_true,
    Bool.false_eq_true, if_false] at h
  · exact hw h
  cases h7 : env.startPid with
  | none => simp only [h7] at h; exact hw h
  | some pid =>
    simp only [h7] at h
    cases h8 : env.writeOk <;> simp only [h8, Bool.not_true, Bool.not_false, if_true,
      Bool.false_eq_true, if_false] at h
    · exact hw h
    · exact hw h

/-- A launch that succeeds has printed the error of `setupPortMapping` as its warning. -/
theorem RunContainerWithSecurityPorts_ok_warning (w : World) (env : RunEnv) (linux : Bool)
    (a : RunArgs) (err : Failure)
    (hok : (RunContainerWithSecurityPorts w env linux a).1 = .ok ())
    (hs : setupPortMapping linux a.ports = .error err) :
    (RunContainerWithSecurityPorts w env linux a).2.2 = some err := by
  have hl : a.ports.length > 0 := by
    cases hp : a.ports with
    | nil => rw [hp] at hs; cases hs
    | cons x xs => simp
  unfold RunContainerWithSecurityPorts at hok ⊢
  cases h1 : env.initDirOk <;> simp only [h1, Bool.not_true, Bool.not_false, if_true,
    Bool.false_eq_true, if_false] at hok ⊢
  · cases hok
  cases h2 : env.mkdirOk <;> simp only [h2, Bool.not_true, Bool.not_false, if_true,
    Bool.false_eq_true, if_false] at hok ⊢
  · cases hok
  cases h3 : env.createLogOk <;> simp only [h3, Bool.not_true, Bool.not_false, if_true,
    Bool.false_eq_true, if_false] at hok ⊢
  · cases hok
  cases h4 : env.mkRootfsOk <;> simp only [h4, Bool.not_true, Bool.not_false, if_true,
    Bool.false_eq_true, if_false] at hok ⊢
  · cases hok
  cases h5 : env.extractOk <;> simp only [h5, Bool.not_true, Bool.not_false, if_true,
    Bool.false_eq_true, if_false] at hok ⊢
  · cases hok
  cases h6 : env.openLogOk <;> simp only [h6, Bool.not_true, Bool.not_false, if_true,
    Bool.false_eq_true, if_false] at hok ⊢
  · cases hok
  cases h7 : env.startPid with
  | none => simp only [h7] at hok; cases hok
  | some pid =>
    simp only [h7] at hok ⊢
    cases h8 : env.writeOk <;> simp only [h8, Bool.not_true, Bool.not_false, if_true,
      Bool.false_eq_true, if_false] at hok ⊢
    · cases hok
    · rw [if_pos hl, hs]

/-- The ports of a launch reach only the ports of the record. -/
theorem RunContainerWithSecurity_ports_frame (w : World) (env : RunEnv) (a : RunArgs)
    (ports : List String) :
    (RunContainerWithSecurity w env { a with ports := ports }).1
      = (RunContainerWithSecurity w env { a with ports := [] }).1 ∧
    (RunContainerWithSecurity w env { a with ports := ports }).2.procs
      = (RunContainerWithSecurity w env { a with ports := [] }).2.procs ∧
    (∀ q, ((RunContainerWithSecurity w env { a with ports := ports }).2.store.read q).map
        Slot.withoutPorts
      = ((RunContainerWithSecurity w env { a with ports := [] }).2.store.read q).map
        Slot.withoutPorts) := by
  refine ⟨?_, ?_, ?_⟩
  · unfold RunContainerWithSecurity runContainerID
    cases env.initDirOk <;> cases env.mkdirOk <;> cases env.createLogOk <;>
      cases env.mkRootfsOk <;> cases env.extractOk <;> cases env.openLogOk <;>
      cases env.startPid <;> cases env.writeOk <;> rfl
  · unfold RunContainerWithSecurity runContainerID
    cases env.initDirOk <;> cases env.mkdirOk <;> cases env.createLogOk <;>
      cases env.mkRootfsOk <;> cases env.extractOk <;> cases env.openLogOk <;>
      cases env.startPid <;> cases env.writeOk <;> rfl
  · intro q
    unfold RunContainerWithSecurity runContainerID
    cases env.initDirOk <;> cases env.mkdirOk <;> cases env.createLogOk <;>
      cases env.mkRootfsOk <;> cases env.extractOk <;> cases env.openLogOk <;>
      cases env.startPid <;> cases env.writeOk <;> first
      | rfl
      | exact read_change_withoutPorts _ _ _ _ _ (fun s => rfl)

/-- C21 as stated fails in its last clause: off Linux `setupPortMapping` returns no error for
the spec `8080`, which has no colon, and the launch prints no warning. -/
theorem setupPortMapping_accepts_off_linux :
    malformedPort "8080" = true ∧
    setupPortMapping false ["8080"] = .ok () ∧
    RunContainerWithSecurityPorts emptyWorld goodRunEnv false { webArgs with ports := ["8080"] }
      = ((RunContainerWithSecurity emptyWorld goodRunEnv { webArgs with ports := ["8080"] }).1,
         (RunContainerWithSecurity emptyWorld goodRunEnv { webArgs with ports := ["8080"] }).2,
         none) ∧
    (RunContainerWithSecurityPorts emptyWorld goodRunEnv false
      { webArgs with ports := ["8080"] }).1 = .ok () := by
  decide

/-- C21 (as amended): for every list of port specs, well formed or not, the result of
`RunContainerWithSecurity`, the processes and every file of the store, the ports of the
record apart, are those of the launch with an empty port list and otherwise the same inputs
and environment.  On Linux a malformed spec makes `setupPortMapping` return the error of a
malformed spec of the list, which a launch that succeeds has printed as a warning; a warning
is printed for nothing else; off Linux `setupPortMapping` returns no error and no warning is
printed. -/
theorem RunContainerWithSecurity_ports (w : World) (env : RunEnv) (linux : Bool) (a : RunArgs)
    (ports : List String) :
    (RunContainerWithSecurityPorts w env linux { a with ports := ports }).1
      = (RunContainerWithSecurityPorts w env linux { a with ports := [] }).1 ∧
    (RunContainerWithSecurityPorts w env linux { a with ports := ports }).2.1.procs
      = (RunContainerWithSecurityPorts w env linux { a with ports := [] }).2.1.procs ∧
    (∀ q, ((RunContainerWithSecurityPorts w env linux { a with ports := ports }).2.1.store.read
        q).map Slot.withoutPorts
      = ((RunContainerWithSecurityPorts w env linux { a with ports := [] }).2.1.store.read
        q).map Slot.withoutPorts) ∧
    ((RunContainerWithSecurityPorts w env linux { a with ports := ports }).1,
      (RunContainerWithSecurityPorts w env linux { a with ports := ports }).2.1)
      = RunContainerWithSecurity w env { a with ports := ports } ∧
    (linux = true → ∀ bad ∈ ports, malformedPort bad = true →
      ∃ port, port ∈ ports ∧ malformedPort port = true ∧
        setupPortMapping linux ports = .error (.portFormat port) ∧
        ((RunContainerWithSecurityPorts w env linux { a with ports := ports }).1 = .ok () →
          (RunContainerWithSecurityPorts w env linux { a with ports := ports }).2.2
            = some (.portFormat port))) ∧
    (∀ err, (RunContainerWithSecurityPorts w env linux { a with ports := ports }).2.2
        = some err →
      linux = true ∧ ∃ port, port ∈ ports ∧ err = .portFormat port ∧
        malformedPort port = true) ∧
    (linux = false → setupPortMapping linux ports = .ok () ∧
      (RunContainerWithSecurityPorts w env linux { a with ports := ports }).2.2 = none) ∧
    (RunContainerWithSecurityPorts w env linux { a with ports := [] }).2.2 = none := by
  have hp := RunContainerWithSecurityPorts_eq w env linux { a with ports := ports }
  have h0 := RunContainerWithSecurityPorts_eq w env linux { a with ports := [] }
  have hf := RunContainerWithSecurity_ports_frame w env a ports
  have hp1 : (RunContainerWithSecurityPorts w env linux { a with ports := ports }).1
      = (RunContainerWithSecurity w env { a with ports := ports }).1 := by rw [← hp]
  have hp2 : (RunContainerWithSecurityPorts w env linux { a with ports := ports }).2.1
      = (RunContainerWithSecurity w env { a with ports := ports }).2 := by rw [← hp]
  have h01 : (RunContainerWithSecurityPorts w env linux { a with ports := [] }).1
      = (RunContainerWithSecurity w env { a with ports := [] }).1 := by rw [← h0]
  have h02 : (RunContainerWithSecurityPorts w env linux { a with ports := [] }).2.1
      = (RunContainerWithSecurity w env { a with ports := [] }).2 := by rw [← h0]
  have hnone : ∀ b : Bool, (RunContainerWithSecurityPorts w env b { a with ports := [] }).2.2
      = none := by
    intro b
    cases hx : (RunContainerWithSecurityPorts w env b { a with ports := [] }).2.2 with
    | none => rfl
    | some err =>
      have hs := RunContainerWithSecurityPorts_warning w env b { a with ports := [] } err hx
      cases hs
  refine ⟨?_, ?_, ?_, hp, ?_, ?_, ?_, hnone linux⟩
  · rw [hp1, h01]; exact hf.1
  · rw [hp2, h02]; exact hf.2.1
  · intro q
    rw [hp2, h02]
    exact hf.2.2 q
  · intro hlin bad hbad hm
    subst hlin
    obtain ⟨port, hin, hmal, herr⟩ := setupPortMapping_malformed ports bad hbad hm
    exact ⟨port, hin, hmal, herr, fun hok =>
      RunContainerWithSecurityPorts_ok_warning w env true { a with ports := ports } _ hok herr⟩
  · intro err herr
    exact setupPortMapping_error linux ports err
      (RunContainerWithSecurityPorts_warning w env linux { a with ports := ports } err herr)
  · intro hlin
    subst hlin
    refine ⟨setupPortMapping_off_linux ports, ?_⟩
    cases hx : (RunContainerWithSecurityPorts w env false { a with ports := ports }).2.2 with
    | none => rfl
    | some err =>
      have hs := RunContainerWithSecurityPorts_warning w env false { a with ports := ports }
        err hx
      rw [setupPortMapping_off_linux] at hs
      cases hs

/-- The amended C21 on Linux at the specs `80:80` and `8080`: the second has no colon, the
launch succeeds and its warning is the error of that spec. -/
theorem RunContainerWithSecurity_ports_witness :
    ∃ port, port ∈ ["80:80", "8080"] ∧ malformedPort port = true ∧
      setupPortMapping true ["80:80", "8080"] = .error (.portFormat port) ∧
      ((RunContainerWithSecurityPorts emptyWorld goodRunEnv true
          { webArgs with ports := ["80:80", "8080"] }).1 = .ok () →
        (RunContainerWithSecurityPorts emptyWorld goodRunEnv true
          { webArgs with ports := ["80:80", "8080"] }).2.2 = some (.portFormat port)) :=
  (RunContainerWithSecurity_ports emptyWorld goodRunEnv true webArgs ["80:80", "8080"]).2.2.2.2.1
    rfl "8080" (by decide) (by decide)

/-! ## The end of the follow loop -/

theorem followLoop_cons_error (id : String) (o : PollObs) (rest : List PollObs)
    (err : Failure) (h : (followIteration id o).2 = some err) :
    followLoop id (o :: rest) = followIteration id o := by
  unfold followLoop
  cases hi : followIteration id o with
  | mk out res =>
    rw [hi] at h
    simp only at h
    rw [h]

theorem followLoop_append_error (id : String) (pre rest : List PollObs) (o : PollObs)
    (err : Failure) (h : (followIteration id o).2 = some err) :
    followLoop id (pre ++ o :: rest) = followLoop id (pre ++ [o]) ∧
    ∃ e, (followLoop id (pre ++ o :: rest)).2 = some e := by
  induction pre with
  | nil =>
    rw [List.nil_append, List.nil_append, followLoop_cons_error id o rest err h,
      followLoop_cons_error id o [] err h]
    exact ⟨rfl, err, h⟩
  | cons p pre ih =>
    rw [List.cons_append, List.cons_append]
    unfold followLoop
    cases hi : followIteration id p with
    | mk out res =>
      cases res with
      | some e => exact ⟨rfl, e, rfl⟩
      | none =>
        simp only
        rw [ih.1]
        obtain ⟨e, he⟩ := ih.2
        rw [ih.1] at he
        exact ⟨rfl, e, he⟩

theorem followIteration_gone (id : String) (o : PollObs)
    (hgone : o.dirAtStat = false ∨ o.goneAtEnd = true) :
    ∃ err, (followIteration id o).2 = some err := by
  unfold followIteration
  cases hs : o.seek with
  | none => exact ⟨_, rfl⟩
  | some currentPos =>
    simp only
    cases hd : o.dirAtStat with
    | false => exact ⟨_, rfl⟩
    | true =>
      rw [hd] at hgone
      have hg : o.goneAtEnd = true := by
        cases hgone with
        | inl h => cases h
        | inr h => exact h
      simp only [if_true]
      cases hl : o.log with
      | none => exact ⟨_, rfl⟩
      | some log =>
        simp only
        by_cases hc : log.length > currentPos ∧ o.seekStartOk = false
        · rw [if_pos hc]; exact ⟨_, rfl⟩
        · rw [if_neg hc, hg]; exact ⟨_, rfl⟩

/-- C25: in the follow loop of `LogsFromContainer`, an iteration that runs while the
directory of the container is not there (it is missing when the log is examined, or the last
check of the iteration finds the path missing) returns an error, and the loop does not go on
past it: the iterations after it do not run. -/
theorem followLoop_ends_when_gone (id : String) (pre rest : List PollObs) (o : PollObs)
    (hgone : o.dirAtStat = false ∨ o.goneAtEnd = true) :
    (∃ err, (followIteration id o).2 = some err) ∧
    followLoop id (pre ++ o :: rest) = followLoop id (pre ++ [o]) ∧
    (∃ err, (followLoop id (pre ++ o :: rest)).2 = some err) := by
  obtain ⟨err, herr⟩ := followIteration_gone id o hgone
  exact ⟨⟨err, herr⟩, followLoop_append_error id pre rest o err herr⟩

/-- C25 at a loop whose second iteration runs after the directory of `web` was removed. -/
theorem followLoop_ends_when_gone_witness :
    (pollObs emptyWorld "web" 0).dirAtStat = false ∧
    followLoop "web" ([pollObs liveWorld "web" 0] ++ pollObs emptyWorld "web" 0
        :: [pollObs liveWorld "web" 0])
      = followLoop "web" ([pollObs liveWorld "web" 0] ++ [pollObs emptyWorld "web" 0]) :=
  ⟨by decide,
   (followLoop_ends_when_gone "web" [pollObs liveWorld "web" 0] [pollObs liveWorld "web" 0]
      (pollObs emptyWorld "web" 0) (Or.inl (by decide))).2.1⟩

/-! ## Generated identifiers -/

theorem hextable_getD_lower (n : Nat) : isLowerHex (hextable.getD n '0') = true := by
  by_cases h : n < 16
  · interval_cases n <;> decide
  · have hd : hextable.getD n '0' = '0' :=
      List.getD_eq_default _ _ (by
        have hl : hextable.length = 16 := by decide
        omega)
    rw [hd]
    decide

theorem EncodeToString_length (bytes : List Nat) :
    (EncodeToString bytes).length = 2 * bytes.length := by
  unfold EncodeToString
  rw [String.length_mk]
  induction bytes with
  | nil => rfl
  | cons b bs ih =>
    simp only [List.map_cons, List.flatten_cons, List.length_append, List.length_cons,
      List.length_nil, ih]
    omega

theorem EncodeToString_hex (bytes : List Nat) :
    ∀ c ∈ (EncodeToString bytes).data, isLowerHex c = true := by
  unfold EncodeToString
  induction bytes with
  | nil => intro c hc; cases hc
  | cons b bs ih =>
    intro c hc
    simp only [List.map_cons, List.flatten_cons, List.mem_append, List.mem_cons,
      List.mem_nil_iff, or_false] at hc
    rcases hc with (hc | hc) | hc
    · rw [hc]; exact hextable_getD_lower _
    · rw [hc]; exact hextable_getD_lower _
    · exact ih c hc

theorem GenerateID_length (length : Nat) (src : Nat → Nat) (pid : Nat) :
    (GenerateID length (some src) pid).length = 2 * (length / 2) := by
  unfold GenerateID
  simp only
  rw [EncodeToString_length, List.length_map, List.length_range]

/-- C26: when the random source succeeds, `GenerateID(length)` returns `2 * (length / 2)`
lower-case hexadecimal digits: for an odd length that is one character less than `length`
(six characters for `GenerateID(7)`), for an even length, such as the 8 of the container ID,
it is `length`. -/
theorem GenerateID_odd_length (length : Nat) (src : Nat → Nat) (pid : Nat) :
    (GenerateID length (some src) pid).length = 2 * (length / 2) ∧
    (∀ c ∈ (GenerateID length (some src) pid).data, isLowerHex c = true) ∧
    (GenerateID 7 (some src) pid).length = 6 ∧
    GenerateID 7 (some (fun _ => 171)) 1 = "ababab" ∧
    (GenerateID 8 (some src) pid).length = 8 ∧
    ((GenerateID length (some src) pid).length = length ↔ length % 2 = 0) := by
  have hl := GenerateID_length length src pid
  refine ⟨hl, ?_, GenerateID_length 7 src pid, by decide, GenerateID_length 8 src pid, ?_⟩
  · unfold GenerateID
    exact EncodeToString_hex _
  · rw [hl]
    omega

/-! ## Capability masks -/

theorem lookup_mem {β : Type} (l : List (String × β)) (k : String) (v : β)
    (h : l.lookup k = some v) : (k, v) ∈ l := by
  induction l with
  | nil => cases h
  | cons e l ih =>
    obtain ⟨k0, v0⟩ := e
    by_cases hk : k = k0
    · subst hk
      simp only [List.lookup_cons, beq_self_eq_true] at h
      cases h
      exact List.mem_cons_self _ _
    · have hb : (k == k0) = false := by simpa using hk
      simp only [List.lookup_cons, hb] at h
      exact List.mem_cons_of_mem _ (ih h)

theorem capMap_lt (cap : String) (val : Nat) (h : capMap.lookup cap = some val) :
    val < 2 ^ 64 := by
  have hall : ∀ e ∈ capMap, e.2 < 2 ^ 64 := by decide
  exact hall _ (lookup_mem capMap cap val h)

theorem lor_allOnes (x : Nat) (h : x < 2 ^ 64) :
    x ||| 0xFFFFFFFFFFFFFFFF = 0xFFFFFFFFFFFFFFFF := by
  apply Nat.eq_of_testBit_eq
  intro i
  have hm : (0xFFFFFFFFFFFFFFFF : Nat) = 2 ^ 64 - 1 := by norm_num
  rw [Nat.testBit_lor, hm, Nat.testBit_two_pow_sub_one]
  by_cases hi : i < 64
  · simp [hi]
  · have hx : x.testBit i = false := by
      apply Nat.testBit_lt_two_pow
      exact Nat.lt_of_lt_of_le h (Nat.pow_le_pow_right (by decide) (by omega))
    simp [hi, hx]

theorem getCapabilitiesLoop_cons (cap : String) (caps : List String) (result : Nat) :
    getCapabilitiesLoop (cap :: caps) result =
      if cap = "ALL" then 0xFFFFFFFFFFFFFFFF
      else
        match capMap.lookup cap with
        | some val => getCapabilitiesLoop caps (result ||| val)
        | none => getCapabilitiesLoop caps result := rfl

theorem getCapabilitiesLoop_lt (caps : List String) (result : Nat) (h : result < 2 ^ 64) :
    getCapabilitiesLoop caps result < 2 ^ 64 := by
  induction caps generalizing result with
  | nil => exact h
  | cons cap caps ih =>
    rw [getCapabilitiesLoop_cons]
    by_cases hc : cap = "ALL"
    · rw [if_pos hc]; norm_num
    · rw [if_neg hc]
      cases hl : capMap.lookup cap with
      | none => exact ih result h
      | some val => exact ih _ (Nat.or_lt_two_pow h (capMap_lt cap val hl))

theorem getCapabilitiesLoop_eq (caps : List String) (result : Nat) :
    getCapabilitiesLoop caps result =
      if "ALL" ∈ caps then 0xFFFFFFFFFFFFFFFF else result ||| getCapabilitiesLoop caps 0 := by
  induction caps generalizing result with
  | nil => simp [getCapabilitiesLoop]
  | cons cap caps ih =>
    rw [getCapabilitiesLoop_cons, getCapabilitiesLoop_cons]
    by_cases hc : cap = "ALL"
    · rw [if_pos hc, if_pos (by rw [hc]; exact List.mem_cons_self _ _)]
    · rw [if_neg hc, if_neg hc]
      have hmem : ("ALL" ∈ cap :: caps) ↔ "ALL" ∈ caps := by
        simp only [List.mem_cons]
        constructor
        · intro h
          cases h with
          | inl h => exact absurd h.symm hc
          | inr h => exact h
        · exact Or.inr
      cases hl : capMap.lookup cap with
      | none =>
        simp only
        rw [ih result]
        simp only [hmem]
      | some val =>
        simp only
        rw [ih (result ||| val), ih (0 ||| val)]
        simp only [hmem]
        by_cases ha : "ALL" ∈ caps
        · simp only [if_pos ha]
        · simp only [if_neg ha, Nat.zero_or, Nat.lor_assoc]

theorem getCapabilitiesLoop_append (a b : List String) (result : Nat) :
    getCapabilitiesLoop (a ++ b) result =
      if "ALL" ∈ a then 0xFFFFFFFFFFFFFFFF
      else getCapabilitiesLoop b (getCapabilitiesLoop a result) := by
  induction a generalizing result with
  | nil => simp [getCapabilitiesLoop]
  | cons cap caps ih =>
    rw [List.cons_append, getCapabilitiesLoop_cons, getCapabilitiesLoop_cons]
    by_cases hc : cap = "ALL"
    · rw [if_pos hc, if_pos (by rw [hc]; exact List.mem_cons_self _ _)]
    · rw [if_neg hc, if_neg hc]
      have hmem : ("ALL" ∈ cap :: caps) ↔ "ALL" ∈ caps := by
        simp only [List.mem_cons]
        constructor
        · intro h
          cases h with
          | inl h => exact absurd h.symm hc
          | inr h => exact h
        · exact Or.inr
      cases hl : capMap.lookup cap with
      | none => simp only [ih, hmem]
      | some val => simp only [ih, hmem]

theorem GetCapabilities_lt (caps : List String) : GetCapabilities caps < 2 ^ 64 :=
  getCapabilitiesLoop_lt caps 0 (by norm_num)

theorem GetCapabilities_all (caps : List String) (h : "ALL" ∈ caps) :
    GetCapabilities caps = 0xFFFFFFFFFFFFFFFF := by
  unfold GetCapabilities
  rw [getCapabilitiesLoop_eq, if_pos h]

theorem GetCapabilities_append (a b : List String) :
    GetCapabilities (a ++ b) = GetCapabilities a ||| GetCapabilities b := by
  by_cases ha : "ALL" ∈ a
  · rw [GetCapabilities_all a ha, GetCapabilities_all (a ++ b) (List.mem_append_left _ ha),
      Nat.lor_comm, lor_allOnes _ (GetCapabilities_lt b)]
  · unfold GetCapabilities
    rw [getCapabilitiesLoop_append, if_neg ha, getCapabilitiesLoop_eq b]
    by_cases hb : "ALL" ∈ b
    · rw [if_pos hb, getCapabilitiesLoop_eq b 0, if_pos hb,
        lor_allOnes _ (getCapabilitiesLoop_lt a 0 (by norm_num))]
    · rw [if_neg hb]

/-- C29: `GetCapabilities` turns concatenation into bitwise disjunction,
`GetCapabilities(a ++ b) = GetCapabilities(a) | GetCapabilities(b)`, so that neither the
order nor a repetition of names matters; a name that is not in its table contributes 0; and
the result is `0xFFFFFFFFFFFFFFFF` whenever `ALL` occurs in the list. -/
theorem GetCapabilities_union (a b : List String) (cap : String) :
    GetCapabilities (a ++ b) = GetCapabilities a ||| GetCapabilities b ∧
    GetCapabilities (a ++ b) = GetCapabilities (b ++ a) ∧
    GetCapabilities (a ++ a) = GetCapabilities a ∧
    (capMap.lookup cap = none →
      GetCapabilities [cap] = 0 ∧ GetCapabilities (a ++ cap :: b) = GetCapabilities (a ++ b)) ∧
    ("ALL" ∈ a → GetCapabilities a = 0xFFFFFFFFFFFFFFFF) ∧
    GetCapabilities (a ++ "ALL" :: b) = 0xFFFFFFFFFFFFFFFF := by
  refine ⟨GetCapabilities_append a b, ?_, ?_, ?_, GetCapabilities_all a, ?_⟩
  · rw [GetCapabilities_append, GetCapabilities_append, Nat.lor_comm]
  · rw [GetCapabilities_append, Nat.or_self]
  · intro hn
    have hne : cap ≠ "ALL" := by
      intro he
      rw [he] at hn
      revert hn
      decide
    have h1 : GetCapabilities [cap] = 0 := by
      unfold GetCapabilities getCapabilitiesLoop
      rw [if_neg hne, hn]
      rfl
    refine ⟨h1, ?_⟩
    have hsplit : a ++ cap :: b = a ++ ([cap] ++ b) := rfl
    rw [hsplit, GetCapabilities_append a, GetCapabilities_append [cap], h1, Nat.zero_or,
      GetCapabilities_append]
  · exact GetCapabilities_all _ (List.mem_append_right _ (List.mem_cons_self _ _))

/-! ## The catalog of the local registry -/

theorem catalogLoop_mem (images : List ImageInfo) (repos : List String) (n : String) :
    n ∈ catalogLoop images repos ↔ n ∈ repos ∨ ∃ img, img ∈ images ∧ img.Name = n := by
  induction images generalizing repos with
  | nil => simp [catalogLoop]
  | cons img images ih =>
    unfold catalogLoop
    by_cases hf : repos.any (fun r => r == img.Name) = true
    · rw [if_pos hf, ih]
      have hin : img.Name ∈ repos := by
        obtain ⟨r, hr, he⟩ := List.any_eq_true.mp hf
        have : r = img.Name := by simpa using he
        rw [← this]; exact hr
      constructor
      · intro h
        rcases h with h | ⟨i, hi, hn⟩
        · exact Or.inl h
        · exact Or.inr ⟨i, List.mem_cons_of_mem _ hi, hn⟩
      · intro h
        rcases h with h | ⟨i, hi, hn⟩
        · exact Or.inl h
        · cases hi with
          | head => rw [← hn]; exact Or.inl hin
          | tail _ hi => exact Or.inr ⟨i, hi, hn⟩
    · rw [if_neg hf, ih]
      simp only [List.mem_append, List.mem_cons, List.mem_nil_iff, or_false]
      constructor
      · intro h
        rcases h with (h | h) | ⟨i, hi, hn⟩
        · exact Or.inl h
        · exact Or.inr ⟨img, Or.inl rfl, h.symm⟩
        · exact Or.inr ⟨i, Or.inr hi, hn⟩
      · intro h
        rcases h with h | ⟨i, hi, hn⟩
        · exact Or.inl (Or.inl h)
        · rcases hi with hi | hi
          · rw [hi] at hn; exact Or.inl (Or.inr hn.symm)
          · exact Or.inr ⟨i, hi, hn⟩

theorem catalogLoop_nodup (images : List ImageInfo) (repos : List String)
    (h : repos.Nodup) : (catalogLoop images repos).Nodup := by
  induction images generalizing repos with
  | nil => exact h
  | cons img images ih =>
    unfold catalogLoop
    by_cases hf : repos.any (fun r => r == img.Name) = true
    · rw [if_pos hf]; exact ih repos h
    · rw [if_neg hf]
      apply ih
      have hnot : img.Name ∉ repos := by
        intro hin
        apply hf
        exact List.any_eq_true.mpr ⟨img.Name, hin, by simp⟩
      rw [List.nodup_append]
      refine ⟨h, List.nodup_singleton _, ?_⟩
      intro a ha hb
      rw [List.mem_singleton] at hb
      rw [hb] at ha
      exact hnot ha

/-- The catalog begins with the names already found, in their order. -/
theorem catalogLoop_prefix (images : List ImageInfo) (repos : List String) :
    ∃ more, catalogLoop images repos = repos ++ more := by
  induction images generalizing repos with
  | nil => exact ⟨[], (List.append_nil _).symm⟩
  | cons img images ih =>
    unfold catalogLoop
    by_cases hf : repos.any (fun r => r == img.Name) = true
    · rw [if_pos hf]; exact ih repos
    · rw [if_neg hf]
      obtain ⟨more, hm⟩ := ih (repos ++ [img.Name])
      exact ⟨img.Name :: more, by rw [hm, List.append_assoc]; rfl⟩

/-- C30: the handler of the local registry answers a request whose path is exactly
`/v2/_catalog` with 400 `Invalid repository name`, whatever the registry holds, because the
path has one part after `/v2/`; the catalog, in which each image name occurs once, is the
answer to a path with a further part, such as `/v2/_catalog/`. -/
theorem registryHandler_catalog_path (images : Except Failure (List ImageInfo))
    (list : List ImageInfo) :
    registryHandler "/v2/_catalog" images = .badRequest ∧
    registryHandler "/v2/_catalog/" (.ok list) = .catalog (catalogLoop list []) ∧
    (catalogLoop list []).Nodup ∧
    (∀ n, n ∈ catalogLoop list [] ↔ ∃ img, img ∈ list ∧ img.Name = n) := by
  refine ⟨?_, ?_, catalogLoop_nodup list [] List.nodup_nil, ?_⟩
  · have h1 : ¬ (("/v2/_catalog" : String) = "/v2/") := by decide
    have h2 : (registryParts "/v2/_catalog").length < 2 := by decide
    unfold registryHandler
    simp only [if_neg h1, if_pos h2]
  · have h1 : ¬ (("/v2/_catalog/" : String) = "/v2/") := by decide
    have h2 : ¬ (registryParts "/v2/_catalog/").length < 2 := by decide
    have h3 : (registryParts "/v2/_catalog/").head? = some "_catalog" := by decide
    unfold registryHandler
    simp only [if_neg h1, if_neg h2, if_pos h3]
  · intro n
    rw [catalogLoop_mem]
    simp

/-- The answers to the paths of the catalog for a registry with three images of two
names. -/
theorem registryHandler_examples :
    registryParts "/v2/_catalog" = ["_catalog"] ∧
    registryHandler "/v2/_catalog"
      (.ok [⟨"a", "1", 0, "", 0, []⟩, ⟨"b", "1", 0, "", 0, []⟩, ⟨"a", "2", 0, "", 0, []⟩])
      = .badRequest ∧
    registryHandler "/v2/_catalog/"
      (.ok [⟨"a", "1", 0, "", 0, []⟩, ⟨"b", "1", 0, "", 0, []⟩, ⟨"a", "2", 0, "", 0, []⟩])
      = .catalog ["a", "b"] ∧
    registryHandler "/v2/a/tags/list"
      (.ok [⟨"a", "1", 0, "", 0, []⟩, ⟨"b", "1", 0, "", 0, []⟩, ⟨"a", "2", 0, "", 0, []⟩])
      = .tagsList "a" ["1", "2"] := by
  decide

/-! ## What reconciliation changes -/

theorem Store.read_of_record? (st : Store) (q : Path) (c : Container)
    (h : st.record? q = some c) : ∃ lg, st.read q = some { config := .record c, log := lg } := by
  unfold Store.record? at h
  cases hr : st.read q with
  | none => rw [hr] at h; cases h
  | some s =>
    obtain ⟨cfg, lg⟩ := s
    rw [hr] at h
    cases cfg with
    | missing => cases h
    | corrupt => cases h
    | record c0 =>
      simp only [Option.some.injEq] at h
      rw [h]
      exact ⟨lg, rfl⟩

/-- A live record of a directory is stopped by `ListContainers` when a stale record stored
elsewhere carries its ID: in `crossWorld` the record of `b`, whose process is alive, has the
status `stopped` after the listing. -/
theorem ListContainers_changes_live_record :
    crossWorld.store.record? (containerPath "b")
      = some { webRecord with ID := "b", Name := "b" } ∧
    pidRunning crossWorld 4242 = true ∧
    stale crossWorld { webRecord with ID := "b", Name := "b" } = false ∧
    (ListContainers crossWorld).2.store.record? (containerPath "b")
      = some { webRecord with ID := "b", Name := "b", Status := StateStopped } := by
  decide

/-- C28, amended: when every stale running record that `ListContainers` reads is the record
stored in the directory that its ID names, reconciliation changes only the status of stale
running records: the files of every directory are the same before and after the call, or
the directory holds a stale running record, of which only the status has changed, to
`stopped`, the log being the same. -/
theorem ListContainers_changes_status_only (w : World)
    (hkeyed : ∀ c ∈ getContainers w.store, stale w c = true →
      w.store.record? (containerPath c.ID) = some c)
    (q : Path) :
    (ListContainers w).2.procs = w.procs ∧
    ((ListContainers w).2.store.read q = w.store.read q ∨
      ∃ c lg, stale w c = true ∧
        w.store.read q = some { config := .record c, log := lg } ∧
        (ListContainers w).2.store.read q
          = some { config := .record { c with Status := StateStopped }, log := lg }) := by
  rw [ListContainers_eq]
  refine ⟨rfl, ?_⟩
  show (reconcileAll w (getContainers w.store) w.store).read q = w.store.read q ∨ _
  rw [read_reconcileAll]
  by_cases hany : (getContainers w.store).any
      (fun c => stale w c && decide (containerPath c.ID = q)) = true
  · rw [if_pos hany]
    obtain ⟨c, hc, hp⟩ := List.any_eq_true.mp hany
    simp only [Bool.and_eq_true, decide_eq_true_eq] at hp
    obtain ⟨hst, hq⟩ := hp
    have hrec := hkeyed c hc hst
    rw [hq] at hrec
    obtain ⟨lg, hread⟩ := Store.read_of_record? w.store q c hrec
    right
    refine ⟨c, lg, hst, hread, ?_⟩
    rw [hread]
    rfl
  · rw [if_neg hany]
    exact Or.inl rfl

/-- C28, amended, at `staleWorld`: the record of `web` keeps every field but the status. -/
theorem ListContainers_changes_status_only_witness :
    (∀ c ∈ getContainers staleWorld.store, stale staleWorld c = true →
      staleWorld.store.record? (containerPath c.ID) = some c) ∧
    (ListContainers staleWorld).2.procs = staleWorld.procs ∧
    ((ListContainers staleWorld).2.store.read (containerPath "web")
        = staleWorld.store.read (containerPath "web") ∨
      ∃ c lg, stale staleWorld c = true ∧
        staleWorld.store.read (containerPath "web") = some { config := .record c, log := lg } ∧
        (ListContainers staleWorld).2.store.read (containerPath "web")
          = some { config := .record { c with Status := StateStopped }, log := lg }) :=
  ⟨by decide,
   ListContainers_changes_status_only staleWorld (by decide) (containerPath "web")⟩

end Minidocker
